import Mathlib

set_option maxRecDepth 8000

/-!
Verification development for the ELF object differencing engine in
src/kpatch-build/create-diff-object.c.

The C program is shallowly embedded: pointer links between sections,
symbols and relocation entries become positions (list indexes) wrapped in
Option, machine integers become Nat or Int with explicit truncation, and
the fatal ERROR / DIFF_FATAL exits become Option results (none = the
process dies).  Inclusion flags, which the C code mutates in place on the
section and symbol structs, are modelled as two parallel mark lists (one
Bool per section position, one per symbol position); everything else that
the code mutates (statuses, twins, relocation tables) stays inside the
structures and is updated by rebuilding the lists.
-/

/-! ## ELF constants used by the program -/

def STT_NOTYPE : Nat := 0
def STT_OBJECT : Nat := 1
def STT_FUNC : Nat := 2
def STT_SECTION : Nat := 3
def STT_FILE : Nat := 4
def STB_LOCAL : Nat := 0
def STB_GLOBAL : Nat := 1
def SHT_PROGBITS : Nat := 1
def SHT_SYMTAB : Nat := 2
def SHT_STRTAB : Nat := 3
def SHT_RELA : Nat := 4
def SHT_NOBITS : Nat := 8
def SHN_UNDEF : Nat := 0
def SHN_LORESERVE : Nat := 0xff00
def SHN_ABS : Nat := 0xfff1
def SHF_STRINGS : Nat := 0x20
def EV_CURRENT : Nat := 1
def ELFCLASSNONE : Nat := 0
def ELFCLASS32 : Nat := 1
def ELFCLASS64 : Nat := 2
def EI_DATA : Nat := 5
def EI_CLASS : Nat := 4

/-- ELF64_R_SYM: the symbol index part of an r_info word. -/
def GELF_R_SYM (i : Nat) : Nat := i / 2 ^ 32

/-- ELF64_R_TYPE: the relocation type part of an r_info word. -/
def GELF_R_TYPE (i : Nat) : Nat := i % 2 ^ 32

/-- ELF64_R_INFO: rebuild an r_info word from symbol index and type. -/
def GELF_R_INFO (s t : Nat) : Nat := s * 2 ^ 32 + t

/-- ELF64_ST_INFO: rebuild an st_info byte from bind and type. -/
def GELF_ST_INFO (b t : Nat) : Nat := b * 16 + t % 16

/-- Truncation of a 64-bit integer to a 32-bit signed int, with the
modular wraparound GCC documents for out-of-range signed conversions. -/
def wrap32 (z : Int) : Int := (z + 2 ^ 31) % 2 ^ 32 - 2 ^ 31

/-! ## Data model (struct section, struct symbol, struct rela) -/

inductive Status where
  | NEW
  | CHANGED
  | SAME
deriving DecidableEq

/-- GElf_Sym: the raw symbol record. -/
structure GElfSym where
  st_name : Nat
  st_info : Nat
  st_other : Nat
  st_shndx : Nat
  st_value : Nat
  st_size : Nat
deriving DecidableEq

/-- GElf_Shdr: the raw section header. -/
structure GElfShdr where
  sh_name : Nat
  sh_type : Nat
  sh_flags : Nat
  sh_addr : Nat
  sh_offset : Nat
  sh_size : Nat
  sh_link : Nat
  sh_info : Nat
  sh_addralign : Nat
  sh_entsize : Nat
deriving DecidableEq

/-- GElf_Rela: the raw relocation record (r_offset is a 64-bit unsigned
address, r_addend a 64-bit signed integer). -/
structure GElfRela where
  r_offset : Nat
  r_info : Nat
  r_addend : Int
deriving DecidableEq

/-- struct rela.  The C struct stores the 64-bit r_offset and r_addend a
second time in 32-bit signed int fields (offset, addend) and the type in
an unsigned char; sym becomes the position of the target symbol in the
symbol list; string is the NUL-truncated byte string materialised for
targets inside SHF_STRINGS sections. -/
structure Rela where
  rela : GElfRela
  symPos : Nat
  type : Nat
  addend : Int
  offset : Int
  string : Option (List Nat)
  twin : Option Nat
  status : Status
deriving DecidableEq

/-- struct symbol.  sec becomes secIdx, the position of the owning section
in the section list; name is NULL (none) only for symbol 0. -/
structure KSymbol where
  twin : Option Nat
  secIdx : Option Nat
  sym : GElfSym
  name : Option String
  index : Nat
  bind : Nat
  type : Nat
  status : Status
deriving DecidableEq

/-- struct section.  The C union of the rela-section fields (base, relas)
and the content-section fields (rela, secsym, sym) is flattened; loaded
graphs only ever populate the fields of the appropriate variant.
dataBuf/dataSize model the Elf_Data buffer and its d_size. -/
structure KSection where
  twin : Option Nat
  sh : GElfShdr
  dataBuf : List Nat
  dataSize : Nat
  name : String
  index : Nat
  status : Status
  basePos : Option Nat
  relas : List Rela
  relaPos : Option Nat
  symPos : Option Nat
  secsymPos : Option Nat
deriving DecidableEq

/-- struct kpatch_elf: the per-file object graph (the Elf handle is kept
abstractly as the class of the open file, none for a NULL handle). -/
structure KpatchElf where
  elfClass : Option Nat
  sections : List KSection
  symbols : List KSymbol
deriving DecidableEq

/-- Update one position of a list in place (no-op when out of range),
the counterpart of writing through a C element pointer. -/
def updAt : List α → Nat → (α → α) → List α
  | [], _, _ => []
  | a :: t, 0, f => f a :: t
  | a :: t, n + 1, f => a :: updAt t n f

/-- Reading one include flag (false outside the table, which never
happens for loaded graphs). -/
def markGetD (l : List Bool) (i : Nat) : Bool := l.getD i false

/-- The include flags of one graph, as parallel mark lists. -/
structure Marks where
  secInc : List Bool
  symInc : List Bool
deriving DecidableEq

def setSecM (m : Marks) (i : Nat) : Marks := { m with secInc := m.secInc.set i true }

def setSymM (m : Marks) (i : Nat) : Marks := { m with symInc := m.symInc.set i true }

/-- All-false include flags, as after loading. -/
def initMarks (g : KpatchElf) : Marks :=
  { secInc := List.replicate g.sections.length false
    symInc := List.replicate g.symbols.length false }

/-! ## Loader fragments (kpatch_create_rela_table) -/

/-- The C string starting at a byte offset of a section buffer:
the bytes up to the first NUL.  A negative addend would read out of
bounds in C; it is clamped here. -/
def stringFrom (buf : List Nat) (off : Int) : List Nat :=
  (buf.drop off.toNat).takeWhile (fun b => b ≠ 0)

/-- One iteration of the rela-reading loop of kpatch_create_rela_table:
decode type (into an unsigned char), the truncated offset and addend,
resolve the target symbol through find_symbol_by_index, and materialise
the string pointer when the target sits in a SHF_STRINGS section.
none models the ERROR exit when the symbol is not found. -/
def loadRelaString (g : KpatchElf) (sp : Nat) (addend : Int) : Option (List Nat) :=
  match (g.symbols[sp]?).bind (fun s => s.secIdx) with
  | none => none
  | some scp =>
    match g.sections[scp]? with
    | none => none
    | some sec =>
      if sec.sh.sh_flags.land SHF_STRINGS ≠ 0 then
        some (stringFrom sec.dataBuf addend)
      else none

def loadRelaMk (g : KpatchElf) (gr : GElfRela) (sp : Nat) : Rela :=
  { rela := gr
    symPos := sp
    type := GELF_R_TYPE gr.r_info % 256
    addend := wrap32 gr.r_addend
    offset := wrap32 (gr.r_offset : Int)
    string := loadRelaString g sp (wrap32 gr.r_addend)
    twin := none
    status := Status.NEW }

def kpatch_load_rela (g : KpatchElf) (gr : GElfRela) : Option Rela :=
  match g.symbols.findIdx? (fun s => s.index = GELF_R_SYM gr.r_info) with
  | none => none
  | some sp => some (loadRelaMk g gr sp)

/-! ## rela_equal and correlation of relocations -/

/-- rela_equal.  Compares the truncated type/offset fields, then either
the materialised strings or the target symbol names plus the truncated
addends.  The name lookups return none only for symbol 0 (whose name is
NULL and whose comparison would be undefined in C) or a dangling
position; loaded relocation entries always resolve. -/
def rela_equal (syms1 syms2 : List KSymbol) (r1 r2 : Rela) : Bool :=
  if r1.type ≠ r2.type ∨ r1.offset ≠ r2.offset then false
  else
    match r1.string with
    | some s1 =>
      match r2.string with
      | some s2 => s1 = s2
      | none => false
    | none =>
      match (syms1[r1.symPos]?).bind (fun s => s.name),
            (syms2[r2.symPos]?).bind (fun s => s.name) with
      | some n1, some n2 => if n1 ≠ n2 then false else r1.addend = r2.addend
      | _, _ => false

/-! ## Relocation re-targeting (kpatch_create_rela_section) -/

/-- The r_info rewrite done for each entry of an output relocation
section: the symbol part becomes the output index of the crosslinked
symbol, the type part is recomputed from the original r_info; r_offset
and r_addend are copied unmodified into the new buffer. -/
def kpatch_create_rela_entry (twinoIndex : Nat) (r : GElfRela) : GElfRela :=
  { r with r_info := GELF_R_INFO twinoIndex (GELF_R_TYPE r.r_info) }

/-- The per-entry loop of kpatch_create_rela_section: every entry must
have a crosslinked (copied) target symbol, otherwise the program dies
with the error message about an expected rela symbol (modelled as none).
crosslink gives the output index of a copied symbol position. -/
def kpatch_create_rela_data (crosslink : Nat → Option Nat) :
    List Rela → Option (List GElfRela)
  | [] => some []
  | r :: rs =>
    match crosslink r.symPos with
    | none => none
    | some i =>
      match kpatch_create_rela_data crosslink rs with
      | none => none
      | some out => some (kpatch_create_rela_entry i r.rela :: out)

/-! ## Symbol mutation for absent sections (kpatch_generate_output) -/

/-- The rewrite applied to a local function or object whose section was
not included: undefined global NOTYPE of size 0. -/
def kpatch_mutate_symbol (sym : KSymbol) : KSymbol :=
  { sym with
    type := STT_NOTYPE
    bind := STB_GLOBAL
    sym := { sym.sym with
             st_info := GELF_ST_INFO STB_GLOBAL STT_NOTYPE
             st_shndx := SHN_UNDEF
             st_size := 0 } }

/-- The symbol-table pass of kpatch_generate_output that rewrites FUNC and
OBJECT symbols of non-included sections.  The C condition dereferences
sym->sec without a NULL check; a FUNC/OBJECT symbol with no owning
section therefore crashes the program, modelled as none. -/
def kpatch_mutate_symbols_go (secInc : List Bool) :
    List (Nat × KSymbol) → Option (List KSymbol)
  | [] => some []
  | (0, sym) :: rest =>
    (kpatch_mutate_symbols_go secInc rest).map (fun t => sym :: t)
  | (_ + 1, sym) :: rest =>
    if sym.type = STT_OBJECT ∨ sym.type = STT_FUNC then
      match sym.secIdx with
      | none => none
      | some sp =>
        if markGetD secInc sp = false then
          (kpatch_mutate_symbols_go secInc rest).map
            (fun t => kpatch_mutate_symbol sym :: t)
        else
          (kpatch_mutate_symbols_go secInc rest).map (fun t => sym :: t)
    else
      (kpatch_mutate_symbols_go secInc rest).map (fun t => sym :: t)

def kpatch_mutate_symbols (secInc : List Bool) (syms : List KSymbol) :
    Option (List KSymbol) :=
  kpatch_mutate_symbols_go secInc syms.enum

/-- Condition under which kpatch_create_symbol_table binds a symbol to an
owning section: the section-header index must name a real section. -/
def loader_binds_section (st_shndx : Nat) : Bool :=
  SHN_UNDEF < st_shndx && st_shndx < SHN_LORESERVE

/-- Modelled from the claim wording for C6: a FUNC or OBJECT symbol
(other than symbol 0) whose owning section is not included is rewritten
to an undefined global NOTYPE symbol of size 0 with recomputed info
byte; every other symbol is left unmodified. -/
def specAbsentRewrite (secInc : List Bool) (pr : Nat × KSymbol) : KSymbol :=
  if pr.1 ≠ 0 ∧ (pr.2.type = STT_FUNC ∨ pr.2.type = STT_OBJECT) ∧
     pr.2.secIdx.elim false (fun sp => !(markGetD secInc sp)) = true then
    { pr.2 with
      type := STT_NOTYPE
      bind := STB_GLOBAL
      sym := { pr.2.sym with
               st_info := GELF_ST_INFO STB_GLOBAL STT_NOTYPE
               st_shndx := SHN_UNDEF
               st_size := 0 } }
  else pr.2

/-! ## Output ELF header construction (kpatch_write_output_elf) -/

/-- GElf_Ehdr, restricted to the fields the program reads or writes. -/
structure GElfEhdr where
  e_ident : List Nat
  e_type : Nat
  e_machine : Nat
  e_version : Nat
  e_shstrndx : Nat
deriving DecidableEq

/-- gelf_getclass per the libelf contract: a NULL handle (or a non-ELF
one) yields ELFCLASSNONE, otherwise the class of the open object. -/
def gelf_getclass (handle : Option Nat) : Nat :=
  match handle with
  | none => ELFCLASSNONE
  | some c => c

/-- kpatch_generate_output allocates the output kpatch_elf with malloc,
zeroes it with memset and never assigns its elf field, so the handle the
emitter later consults is NULL. -/
def kpatch_generate_output_elf_handle : Option Nat := none

/-- The header computation of kpatch_write_output_elf: the class argument
passed to gelf_newehdr is taken from the output graph's (NULL) handle;
the header itself is zeroed, then only the EI_DATA identification byte,
machine and type are copied from the patched input, the version is set
to EV_CURRENT and the string-table index to the output .shstrtab. -/
def kpatch_write_output_ehdr (outHandle : Option Nat) (eh : GElfEhdr)
    (shstrtabIndex : Nat) : Nat × GElfEhdr :=
  (gelf_getclass outHandle,
   { e_ident := (List.replicate 16 0).set EI_DATA (eh.e_ident.getD EI_DATA 0)
     e_type := eh.e_type
     e_machine := eh.e_machine
     e_version := EV_CURRENT
     e_shstrndx := shstrtabIndex })

/-! ## Helper lemmas -/

lemma wrap32_congr {a b : Int} (h : a % 2 ^ 32 = b % 2 ^ 32) :
    wrap32 a = wrap32 b := by
  unfold wrap32
  omega

lemma wrap32_natCast_congr {a b : Nat} (h : a % 2 ^ 32 = b % 2 ^ 32) :
    wrap32 (a : Int) = wrap32 (b : Int) := by
  apply wrap32_congr
  omega

lemma kpatch_load_rela_fields {g : KpatchElf} {gr : GElfRela} {r : Rela}
    (h : kpatch_load_rela g gr = some r) :
    r.rela = gr ∧ r.type = GELF_R_TYPE gr.r_info % 256 ∧
    r.addend = wrap32 gr.r_addend ∧ r.offset = wrap32 (gr.r_offset : Int) := by
  unfold kpatch_load_rela at h
  cases hf : g.symbols.findIdx? (fun s => s.index = GELF_R_SYM gr.r_info) with
  | none => rw [hf] at h; cases h
  | some sp =>
    rw [hf] at h
    cases h
    exact ⟨rfl, rfl, rfl, rfl⟩

/-! ## Claim C10: 32-bit truncation in relocation pairing -/

/-- C10 (amended).  The loader stores r_offset and r_addend truncated to
32-bit signed ints, and rela_equal compares only the truncated values;
for relocations with equal type, equal target-symbol name and agreeing
string materialisation (both carry the same materialised string, or
neither carries one), r_offset and r_addend congruent modulo 2 to the 32
make the entries structurally equal (with a materialised string the
addend congruence is not even consulted), while the loaded records and
the re-targeted output records keep the full-width r_offset and
r_addend. -/
theorem c10_truncated_pairing_amended
    (g1 g2 : KpatchElf) (gr1 gr2 : GElfRela) (r1 r2 : Rela)
    (h1 : kpatch_load_rela g1 gr1 = some r1)
    (h2 : kpatch_load_rela g2 gr2 = some r2)
    (htype : GELF_R_TYPE gr1.r_info = GELF_R_TYPE gr2.r_info)
    (hoff : gr1.r_offset % 2 ^ 32 = gr2.r_offset % 2 ^ 32)
    (hstr : (r1.string = none ∧ r2.string = none ∧
             gr1.r_addend % 2 ^ 32 = gr2.r_addend % 2 ^ 32 ∧
             ∃ n, (g1.symbols[r1.symPos]?).bind (fun s => s.name) = some n ∧
                  (g2.symbols[r2.symPos]?).bind (fun s => s.name) = some n) ∨
            (∃ s, r1.string = some s ∧ r2.string = some s)) :
    rela_equal g1.symbols g2.symbols r1 r2 = true ∧
    r1.rela = gr1 ∧ r2.rela = gr2 ∧
    ∀ j, (kpatch_create_rela_entry j r1.rela).r_offset = gr1.r_offset ∧
         (kpatch_create_rela_entry j r1.rela).r_addend = gr1.r_addend := by
  obtain ⟨hr1, ht1, ha1, ho1⟩ := kpatch_load_rela_fields h1
  obtain ⟨hr2, ht2, ha2, ho2⟩ := kpatch_load_rela_fields h2
  have htEq : r1.type = r2.type := by rw [ht1, ht2, htype]
  have hoEq : r1.offset = r2.offset := by
    rw [ho1, ho2]; exact wrap32_natCast_congr hoff
  have hmain : rela_equal g1.symbols g2.symbols r1 r2 = true := by
    unfold rela_equal
    rw [if_neg (by push_neg; exact ⟨htEq, hoEq⟩)]
    rcases hstr with ⟨hs1, hs2, haddc, n, hn1, hn2⟩ | ⟨s, hs1, hs2⟩
    · have haEq : r1.addend = r2.addend := by
        rw [ha1, ha2]; exact wrap32_congr haddc
      rw [hs1, hn1, hn2]
      simp [haEq]
    · rw [hs1, hs2]
      simp
  refine ⟨hmain, hr1, hr2, fun j => ⟨?_, ?_⟩⟩
  · rw [hr1]; rfl
  · rw [hr1]; rfl

/-- The zeroed placeholder at symbol-table position 0 (its name pointer
stays NULL). -/
def nullSym : KSymbol :=
  { twin := none, secIdx := none, sym := ⟨0, 0, 0, 0, 0, 0⟩, name := none
    index := 0, bind := 0, type := 0, status := Status.NEW }

/-- A string-flagged one-byte-string section, as in a base object whose
symbol s lives in a SHF_STRINGS section. -/
def c10secStr : KSection :=
  { twin := none, sh := ⟨0, SHT_PROGBITS, SHF_STRINGS, 0, 0, 2, 0, 0, 1, 1⟩
    dataBuf := [97, 0], dataSize := 2, name := ".rodata.str1.1", index := 1
    status := Status.NEW, basePos := none, relas := [], relaPos := none
    symPos := none, secsymPos := none }

/-- The same section without the string flag, as in a patched object. -/
def c10secPlain : KSection :=
  { c10secStr with sh := ⟨0, SHT_PROGBITS, 0, 0, 0, 2, 0, 0, 1, 1⟩ }

def c10sym : KSymbol :=
  { twin := none, secIdx := some 0, sym := ⟨1, 1, 0, 1, 0, 0⟩
    name := some "s", index := 1, bind := STB_LOCAL, type := STT_OBJECT
    status := Status.NEW }

def c10g1 : KpatchElf :=
  { elfClass := some ELFCLASS64, sections := [c10secStr], symbols := [nullSym, c10sym] }

def c10g2 : KpatchElf :=
  { elfClass := some ELFCLASS64, sections := [c10secPlain], symbols := [nullSym, c10sym] }

def c10gr : GElfRela := { r_offset := 0, r_info := 1 * 2 ^ 32 + 1, r_addend := 0 }

/-- C10 counterexample.  Two relocation entries loaded from the same raw
record (so equal type, equal target-symbol name, and r_offset and
r_addend differing by the zero multiple of 2 to the 32), one of whose
targets sits in a SHF_STRINGS section while the other does not: the
claim says the comparison judges them structurally equal, but rela_equal
returns false because only one side carries a materialised string. -/
theorem c10_counterexample :
    kpatch_load_rela c10g1 c10gr = some (loadRelaMk c10g1 c10gr 1) ∧
    kpatch_load_rela c10g2 c10gr = some (loadRelaMk c10g2 c10gr 1) ∧
    (loadRelaMk c10g1 c10gr 1).type = (loadRelaMk c10g2 c10gr 1).type ∧
    (c10g1.symbols[(loadRelaMk c10g1 c10gr 1).symPos]?).bind (fun s => s.name) = some "s" ∧
    (c10g2.symbols[(loadRelaMk c10g2 c10gr 1).symPos]?).bind (fun s => s.name) = some "s" ∧
    (loadRelaMk c10g1 c10gr 1).rela.r_offset = (loadRelaMk c10g2 c10gr 1).rela.r_offset ∧
    (loadRelaMk c10g1 c10gr 1).rela.r_addend = (loadRelaMk c10g2 c10gr 1).rela.r_addend ∧
    rela_equal c10g1.symbols c10g2.symbols
      (loadRelaMk c10g1 c10gr 1) (loadRelaMk c10g2 c10gr 1) = false := by
  decide

def c10wgr1 : GElfRela := { r_offset := 8, r_info := 1 * 2 ^ 32 + 1, r_addend := 5 }

def c10wgr2 : GElfRela :=
  { r_offset := 8 + 2 ^ 32, r_info := 1 * 2 ^ 32 + 1, r_addend := 5 + 2 ^ 32 }

/-- Witness for C10 (amended): two string-free relocation entries whose
raw r_offset and r_addend differ by 2 to the 32 are judged structurally
equal while the raw records keep the differing full-width values. -/
theorem c10_witness :
    rela_equal c10g2.symbols c10g2.symbols
      (loadRelaMk c10g2 c10wgr1 1) (loadRelaMk c10g2 c10wgr2 1) = true ∧
    (loadRelaMk c10g2 c10wgr1 1).rela = c10wgr1 ∧
    (loadRelaMk c10g2 c10wgr2 1).rela = c10wgr2 ∧
    ∀ j, (kpatch_create_rela_entry j (loadRelaMk c10g2 c10wgr1 1).rela).r_offset = c10wgr1.r_offset ∧
         (kpatch_create_rela_entry j (loadRelaMk c10g2 c10wgr1 1).rela).r_addend = c10wgr1.r_addend :=
  c10_truncated_pairing_amended c10g2 c10g2 c10wgr1 c10wgr2
    (loadRelaMk c10g2 c10wgr1 1) (loadRelaMk c10g2 c10wgr2 1)
    (by decide) (by decide) (by decide) (by decide)
    (Or.inl ⟨by decide, by decide, by decide, ⟨"s", by decide, by decide⟩⟩)

/-! ## Claims C6 and C9: the symbol-mutation pass -/

lemma mutate_go_isSome (secInc : List Bool) :
    ∀ l : List (Nat × KSymbol),
      (kpatch_mutate_symbols_go secInc l).isSome = true ↔
      ∀ pr ∈ l, pr.1 ≠ 0 → (pr.2.type = STT_OBJECT ∨ pr.2.type = STT_FUNC) →
        pr.2.secIdx.isSome = true := by
  intro l
  induction l with
  | nil => simp [kpatch_mutate_symbols_go]
  | cons hd tl ih =>
    obtain ⟨i, sym⟩ := hd
    have hmap : ∀ (b : Option (List KSymbol)) (s : KSymbol),
        (b.map (fun t => s :: t)).isSome = b.isSome := by
      intro b s; cases b <;> rfl
    have htail : (∀ pr ∈ tl, pr.1 ≠ 0 →
        (pr.2.type = STT_OBJECT ∨ pr.2.type = STT_FUNC) →
        pr.2.secIdx.isSome = true) ↔
        ∀ pr ∈ tl, pr.1 ≠ 0 →
        (pr.2.type = STT_OBJECT ∨ pr.2.type = STT_FUNC) →
        pr.2.secIdx.isSome = true := Iff.rfl
    cases i with
    | zero =>
      show ((kpatch_mutate_symbols_go secInc tl).map (fun t => sym :: t)).isSome = true ↔ _
      rw [hmap, ih]
      constructor
      · intro h pr hpr
        rcases List.mem_cons.mp hpr with h0 | h0
        · subst h0; intro hc; exact absurd rfl hc
        · exact h pr h0
      · intro h pr hpr; exact h pr (List.mem_cons_of_mem _ hpr)
    | succ n =>
      simp only [kpatch_mutate_symbols_go]
      by_cases hty : sym.type = STT_OBJECT ∨ sym.type = STT_FUNC
      · rw [if_pos hty]
        cases hsec : sym.secIdx with
        | none =>
          simp only
          constructor
          · intro h; cases h
          · intro h
            have := h (n + 1, sym) (List.mem_cons_self _ _) (Nat.succ_ne_zero n) hty
            rw [hsec] at this; cases this
        | some sp =>
          simp only
          have hmut : ∀ (b : Option (List KSymbol)),
              (b.map (fun t => kpatch_mutate_symbol sym :: t)).isSome = b.isSome := by
            intro b; cases b <;> rfl
          by_cases hm : markGetD secInc sp = false
          · rw [if_pos hm, hmut, ih]
            constructor
            · intro h pr hpr
              rcases List.mem_cons.mp hpr with h0 | h0
              · subst h0; intro _ _; rw [hsec]; rfl
              · exact h pr h0
            · intro h pr hpr; exact h pr (List.mem_cons_of_mem _ hpr)
          · rw [if_neg hm, hmap, ih]
            constructor
            · intro h pr hpr
              rcases List.mem_cons.mp hpr with h0 | h0
              · subst h0; intro _ _; rw [hsec]; rfl
              · exact h pr h0
            · intro h pr hpr; exact h pr (List.mem_cons_of_mem _ hpr)
      · rw [if_neg hty, hmap, ih]
        constructor
        · intro h pr hpr
          rcases List.mem_cons.mp hpr with h0 | h0
          · subst h0; intro _ hc; exact absurd hc hty
          · exact h pr h0
        · intro h pr hpr; exact h pr (List.mem_cons_of_mem _ hpr)

/-- C9.  The mutation pass over the symbol table dereferences the owning
section of every nonzero FUNC or OBJECT symbol without a NULL check: it
completes (returns some) exactly when every such symbol is bound to a
section.  The loader establishes that binding only when the symbol's
section-header index names a real section, which is never the case for
an undefined or absolute symbol. -/
theorem c9_mutation_precondition (secInc : List Bool) (syms : List KSymbol) :
    ((kpatch_mutate_symbols secInc syms).isSome = true ↔
      ∀ pr ∈ syms.enum, pr.1 ≠ 0 →
        (pr.2.type = STT_OBJECT ∨ pr.2.type = STT_FUNC) →
        pr.2.secIdx.isSome = true) ∧
    (∀ shndx, shndx = SHN_UNDEF ∨ shndx = SHN_ABS →
      loader_binds_section shndx = false) := by
  constructor
  · exact mutate_go_isSome secInc syms.enum
  · intro shndx h
    rcases h with h | h <;> subst h <;> decide

lemma mutate_go_eq (secInc : List Bool) :
    ∀ (l : List (Nat × KSymbol)) (out : List KSymbol),
      kpatch_mutate_symbols_go secInc l = some out →
      out = l.map (specAbsentRewrite secInc) := by
  intro l
  induction l with
  | nil => intro out h; cases h; rfl
  | cons hd tl ih =>
    obtain ⟨i, sym⟩ := hd
    intro out h
    cases i with
    | zero =>
      simp only [kpatch_mutate_symbols_go] at h
      cases htl : kpatch_mutate_symbols_go secInc tl with
      | none => rw [htl] at h; cases h
      | some t =>
        rw [htl] at h
        cases h
        have hspec : specAbsentRewrite secInc (0, sym) = sym := by
          unfold specAbsentRewrite
          rw [if_neg]
          intro hc
          exact hc.1 rfl
        rw [List.map_cons, hspec, ih t htl]
    | succ n =>
      simp only [kpatch_mutate_symbols_go] at h
      by_cases hty : sym.type = STT_OBJECT ∨ sym.type = STT_FUNC
      · rw [if_pos hty] at h
        cases hsec : sym.secIdx with
        | none => rw [hsec] at h; cases h
        | some sp =>
          simp only [hsec] at h
          by_cases hm : markGetD secInc sp = false
          · rw [if_pos hm] at h
            cases htl : kpatch_mutate_symbols_go secInc tl with
            | none => rw [htl] at h; cases h
            | some t =>
              rw [htl] at h
              cases h
              have hspec : specAbsentRewrite secInc (n + 1, sym) =
                  kpatch_mutate_symbol sym := by
                unfold specAbsentRewrite kpatch_mutate_symbol
                rw [if_pos]
                refine ⟨Nat.succ_ne_zero n, hty.symm, ?_⟩
                rw [hsec]
                simp [Option.elim, hm]
              rw [List.map_cons, hspec, ih t htl]
          · rw [if_neg hm] at h
            cases htl : kpatch_mutate_symbols_go secInc tl with
            | none => rw [htl] at h; cases h
            | some t =>
              rw [htl] at h
              cases h
              have hspec : specAbsentRewrite secInc (n + 1, sym) = sym := by
                unfold specAbsentRewrite
                rw [if_neg]
                intro hc
                apply hm
                have h3 := hc.2.2
                rw [hsec] at h3
                simp [Option.elim] at h3
                simp [h3]
              rw [List.map_cons, hspec, ih t htl]
      · rw [if_neg hty] at h
        cases htl : kpatch_mutate_symbols_go secInc tl with
        | none => rw [htl] at h; cases h
        | some t =>
          rw [htl] at h
          cases h
          have hspec : specAbsentRewrite secInc (n + 1, sym) = sym := by
            unfold specAbsentRewrite
            rw [if_neg]
            intro hc
            exact hty hc.2.1.symm
          rw [List.map_cons, hspec, ih t htl]

/-- C6.  When the mutation pass completes, its result rewrites exactly
the nonzero FUNC and OBJECT symbols whose owning section is not included
to undefined (SHN_UNDEF) global NOTYPE symbols of size 0 with the info
byte recomputed from GLOBAL and NOTYPE, and leaves every other symbol
untouched. -/
theorem c6_symbol_mutation (secInc : List Bool) (syms : List KSymbol)
    (out : List KSymbol) (h : kpatch_mutate_symbols secInc syms = some out) :
    out = syms.enum.map (specAbsentRewrite secInc) :=
  mutate_go_eq secInc syms.enum out h

def c6sec : KSection :=
  { twin := none, sh := ⟨0, SHT_PROGBITS, 6, 0, 0, 2, 0, 0, 16, 0⟩
    dataBuf := [1, 2], dataSize := 2, name := ".text.foo", index := 1
    status := Status.NEW, basePos := none, relas := [], relaPos := none
    symPos := some 1, secsymPos := none }

def c6syms : List KSymbol :=
  [nullSym,
   { twin := none, secIdx := some 0, sym := ⟨1, 0x12, 0, 1, 0, 9⟩
     name := some "foo", index := 1, bind := STB_GLOBAL, type := STT_FUNC
     status := Status.SAME },
   { twin := none, secIdx := none, sym := ⟨5, 4, 0, SHN_ABS, 0, 0⟩
     name := some "file.c", index := 2, bind := STB_LOCAL, type := STT_FILE
     status := Status.SAME }]

/-- Witness for C6: on a table with a FUNC symbol whose section is not
included and a FILE symbol, the pass rewrites exactly the FUNC symbol. -/
theorem c6_witness :
    kpatch_mutate_symbols [false] c6syms =
      some (c6syms.enum.map (specAbsentRewrite [false])) :=
  by
  have h : kpatch_mutate_symbols [false] c6syms =
      some [nullSym, kpatch_mutate_symbol (c6syms.get ⟨1, by decide⟩),
            c6syms.get ⟨2, by decide⟩] := by decide
  rw [h, c6_symbol_mutation [false] c6syms _ h]

/-! ## Claim C8: output header construction -/

def c8ehPatched : GElfEhdr :=
  { e_ident := [0x7f, 0x45, 0x4c, 0x46, ELFCLASS32, 1, 1, 0, 0, 0, 0, 0, 0, 0, 0, 0]
    e_type := 1, e_machine := 3, e_version := 1, e_shstrndx := 5 }

/-- C8.  kpatch_write_output_elf derives the class argument of
gelf_newehdr from the output graph's Elf handle, which
kpatch_generate_output zeroes and never assigns; for a 32-bit patched
input the argument is therefore ELFCLASSNONE instead of the input's
ELFCLASS32, so the emitted class is not taken from the patched input as
the claim states.  The data-encoding byte, machine and type are copied,
the version is set to EV_CURRENT and the string-table index points at
the rebuilt .shstrtab. -/
theorem c8_output_class_not_preserved :
    (kpatch_write_output_ehdr kpatch_generate_output_elf_handle c8ehPatched 4).1 =
      ELFCLASSNONE ∧
    c8ehPatched.e_ident.getD EI_CLASS 0 = ELFCLASS32 ∧
    ELFCLASSNONE ≠ ELFCLASS32 ∧
    (kpatch_write_output_ehdr kpatch_generate_output_elf_handle c8ehPatched 4).2.e_machine =
      c8ehPatched.e_machine ∧
    (kpatch_write_output_ehdr kpatch_generate_output_elf_handle c8ehPatched 4).2.e_type =
      c8ehPatched.e_type ∧
    (kpatch_write_output_ehdr kpatch_generate_output_elf_handle c8ehPatched 4).2.e_ident.getD EI_DATA 0 =
      c8ehPatched.e_ident.getD EI_DATA 0 ∧
    (kpatch_write_output_ehdr kpatch_generate_output_elf_handle c8ehPatched 4).2.e_version =
      EV_CURRENT ∧
    (kpatch_write_output_ehdr kpatch_generate_output_elf_handle c8ehPatched 4).2.e_shstrndx = 4 := by
  decide

/-! ## Symbol copying (kpatch_copy_symbols and the four passes) -/

def is_file_sym (s : KSymbol) : Bool := s.type = STT_FILE

def is_local_func_sym (s : KSymbol) : Bool := s.bind = STB_LOCAL && s.type = STT_FUNC

def is_local_sym (s : KSymbol) : Bool := s.bind = STB_LOCAL

/-- NULL-able selection predicate: the copy proceeds when there is no
predicate or the predicate accepts the symbol. -/
def selOK (sel : Option (KSymbol → Bool)) (s : KSymbol) : Bool :=
  match sel with
  | none => true
  | some f => f s

/-- The copied symbol: the source record with the fresh output index,
and the section index rewritten through the section crosslink (f gives
the output index of a copied section position) when the owning section
has one. -/
def mkDst (s : KSymbol) (i : Nat) (f : Nat → Option Nat) : KSymbol :=
  let s1 := { s with index := i }
  match s.secIdx.bind f with
  | some ni => { s1 with sym := { s1.sym with st_shndx := ni } }
  | none => s1

/-- kpatch_copy_symbols: iterate the source table; skip symbol 0,
non-included symbols and symbols rejected by the selector; copy the rest
with dense indexes starting at the start index, clearing the include
flag of each copied symbol.  Returns the next free index, the updated
include flags and the copied (source position, destination symbol)
pairs in order. -/
def kpatch_copy_symbols (f : Nat → Option Nat) (sel : Option (KSymbol → Bool)) :
    Nat → List Bool → List (Nat × KSymbol) → Nat × List Bool × List (Nat × KSymbol)
  | index, minc, [] => (index, minc, [])
  | index, minc, (p, s) :: rest =>
    if p = 0 ∨ markGetD minc p = false then
      kpatch_copy_symbols f sel index minc rest
    else if selOK sel s = false then
      kpatch_copy_symbols f sel index minc rest
    else
      let r := kpatch_copy_symbols f sel (index + 1) (minc.set p false) rest
      (r.1, r.2.1, (p, mkDst s index f) :: r.2.2)

/-- The four copy passes of kpatch_generate_output, starting at index 1
to skip the null symbol: FILE symbols, then local FUNC symbols, then the
remaining local symbols, then everything still included. -/
def copy_all (syms : List KSymbol) (minc : List Bool) (f : Nat → Option Nat) :
    List Bool × List (Nat × KSymbol) :=
  let e := syms.enum
  let r1 := kpatch_copy_symbols f (some is_file_sym) 1 minc e
  let r2 := kpatch_copy_symbols f (some is_local_func_sym) r1.1 r1.2.1 e
  let r3 := kpatch_copy_symbols f (some is_local_sym) r2.1 r2.2.1 e
  let r4 := kpatch_copy_symbols f none r3.1 r3.2.1 e
  (r4.2.1, r1.2.2 ++ r2.2.2 ++ r3.2.2 ++ r4.2.2)

/-- The copy condition of one pass, phrased over the include flags the
pass starts from. -/
def copyPred (minc : List Bool) (sel : Option (KSymbol → Bool))
    (pr : Nat × KSymbol) : Bool :=
  !(pr.1 == 0) && markGetD minc pr.1 && selOK sel pr.2

/-- Dense index assignment for the copied symbols of one pass. -/
def assignIdx (f : Nat → Option Nat) : Nat → List (Nat × KSymbol) → List (Nat × KSymbol)
  | _, [] => []
  | i, (p, s) :: t => (p, mkDst s i f) :: assignIdx f (i + 1) t

lemma markGetD_set_ne (l : List Bool) (b : Bool) {i j : Nat} (h : i ≠ j) :
    markGetD (l.set i b) j = markGetD l j := by
  unfold markGetD
  induction l generalizing i j with
  | nil => simp
  | cons hd tl ih =>
    cases i with
    | zero =>
      cases j with
      | zero => exact absurd rfl h
      | succ m => simp [List.set, List.getD]
    | succ n =>
      cases j with
      | zero => simp [List.set, List.getD]
      | succ m =>
        simp only [List.set, List.getD_cons_succ]
        exact ih (fun hc => h (by rw [hc]))

lemma markGetD_set_self (l : List Bool) (b : Bool) {i : Nat} (h : i < l.length) :
    markGetD (l.set i b) i = b := by
  unfold markGetD
  rw [List.getD_eq_getElem?_getD, List.getElem?_set_self (by simpa using h)]
  rfl

lemma markGetD_true_lt {l : List Bool} {i : Nat} (h : markGetD l i = true) :
    i < l.length := by
  by_contra hc
  unfold markGetD at h
  rw [List.getD_eq_getElem?_getD, List.getElem?_eq_none (by omega)] at h
  cases h

lemma copy_symbols_spec (f : Nat → Option Nat) (sel : Option (KSymbol → Bool)) :
    ∀ (pairs : List (Nat × KSymbol)) (idx : Nat) (minc : List Bool),
      List.Pairwise (fun a b => a.1 ≠ b.1) pairs →
      (kpatch_copy_symbols f sel idx minc pairs).1 =
        idx + (pairs.filter (copyPred minc sel)).length ∧
      (kpatch_copy_symbols f sel idx minc pairs).2.2 =
        assignIdx f idx (pairs.filter (copyPred minc sel)) ∧
      ∀ q, markGetD (kpatch_copy_symbols f sel idx minc pairs).2.1 q =
        (markGetD minc q &&
         !((pairs.filter (copyPred minc sel)).map Prod.fst).contains q) := by
  intro pairs
  induction pairs with
  | nil =>
    intro idx minc _
    refine ⟨by simp [kpatch_copy_symbols], by simp [kpatch_copy_symbols, assignIdx], ?_⟩
    intro q
    simp [kpatch_copy_symbols]
  | cons hd rest ih =>
    obtain ⟨p, s⟩ := hd
    intro idx minc hdist
    rw [List.pairwise_cons] at hdist
    obtain ⟨hdhead, hdtail⟩ := hdist
    by_cases h0 : p = 0 ∨ markGetD minc p = false
    · have hpred : copyPred minc sel (p, s) = false := by
        unfold copyPred
        rcases h0 with h | h
        · subst h; rfl
        · rw [h]; simp
      have hstep : kpatch_copy_symbols f sel idx minc ((p, s) :: rest) =
          kpatch_copy_symbols f sel idx minc rest := by
        simp only [kpatch_copy_symbols]
        rw [if_pos h0]
      rw [hstep, List.filter_cons_of_neg (by rw [hpred]; exact Bool.false_ne_true)]
      exact ih idx minc hdtail
    · push_neg at h0
      obtain ⟨hp0, hpm⟩ := h0
      have hpm' : markGetD minc p = true := by
        cases hv : markGetD minc p
        · exact absurd hv hpm
        · rfl
      by_cases hsel : selOK sel s = false
      · have hpred : copyPred minc sel (p, s) = false := by
          unfold copyPred
          rw [hsel]
          simp
        have hstep : kpatch_copy_symbols f sel idx minc ((p, s) :: rest) =
            kpatch_copy_symbols f sel idx minc rest := by
          simp only [kpatch_copy_symbols]
          rw [if_neg (by push_neg; exact ⟨hp0, hpm⟩), if_pos hsel]
        rw [hstep, List.filter_cons_of_neg (by rw [hpred]; exact Bool.false_ne_true)]
        exact ih idx minc hdtail
      · have hsel' : selOK sel s = true := by
          cases hv : selOK sel s
          · exact absurd hv hsel
          · rfl
        have hpred : copyPred minc sel (p, s) = true := by
          unfold copyPred
          rw [hpm', hsel']
          simp [hp0]
        have hstep : kpatch_copy_symbols f sel idx minc ((p, s) :: rest) =
            ((kpatch_copy_symbols f sel (idx + 1) (minc.set p false) rest).1,
             (kpatch_copy_symbols f sel (idx + 1) (minc.set p false) rest).2.1,
             (p, mkDst s idx f) ::
               (kpatch_copy_symbols f sel (idx + 1) (minc.set p false) rest).2.2) := by
          simp only [kpatch_copy_symbols]
          rw [if_neg (by push_neg; exact ⟨hp0, hpm⟩), if_neg hsel]
        have hfeq : rest.filter (copyPred (minc.set p false) sel) =
            rest.filter (copyPred minc sel) := by
          apply List.filter_congr
          intro x hx
          unfold copyPred
          rw [markGetD_set_ne minc false (hdhead x hx)]
        obtain ⟨ih1, ih2, ih3⟩ := ih (idx + 1) (minc.set p false) hdtail
        rw [hfeq] at ih1 ih2 ih3
        rw [hstep, List.filter_cons_of_pos (by rw [hpred])]
        refine ⟨?_, ?_, ?_⟩
        · rw [ih1, List.length_cons]
          omega
        · rw [ih2]
          rfl
        · intro q
          rw [ih3 q]
          by_cases hq : q = p
          · subst hq
            rw [markGetD_set_self minc false (markGetD_true_lt hpm'), hpm']
            have : ((((q, s) :: rest.filter (copyPred minc sel)).map Prod.fst).contains q) = true := by
              simp [List.contains]
            rw [this]
            simp
          · rw [markGetD_set_ne minc false (fun hc => hq hc.symm)]
            have : ((((p, s) :: rest.filter (copyPred minc sel)).map Prod.fst).contains q) =
                (((rest.filter (copyPred minc sel)).map Prod.fst).contains q) := by
              simp only [List.map_cons, List.contains_cons]
              have : (q == p) = false := by
                simp [hq]
              rw [this]
              simp
            rw [this]

/-- Bucket 1 of the output symbol ordering: included FILE symbols. -/
def bPred1 (minc : List Bool) (pr : Nat × KSymbol) : Bool :=
  !(pr.1 == 0) && markGetD minc pr.1 && is_file_sym pr.2

/-- Bucket 2: included local FUNC symbols not already in bucket 1. -/
def bPred2 (minc : List Bool) (pr : Nat × KSymbol) : Bool :=
  !(pr.1 == 0) && markGetD minc pr.1 && !is_file_sym pr.2 && is_local_func_sym pr.2

/-- Bucket 3: the remaining included local symbols. -/
def bPred3 (minc : List Bool) (pr : Nat × KSymbol) : Bool :=
  !(pr.1 == 0) && markGetD minc pr.1 && !is_file_sym pr.2 &&
    !is_local_func_sym pr.2 && is_local_sym pr.2

/-- Bucket 4: the remaining included (non-local) symbols. -/
def bPred4 (minc : List Bool) (pr : Nat × KSymbol) : Bool :=
  !(pr.1 == 0) && markGetD minc pr.1 && !is_file_sym pr.2 &&
    !is_local_func_sym pr.2 && !is_local_sym pr.2

lemma mkDst_index (s : KSymbol) (i : Nat) (f : Nat → Option Nat) :
    (mkDst s i f).index = i := by
  unfold mkDst
  cases s.secIdx.bind f <;> rfl

lemma mkDst_name (s : KSymbol) (i : Nat) (f : Nat → Option Nat) :
    (mkDst s i f).name = s.name := by
  unfold mkDst
  cases s.secIdx.bind f <;> rfl

lemma assignIdx_map_fst (f : Nat → Option Nat) :
    ∀ (l : List (Nat × KSymbol)) (i : Nat),
      (assignIdx f i l).map Prod.fst = l.map Prod.fst := by
  intro l
  induction l with
  | nil => intro i; rfl
  | cons hd tl ih =>
    intro i
    obtain ⟨p, s⟩ := hd
    simp only [assignIdx, List.map_cons]
    rw [ih]

lemma assignIdx_map_index (f : Nat → Option Nat) :
    ∀ (l : List (Nat × KSymbol)) (i : Nat),
      (assignIdx f i l).map (fun pr => pr.2.index) = List.range' i l.length := by
  intro l
  induction l with
  | nil => intro i; rfl
  | cons hd tl ih =>
    intro i
    obtain ⟨p, s⟩ := hd
    simp only [assignIdx, List.map_cons, List.length_cons, List.range'_succ]
    rw [ih, mkDst_index]

lemma assignIdx_getElem (f : Nat → Option Nat) :
    ∀ (l : List (Nat × KSymbol)) (i j : Nat),
      (assignIdx f i l)[j]? = (l[j]?).map (fun pr => (pr.1, mkDst pr.2 (i + j) f)) := by
  intro l
  induction l with
  | nil => intro i j; simp [assignIdx]
  | cons hd tl ih =>
    intro i j
    obtain ⟨p, s⟩ := hd
    cases j with
    | zero => simp [assignIdx]
    | succ m =>
      simp only [assignIdx, List.getElem?_cons_succ]
      rw [ih (i + 1) m]
      have : i + 1 + m = i + (m + 1) := by omega
      rw [this]

lemma enum_pairwise_fst (syms : List KSymbol) :
    List.Pairwise (fun a b : Nat × KSymbol => a.1 ≠ b.1) syms.enum := by
  have h1 : (syms.enum.map Prod.fst).Nodup := by
    rw [List.enum_map_fst]
    exact List.nodup_range _
  rw [List.Nodup, List.pairwise_map] at h1
  exact h1.imp (fun h => h)

lemma not_contains_filter_map (pred : Nat × KSymbol → Bool) :
    ∀ (pairs : List (Nat × KSymbol)) {p : Nat},
      (∀ b ∈ pairs, p ≠ b.1) →
      ((pairs.filter pred).map Prod.fst).contains p = false := by
  intro pairs
  induction pairs with
  | nil => intro p _; rfl
  | cons hd tl ih =>
    intro p h
    have hhd : p ≠ hd.1 := h hd (List.mem_cons_self _ _)
    have htl : ∀ b ∈ tl, p ≠ b.1 := fun b hb => h b (List.mem_cons_of_mem _ hb)
    by_cases hp : pred hd = true
    · rw [List.filter_cons_of_pos hp, List.map_cons, List.contains_cons]
      rw [ih htl]
      have : (p == hd.1) = false := by simp [hhd]
      rw [this]
      rfl
    · rw [List.filter_cons_of_neg (by simpa using hp)]
      exact ih htl

lemma contains_filter_fst {pairs : List (Nat × KSymbol)}
    (hd : List.Pairwise (fun a b => a.1 ≠ b.1) pairs)
    (pred : Nat × KSymbol → Bool) {p : Nat} {s : KSymbol}
    (hmem : (p, s) ∈ pairs) :
    ((pairs.filter pred).map Prod.fst).contains p = pred (p, s) := by
  induction pairs with
  | nil => cases hmem
  | cons hd0 tl ih =>
    rw [List.pairwise_cons] at hd
    obtain ⟨hdhead, hdtail⟩ := hd
    rcases List.mem_cons.mp hmem with h0 | h0
    · subst h0
      by_cases hp : pred (p, s) = true
      · rw [List.filter_cons_of_pos hp, List.map_cons, List.contains_cons, hp]
        simp
      · have hp' : pred (p, s) = false := by simpa using hp
        rw [List.filter_cons_of_neg (by simpa using hp), hp']
        exact not_contains_filter_map pred tl (fun b hb => hdhead b hb)
    · obtain ⟨q, t⟩ := hd0
      have hq : q ≠ p := hdhead (p, s) h0
      by_cases hp : pred (q, t) = true
      · rw [List.filter_cons_of_pos hp, List.map_cons, List.contains_cons]
        rw [ih hdtail h0]
        have : (p == q) = false := by
          simp only [beq_eq_false_iff_ne, ne_eq]
          exact fun hc => hq hc.symm
        rw [this]
        simp
      · rw [List.filter_cons_of_neg (by simpa using hp)]
        exact ih hdtail h0

lemma bool_pass2 (a m fl lf : Bool) :
    (a && (m && !(a && m && fl)) && lf) = (a && m && !fl && lf) := by
  cases a <;> cases m <;> cases fl <;> cases lf <;> rfl

lemma bool_pass3 (a m fl lf lo : Bool) :
    (a && (m && !(a && m && fl) && !(a && m && !fl && lf)) && lo) =
    (a && m && !fl && !lf && lo) := by
  cases a <;> cases m <;> cases fl <;> cases lf <;> cases lo <;> rfl

lemma bool_pass4 (a m fl lf lo : Bool) :
    (a && (m && !(a && m && fl) && !(a && m && !fl && lf) &&
      !(a && m && !fl && !lf && lo)) && true) =
    (a && m && !fl && !lf && !lo) := by
  cases a <;> cases m <;> cases fl <;> cases lf <;> cases lo <;> rfl

lemma copy_all_spec (syms : List KSymbol) (minc : List Bool) (f : Nat → Option Nat) :
    (copy_all syms minc f).2 =
      assignIdx f 1 (syms.enum.filter (bPred1 minc)) ++
      assignIdx f (1 + (syms.enum.filter (bPred1 minc)).length)
        (syms.enum.filter (bPred2 minc)) ++
      assignIdx f (1 + (syms.enum.filter (bPred1 minc)).length +
          (syms.enum.filter (bPred2 minc)).length)
        (syms.enum.filter (bPred3 minc)) ++
      assignIdx f (1 + (syms.enum.filter (bPred1 minc)).length +
          (syms.enum.filter (bPred2 minc)).length +
          (syms.enum.filter (bPred3 minc)).length)
        (syms.enum.filter (bPred4 minc)) := by
  have hpw := enum_pairwise_fst syms
  obtain ⟨h11, h12, h13⟩ :=
    copy_symbols_spec f (some is_file_sym) syms.enum 1 minc hpw
  have hf1 : syms.enum.filter (copyPred minc (some is_file_sym)) =
      syms.enum.filter (bPred1 minc) := rfl
  set r1 := kpatch_copy_symbols f (some is_file_sym) 1 minc syms.enum with hr1
  obtain ⟨h21, h22, h23⟩ :=
    copy_symbols_spec f (some is_local_func_sym) syms.enum r1.1 r1.2.1 hpw
  have hf2 : syms.enum.filter (copyPred r1.2.1 (some is_local_func_sym)) =
      syms.enum.filter (bPred2 minc) := by
    apply List.filter_congr
    intro x hx
    obtain ⟨p, s⟩ := x
    have hc1 := contains_filter_fst hpw (bPred1 minc) hx
    have hm1 := h13 p
    rw [hf1, hc1] at hm1
    have hl : copyPred r1.2.1 (some is_local_func_sym) (p, s) =
        (!(p == 0) && markGetD r1.2.1 p && is_local_func_sym s) := rfl
    have hb1 : bPred1 minc (p, s) =
        (!(p == 0) && markGetD minc p && is_file_sym s) := rfl
    have hb2 : bPred2 minc (p, s) =
        (!(p == 0) && markGetD minc p && !is_file_sym s && is_local_func_sym s) := rfl
    rw [hl, hm1, hb1, hb2]
    exact bool_pass2 (!(p == 0)) (markGetD minc p) (is_file_sym s) (is_local_func_sym s)
  set r2 := kpatch_copy_symbols f (some is_local_func_sym) r1.1 r1.2.1 syms.enum with hr2
  obtain ⟨h31, h32, h33⟩ :=
    copy_symbols_spec f (some is_local_sym) syms.enum r2.1 r2.2.1 hpw
  have hf3 : syms.enum.filter (copyPred r2.2.1 (some is_local_sym)) =
      syms.enum.filter (bPred3 minc) := by
    apply List.filter_congr
    intro x hx
    obtain ⟨p, s⟩ := x
    have hc1 := contains_filter_fst hpw (bPred1 minc) hx
    have hc2 := contains_filter_fst hpw (bPred2 minc) hx
    have hm1 := h13 p
    rw [hf1, hc1] at hm1
    have hm2 := h23 p
    rw [hf2, hc2, hm1] at hm2
    have hl : copyPred r2.2.1 (some is_local_sym) (p, s) =
        (!(p == 0) && markGetD r2.2.1 p && is_local_sym s) := rfl
    have hb1 : bPred1 minc (p, s) =
        (!(p == 0) && markGetD minc p && is_file_sym s) := rfl
    have hb2 : bPred2 minc (p, s) =
        (!(p == 0) && markGetD minc p && !is_file_sym s && is_local_func_sym s) := rfl
    have hb3 : bPred3 minc (p, s) =
        (!(p == 0) && markGetD minc p && !is_file_sym s && !is_local_func_sym s &&
          is_local_sym s) := rfl
    rw [hl, hm2, hb1, hb2, hb3]
    exact bool_pass3 (!(p == 0)) (markGetD minc p) (is_file_sym s)
      (is_local_func_sym s) (is_local_sym s)
  set r3 := kpatch_copy_symbols f (some is_local_sym) r2.1 r2.2.1 syms.enum with hr3
  obtain ⟨h41, h42, h43⟩ :=
    copy_symbols_spec f none syms.enum r3.1 r3.2.1 hpw
  have hf4 : syms.enum.filter (copyPred r3.2.1 none) =
      syms.enum.filter (bPred4 minc) := by
    apply List.filter_congr
    intro x hx
    obtain ⟨p, s⟩ := x
    have hc1 := contains_filter_fst hpw (bPred1 minc) hx
    have hc2 := contains_filter_fst hpw (bPred2 minc) hx
    have hc3 := contains_filter_fst hpw (bPred3 minc) hx
    have hm1 := h13 p
    rw [hf1, hc1] at hm1
    have hm2 := h23 p
    rw [hf2, hc2, hm1] at hm2
    have hm3 := h33 p
    rw [hf3, hc3, hm2] at hm3
    have hl : copyPred r3.2.1 none (p, s) =
        (!(p == 0) && markGetD r3.2.1 p && true) := rfl
    have hb1 : bPred1 minc (p, s) =
        (!(p == 0) && markGetD minc p && is_file_sym s) := rfl
    have hb2 : bPred2 minc (p, s) =
        (!(p == 0) && markGetD minc p && !is_file_sym s && is_local_func_sym s) := rfl
    have hb3 : bPred3 minc (p, s) =
        (!(p == 0) && markGetD minc p && !is_file_sym s && !is_local_func_sym s &&
          is_local_sym s) := rfl
    have hb4 : bPred4 minc (p, s) =
        (!(p == 0) && markGetD minc p && !is_file_sym s && !is_local_func_sym s &&
          !is_local_sym s) := rfl
    rw [hl, hm3, hb1, hb2, hb3, hb4]
    exact bool_pass4 (!(p == 0)) (markGetD minc p) (is_file_sym s)
      (is_local_func_sym s) (is_local_sym s)
  set r4 := kpatch_copy_symbols f none r3.1 r3.2.1 syms.enum with hr4
  have hall : (copy_all syms minc f).2 = r1.2.2 ++ r2.2.2 ++ r3.2.2 ++ r4.2.2 := rfl
  have e1 : r1.1 = 1 + (syms.enum.filter (bPred1 minc)).length := by
    rw [h11, hf1]
  have e2 : r2.1 = 1 + (syms.enum.filter (bPred1 minc)).length +
      (syms.enum.filter (bPred2 minc)).length := by
    rw [h21, hf2, e1]
  have e3 : r3.1 = 1 + (syms.enum.filter (bPred1 minc)).length +
      (syms.enum.filter (bPred2 minc)).length +
      (syms.enum.filter (bPred3 minc)).length := by
    rw [h31, hf3, e2]
  rw [hall, h12, h22, h32, h42, hf1, hf2, hf3, hf4, e1, e2, e3]

lemma assignIdx_length (f : Nat → Option Nat) :
    ∀ (l : List (Nat × KSymbol)) (i : Nat), (assignIdx f i l).length = l.length := by
  intro l
  induction l with
  | nil => intro i; rfl
  | cons hd tl ih =>
    intro i
    obtain ⟨p, s⟩ := hd
    simp only [assignIdx, List.length_cons]
    rw [ih]

lemma copy_all_map_index (syms : List KSymbol) (minc : List Bool) (f : Nat → Option Nat) :
    (copy_all syms minc f).2.map (fun pr => pr.2.index) =
      List.range' 1 (copy_all syms minc f).2.length := by
  rw [copy_all_spec]
  simp only [List.map_append, assignIdx_map_index, List.length_append, assignIdx_length]
  set a := (syms.enum.filter (bPred1 minc)).length
  set b := (syms.enum.filter (bPred2 minc)).length
  set c := (syms.enum.filter (bPred3 minc)).length
  set d := (syms.enum.filter (bPred4 minc)).length
  have h1 : List.range' 1 a ++ List.range' (1 + a) b = List.range' 1 (b + a) :=
    List.range'_append_1 1 a b
  rw [h1]
  have e1 : 1 + a + b = 1 + (b + a) := by omega
  rw [e1]
  have h2 : List.range' 1 (b + a) ++ List.range' (1 + (b + a)) c =
      List.range' 1 (c + (b + a)) := List.range'_append_1 1 (b + a) c
  rw [h2]
  have e2 : 1 + (b + a) + c = 1 + (c + (b + a)) := by omega
  rw [e2]
  have h3 : List.range' 1 (c + (b + a)) ++ List.range' (1 + (c + (b + a))) d =
      List.range' 1 (d + (c + (b + a))) := List.range'_append_1 1 (c + (b + a)) d
  rw [h3]
  congr 1
  omega

lemma copy_all_getElem_index (syms : List KSymbol) (minc : List Bool)
    (f : Nat → Option Nat) {j : Nat} {pr : Nat × KSymbol}
    (h : (copy_all syms minc f).2[j]? = some pr) : pr.2.index = 1 + j := by
  have hj : j < (copy_all syms minc f).2.length := by
    rw [← List.getElem?_eq_some_iff.mp h |>.choose_spec] at *
    exact (List.getElem?_eq_some_iff.mp h).choose
  have hmap := congrArg (fun l => l[j]?) (copy_all_map_index syms minc f)
  simp only [List.getElem?_map, h] at hmap
  rw [List.getElem?_range' 1 1 (by simpa using hj)] at hmap
  simp only [Option.map_some'] at hmap
  have := Option.some.inj hmap
  omega

lemma bPred_exhaustive (minc : List Bool) (p : Nat) (s : KSymbol)
    (hp : p ≠ 0) (hm : markGetD minc p = true) :
    bPred1 minc (p, s) = true ∨ bPred2 minc (p, s) = true ∨
    bPred3 minc (p, s) = true ∨ bPred4 minc (p, s) = true := by
  have hb : (p == 0) = false := by simp [hp]
  unfold bPred1 bPred2 bPred3 bPred4
  rw [hb, hm]
  cases is_file_sym s <;> cases is_local_func_sym s <;> cases is_local_sym s <;> simp

lemma assignIdx_mem (f : Nat → Option Nat) {q : Nat} {t : KSymbol} :
    ∀ (l : List (Nat × KSymbol)) (i : Nat), (q, t) ∈ l →
      ∃ i0, (q, mkDst t i0 f) ∈ assignIdx f i l := by
  intro l
  induction l with
  | nil => intro i h; cases h
  | cons hd tl ih =>
    intro i h
    obtain ⟨p, s⟩ := hd
    rcases List.mem_cons.mp h with h0 | h0
    · obtain ⟨h1, h2⟩ := Prod.mk.injEq .. ▸ h0
      subst h1; subst h2
      exact ⟨i, List.mem_cons_self _ _⟩
    · obtain ⟨i0, hi0⟩ := ih (i + 1) h0
      exact ⟨i0, List.mem_cons_of_mem _ hi0⟩

lemma copy_all_mem_of_marked (syms : List KSymbol) (minc : List Bool)
    (f : Nat → Option Nat) {p : Nat} {s : KSymbol}
    (hp : p ≠ 0) (hm : markGetD minc p = true) (hs : syms[p]? = some s) :
    ∃ j, (copy_all syms minc f).2[j]? = some (p, mkDst s (1 + j) f) := by
  have henum : (p, s) ∈ syms.enum := List.mk_mem_enum_iff_getElem?.mpr hs
  have hmem : ∃ i0, (p, mkDst s i0 f) ∈ (copy_all syms minc f).2 := by
    rw [copy_all_spec]
    rcases bPred_exhaustive minc p s hp hm with hb | hb | hb | hb
    · have hfil : (p, s) ∈ syms.enum.filter (bPred1 minc) :=
        List.mem_filter.mpr ⟨henum, hb⟩
      obtain ⟨i0, hi0⟩ := assignIdx_mem f _ 1 hfil
      exact ⟨i0, by
        apply List.mem_append_left
        apply List.mem_append_left
        exact List.mem_append_left _ hi0⟩
    · have hfil : (p, s) ∈ syms.enum.filter (bPred2 minc) :=
        List.mem_filter.mpr ⟨henum, hb⟩
      obtain ⟨i0, hi0⟩ := assignIdx_mem f _
        (1 + (syms.enum.filter (bPred1 minc)).length) hfil
      exact ⟨i0, by
        apply List.mem_append_left
        apply List.mem_append_left
        exact List.mem_append_right _ hi0⟩
    · have hfil : (p, s) ∈ syms.enum.filter (bPred3 minc) :=
        List.mem_filter.mpr ⟨henum, hb⟩
      obtain ⟨i0, hi0⟩ := assignIdx_mem f _
        (1 + (syms.enum.filter (bPred1 minc)).length +
          (syms.enum.filter (bPred2 minc)).length) hfil
      exact ⟨i0, by
        apply List.mem_append_left
        exact List.mem_append_right _ hi0⟩
    · have hfil : (p, s) ∈ syms.enum.filter (bPred4 minc) :=
        List.mem_filter.mpr ⟨henum, hb⟩
      obtain ⟨i0, hi0⟩ := assignIdx_mem f _
        (1 + (syms.enum.filter (bPred1 minc)).length +
          (syms.enum.filter (bPred2 minc)).length +
          (syms.enum.filter (bPred3 minc)).length) hfil
      exact ⟨i0, List.mem_append_right _ hi0⟩
  obtain ⟨i0, hi0⟩ := hmem
  obtain ⟨j, hj⟩ := List.getElem?_of_mem hi0
  have hidx := copy_all_getElem_index syms minc f hj
  rw [mkDst_index] at hidx
  subst hidx
  exact ⟨j, hj⟩

lemma pairwise_fst_inj {l : List (Nat × KSymbol)}
    (h : List.Pairwise (fun a b => a.1 ≠ b.1) l) {p : Nat} {s1 s2 : KSymbol}
    (h1 : (p, s1) ∈ l) (h2 : (p, s2) ∈ l) : s1 = s2 := by
  induction l with
  | nil => cases h1
  | cons hd tl ih =>
    rw [List.pairwise_cons] at h
    obtain ⟨hhd, htl⟩ := h
    rcases List.mem_cons.mp h1 with ha | ha <;> rcases List.mem_cons.mp h2 with hb | hb
    · rw [← ha] at hb; exact (Prod.mk.injEq .. ▸ hb.symm).2
    · exact absurd rfl (ha ▸ hhd (p, s2) hb)
    · exact absurd rfl (hb ▸ hhd (p, s1) ha)
    · exact ih htl ha hb

lemma bPred_mutually_false (minc : List Bool) (p : Nat) (s : KSymbol) :
    (bPred1 minc (p, s) && bPred2 minc (p, s)) = false ∧
    (bPred1 minc (p, s) && bPred3 minc (p, s)) = false ∧
    (bPred1 minc (p, s) && bPred4 minc (p, s)) = false ∧
    (bPred2 minc (p, s) && bPred3 minc (p, s)) = false ∧
    (bPred2 minc (p, s) && bPred4 minc (p, s)) = false ∧
    (bPred3 minc (p, s) && bPred4 minc (p, s)) = false := by
  unfold bPred1 bPred2 bPred3 bPred4
  cases hA : (p == 0) <;> cases hB : markGetD minc p <;>
    cases hC : is_file_sym s <;> cases hD : is_local_func_sym s <;>
    cases hE : is_local_sym s <;> exact ⟨rfl, rfl, rfl, rfl, rfl, rfl⟩

lemma mem_fst_filter_iff {e : List (Nat × KSymbol)} (pred : Nat × KSymbol → Bool)
    {p : Nat} :
    p ∈ (e.filter pred).map Prod.fst ↔ ∃ s, (p, s) ∈ e ∧ pred (p, s) = true := by
  constructor
  · intro h
    obtain ⟨⟨q, t⟩, hmem, hq⟩ := List.mem_map.mp h
    subst hq
    obtain ⟨hin, hp⟩ := List.mem_filter.mp hmem
    exact ⟨t, hin, hp⟩
  · intro ⟨s, hin, hp⟩
    exact List.mem_map.mpr ⟨(p, s), List.mem_filter.mpr ⟨hin, hp⟩, rfl⟩

lemma copy_all_fst_nodup (syms : List KSymbol) (minc : List Bool)
    (f : Nat → Option Nat) :
    ((copy_all syms minc f).2.map Prod.fst).Nodup := by
  have hpw := enum_pairwise_fst syms
  have hnode : (syms.enum.map Prod.fst).Nodup := by
    rw [List.enum_map_fst]
    exact List.nodup_range _
  have hsub : ∀ pred : Nat × KSymbol → Bool,
      ((syms.enum.filter pred).map Prod.fst).Nodup := by
    intro pred
    exact ((List.filter_sublist _).map Prod.fst).nodup hnode
  have hdisj : ∀ pred1 pred2 : Nat × KSymbol → Bool,
      (∀ p s, (pred1 (p, s) && pred2 (p, s)) = false) →
      List.Disjoint ((syms.enum.filter pred1).map Prod.fst)
        ((syms.enum.filter pred2).map Prod.fst) := by
    intro pred1 pred2 hff p h1 h2
    obtain ⟨s1, hm1, hp1⟩ := (mem_fst_filter_iff pred1).mp h1
    obtain ⟨s2, hm2, hp2⟩ := (mem_fst_filter_iff pred2).mp h2
    have hss := pairwise_fst_inj hpw hm1 hm2
    subst hss
    have := hff p s1
    rw [hp1, hp2] at this
    cases this
  rw [copy_all_spec]
  simp only [List.map_append, assignIdx_map_fst]
  have d12 := hdisj (bPred1 minc) (bPred2 minc)
    (fun p s => (bPred_mutually_false minc p s).1)
  have d13 := hdisj (bPred1 minc) (bPred3 minc)
    (fun p s => (bPred_mutually_false minc p s).2.1)
  have d14 := hdisj (bPred1 minc) (bPred4 minc)
    (fun p s => (bPred_mutually_false minc p s).2.2.1)
  have d23 := hdisj (bPred2 minc) (bPred3 minc)
    (fun p s => (bPred_mutually_false minc p s).2.2.2.1)
  have d24 := hdisj (bPred2 minc) (bPred4 minc)
    (fun p s => (bPred_mutually_false minc p s).2.2.2.2.1)
  have d34 := hdisj (bPred3 minc) (bPred4 minc)
    (fun p s => (bPred_mutually_false minc p s).2.2.2.2.2)
  apply List.Nodup.append
  · apply List.Nodup.append
    · apply List.Nodup.append
      · exact hsub _
      · exact hsub _
      · exact d12
    · exact hsub _
    · intro p hp hq
      rcases List.mem_append.mp hp with h | h
      · exact d13 h hq
      · exact d23 h hq
  · exact hsub _
  · intro p hp hq
    rcases List.mem_append.mp hp with h | h
    · rcases List.mem_append.mp h with h' | h'
      · exact d14 h' hq
      · exact d24 h' hq
    · exact d34 h hq

/-- find_symbol_by_index: first symbol of the table whose index field
matches. -/
def find_symbol_by_index (syms : List KSymbol) (i : Nat) : Option KSymbol :=
  syms.find? (fun s => s.index = i)

lemma find_by_dense :
    ∀ (l : List KSymbol) (base j : Nat),
      (∀ k x, l[k]? = some x → x.index = base + k) → j < l.length →
      l.find? (fun s => s.index = base + j) = l[j]? := by
  intro l
  induction l with
  | nil => intro base j _ hj; cases hj
  | cons hd tl ih =>
    intro base j hidx hj
    have hhd : hd.index = base := by
      have := hidx 0 hd (by simp)
      omega
    cases j with
    | zero =>
      rw [List.find?_cons_of_pos _ (by simp [hhd]), List.getElem?_cons_zero]
    | succ m =>
      rw [List.find?_cons_of_neg _ (by
        show ¬decide (hd.index = base + (m + 1)) = true
        simp only [decide_eq_true_eq]
        omega)]
      have htl : ∀ k x, tl[k]? = some x → x.index = (base + 1) + k := by
        intro k x hk
        have := hidx (k + 1) x (by simpa using hk)
        omega
      have hih := ih (base + 1) m htl (by simpa using Nat.lt_of_succ_lt_succ hj)
      rw [show base + (m + 1) = base + 1 + m by omega, hih, List.getElem?_cons_succ]

lemma find_symbol_output (syms : List KSymbol) (minc : List Bool)
    (f : Nat → Option Nat) {j : Nat} {pr : Nat × KSymbol}
    (h : (copy_all syms minc f).2[j]? = some pr) :
    find_symbol_by_index (nullSym :: (copy_all syms minc f).2.map Prod.snd)
      (1 + j) = some pr.2 := by
  have hj : j < (copy_all syms minc f).2.length :=
    (List.getElem?_eq_some_iff.mp h).choose
  unfold find_symbol_by_index
  rw [List.find?_cons_of_neg]
  · have hprop : ∀ k x, ((copy_all syms minc f).2.map Prod.snd)[k]? = some x →
        x.index = 1 + k := by
      intro k x hk
      rw [List.getElem?_map] at hk
      cases hc : (copy_all syms minc f).2[k]? with
      | none => rw [hc] at hk; cases hk
      | some pr' =>
        rw [hc] at hk
        simp only [Option.map_some'] at hk
        cases hk
        exact copy_all_getElem_index syms minc f hc
    have := find_by_dense ((copy_all syms minc f).2.map Prod.snd) 1 j hprop
      (by simpa using hj)
    rw [this, List.getElem?_map, h]
    rfl
  · simp [nullSym]
    omega

/-- C7.  The four symbol-copy passes produce the output symbol table as
the ordered partition null symbol, then included FILE symbols, then the
remaining included local FUNC symbols, then the remaining included local
symbols, then the remaining included symbols; the assigned indexes are
dense starting at 0 for the null symbol and 1 for the first copied
symbol, and no source symbol is copied into two buckets (the include
flag is cleared on copy). -/
theorem c7_symbol_ordering (syms : List KSymbol) (minc : List Bool)
    (f : Nat → Option Nat) :
    (copy_all syms minc f).2 =
      assignIdx f 1 (syms.enum.filter (bPred1 minc)) ++
      assignIdx f (1 + (syms.enum.filter (bPred1 minc)).length)
        (syms.enum.filter (bPred2 minc)) ++
      assignIdx f (1 + (syms.enum.filter (bPred1 minc)).length +
          (syms.enum.filter (bPred2 minc)).length)
        (syms.enum.filter (bPred3 minc)) ++
      assignIdx f (1 + (syms.enum.filter (bPred1 minc)).length +
          (syms.enum.filter (bPred2 minc)).length +
          (syms.enum.filter (bPred3 minc)).length)
        (syms.enum.filter (bPred4 minc)) ∧
    nullSym.index = 0 ∧
    (copy_all syms minc f).2.map (fun pr => pr.2.index) =
      List.range' 1 (copy_all syms minc f).2.length ∧
    ((copy_all syms minc f).2.map Prod.fst).Nodup :=
  ⟨copy_all_spec syms minc f, rfl, copy_all_map_index syms minc f,
   copy_all_fst_nodup syms minc f⟩

/-! ## Claim C4: section-symbol substitution and relocation re-targeting -/

/-- The per-entry body of kpatch_replace_sections_syms: a relocation
whose target is a SECTION symbol whose section has an entity symbol is
re-targeted to that entity symbol; every other entry is left alone. -/
def kpatch_subst_rela (g : KpatchElf) (r : Rela) : Rela :=
  match g.symbols[r.symPos]? with
  | none => r
  | some sym =>
    if sym.type = STT_SECTION then
      match sym.secIdx with
      | none => r
      | some scp =>
        match g.sections[scp]? with
        | none => r
        | some sec =>
          match sec.symPos with
          | none => r
          | some ep => { r with symPos := ep }
    else r

/-- kpatch_replace_sections_syms: apply the substitution to every entry
of every relocation section. -/
def kpatch_replace_sections_syms (g : KpatchElf) : KpatchElf :=
  { g with
    sections := g.sections.map (fun sec =>
      if sec.sh.sh_type = SHT_RELA then
        { sec with relas := sec.relas.map (kpatch_subst_rela g) }
      else sec) }

lemma subst_rela_rela (g : KpatchElf) (r : Rela) :
    (kpatch_subst_rela g r).rela = r.rela := by
  unfold kpatch_subst_rela
  repeat' split
  all_goals rfl

lemma R_TYPE_INFO (s t : Nat) (ht : t < 2 ^ 32) :
    GELF_R_TYPE (GELF_R_INFO s t) = t := by
  unfold GELF_R_TYPE GELF_R_INFO
  omega

lemma R_SYM_INFO (s t : Nat) (ht : t < 2 ^ 32) :
    GELF_R_SYM (GELF_R_INFO s t) = s := by
  unfold GELF_R_SYM GELF_R_INFO
  omega

lemma specAbsentRewrite_name (secInc : List Bool) (pr : Nat × KSymbol) :
    (specAbsentRewrite secInc pr).name = pr.2.name := by
  unfold specAbsentRewrite
  split <;> rfl

lemma mutate_preserves (secInc : List Bool) (syms out : List KSymbol)
    (h : kpatch_mutate_symbols secInc syms = some out) :
    out.length = syms.length ∧
    ∀ p : Nat, (out[p]?).map (fun s : KSymbol => s.name) =
      (syms[p]?).map (fun s : KSymbol => s.name) := by
  have heq := mutate_go_eq secInc syms.enum out h
  constructor
  · rw [heq, List.length_map, List.enum_length]
  · intro p
    rw [heq, List.getElem?_map, List.getElem?_enum]
    cases hs : syms[p]? with
    | none => rfl
    | some s =>
      simp only [Option.map_some']
      rw [specAbsentRewrite_name]

/-- C4.  For a relocation whose (section-symbol substituted) target was
included and copied, the re-targeted output entry keeps the relocation
type, offset and addend of the input entry, its rewritten symbol part is
the output index of the copied target, and looking that index up in the
output symbol table yields a symbol whose display name equals the name
of the substituted target. -/
theorem c4_rela_semantics (g : KpatchElf) (r : Rela) (secInc minc : List Bool)
    (f : Nat → Option Nat) (syms2 : List KSymbol)
    (hmut : kpatch_mutate_symbols secInc g.symbols = some syms2)
    (hp0 : (kpatch_subst_rela g r).symPos ≠ 0)
    (hmarked : markGetD minc (kpatch_subst_rela g r).symPos = true)
    (hlen : minc.length = syms2.length) :
    ∃ j s2 s0,
      syms2[(kpatch_subst_rela g r).symPos]? = some s2 ∧
      g.symbols[(kpatch_subst_rela g r).symPos]? = some s0 ∧
      (copy_all syms2 minc f).2[j]? =
        some ((kpatch_subst_rela g r).symPos, mkDst s2 (1 + j) f) ∧
      GELF_R_TYPE (kpatch_create_rela_entry (mkDst s2 (1 + j) f).index
          (kpatch_subst_rela g r).rela).r_info =
        GELF_R_TYPE r.rela.r_info ∧
      (kpatch_create_rela_entry (mkDst s2 (1 + j) f).index
          (kpatch_subst_rela g r).rela).r_offset = r.rela.r_offset ∧
      (kpatch_create_rela_entry (mkDst s2 (1 + j) f).index
          (kpatch_subst_rela g r).rela).r_addend = r.rela.r_addend ∧
      GELF_R_SYM (kpatch_create_rela_entry (mkDst s2 (1 + j) f).index
          (kpatch_subst_rela g r).rela).r_info = 1 + j ∧
      find_symbol_by_index (nullSym :: (copy_all syms2 minc f).2.map Prod.snd)
        (GELF_R_SYM (kpatch_create_rela_entry (mkDst s2 (1 + j) f).index
          (kpatch_subst_rela g r).rela).r_info) = some (mkDst s2 (1 + j) f) ∧
      (mkDst s2 (1 + j) f).name = s0.name := by
  have hplt : (kpatch_subst_rela g r).symPos < syms2.length := by
    have := markGetD_true_lt hmarked
    omega
  obtain ⟨s2, hs2⟩ : ∃ s2, syms2[(kpatch_subst_rela g r).symPos]? = some s2 := by
    cases hs : syms2[(kpatch_subst_rela g r).symPos]? with
    | none =>
      rw [List.getElem?_eq_none_iff] at hs
      omega
    | some v => exact ⟨v, rfl⟩
  obtain ⟨hmlen, hmname⟩ := mutate_preserves secInc g.symbols syms2 hmut
  obtain ⟨s0, hs0⟩ : ∃ s0, g.symbols[(kpatch_subst_rela g r).symPos]? = some s0 := by
    cases hs : g.symbols[(kpatch_subst_rela g r).symPos]? with
    | none =>
      rw [List.getElem?_eq_none_iff] at hs
      omega
    | some v => exact ⟨v, rfl⟩
  obtain ⟨j, hj⟩ := copy_all_mem_of_marked syms2 minc f hp0 hmarked hs2
  have htlt : GELF_R_TYPE (kpatch_subst_rela g r).rela.r_info < 2 ^ 32 := by
    unfold GELF_R_TYPE
    omega
  have hinfo : (kpatch_create_rela_entry (mkDst s2 (1 + j) f).index
      (kpatch_subst_rela g r).rela).r_info =
      GELF_R_INFO (1 + j) (GELF_R_TYPE (kpatch_subst_rela g r).rela.r_info) := by
    unfold kpatch_create_rela_entry
    rw [mkDst_index]
  have hname : (mkDst s2 (1 + j) f).name = s0.name := by
    rw [mkDst_name]
    have := hmname (kpatch_subst_rela g r).symPos
    rw [hs2, hs0] at this
    simpa using this
  refine ⟨j, s2, s0, hs2, hs0, hj, ?_, ?_, ?_, ?_, ?_, hname⟩
  · rw [hinfo, R_TYPE_INFO _ _ htlt, subst_rela_rela]
  · show (kpatch_subst_rela g r).rela.r_offset = r.rela.r_offset
    rw [subst_rela_rela]
  · show (kpatch_subst_rela g r).rela.r_addend = r.rela.r_addend
    rw [subst_rela_rela]
  · rw [hinfo, R_SYM_INFO _ _ htlt]
  · rw [hinfo, R_SYM_INFO _ _ htlt]
    exact find_symbol_output syms2 minc f hj

def c4secText : KSection :=
  { twin := none, sh := ⟨0, SHT_PROGBITS, 6, 0, 0, 8, 0, 0, 16, 0⟩
    dataBuf := [1, 2, 3, 4, 5, 6, 7, 8], dataSize := 8, name := ".text.foo"
    index := 1, status := Status.CHANGED, basePos := none, relas := []
    relaPos := some 1, symPos := some 2, secsymPos := some 1 }

def c4rela : Rela :=
  { rela := { r_offset := 16, r_info := 1 * 2 ^ 32 + 2, r_addend := -4 }
    symPos := 1, type := 2, addend := -4, offset := 16, string := none
    twin := none, status := Status.SAME }

def c4secRela : KSection :=
  { twin := none, sh := ⟨0, SHT_RELA, 0, 0, 0, 24, 0, 0, 8, 24⟩
    dataBuf := [], dataSize := 24, name := ".rela.text.foo", index := 2
    status := Status.CHANGED, basePos := some 0, relas := [c4rela]
    relaPos := none, symPos := none, secsymPos := none }

def c4g : KpatchElf :=
  { elfClass := some ELFCLASS64
    sections := [c4secText, c4secRela]
    symbols :=
      [nullSym,
       { twin := none, secIdx := some 0, sym := ⟨0, 3, 0, 1, 0, 0⟩
         name := some ".text.foo", index := 1, bind := STB_LOCAL
         type := STT_SECTION, status := Status.CHANGED },
       { twin := none, secIdx := some 0, sym := ⟨1, 0x12, 0, 1, 0, 8⟩
         name := some "foo", index := 2, bind := STB_GLOBAL, type := STT_FUNC
         status := Status.CHANGED }] }

/-- Witness for C4 at a concrete graph: a relocation against the section
symbol of .text.foo is substituted to the entity symbol foo, which is
the only included symbol; the re-targeted entry preserves type, offset
and addend and resolves to the copied foo. -/
theorem c4_witness :
    ∃ j s2 s0,
      c4g.symbols[(kpatch_subst_rela c4g c4rela).symPos]? = some s2 ∧
      c4g.symbols[(kpatch_subst_rela c4g c4rela).symPos]? = some s0 ∧
      (copy_all c4g.symbols [false, false, true] (fun _ => none)).2[j]? =
        some ((kpatch_subst_rela c4g c4rela).symPos,
          mkDst s2 (1 + j) (fun _ => none)) ∧
      GELF_R_TYPE (kpatch_create_rela_entry (mkDst s2 (1 + j) (fun _ => none)).index
          (kpatch_subst_rela c4g c4rela).rela).r_info =
        GELF_R_TYPE c4rela.rela.r_info ∧
      (kpatch_create_rela_entry (mkDst s2 (1 + j) (fun _ => none)).index
          (kpatch_subst_rela c4g c4rela).rela).r_offset = c4rela.rela.r_offset ∧
      (kpatch_create_rela_entry (mkDst s2 (1 + j) (fun _ => none)).index
          (kpatch_subst_rela c4g c4rela).rela).r_addend = c4rela.rela.r_addend ∧
      GELF_R_SYM (kpatch_create_rela_entry (mkDst s2 (1 + j) (fun _ => none)).index
          (kpatch_subst_rela c4g c4rela).rela).r_info = 1 + j ∧
      find_symbol_by_index (nullSym ::
          (copy_all c4g.symbols [false, false, true] (fun _ => none)).2.map Prod.snd)
        (GELF_R_SYM (kpatch_create_rela_entry (mkDst s2 (1 + j) (fun _ => none)).index
          (kpatch_subst_rela c4g c4rela).rela).r_info) =
        some (mkDst s2 (1 + j) (fun _ => none)) ∧
      (mkDst s2 (1 + j) (fun _ => none)).name = s0.name :=
  c4_rela_semantics c4g c4rela [true, true] [false, false, true] (fun _ => none)
    c4g.symbols (by decide) (by decide) (by decide) (by decide)

/-! ## Claim C1: the inclusion walk and closure completeness -/

/-- kpatch_include_symbol marks the section symbol of an included
section, when it exists and is not the symbol being included. -/
def markSecsym (sec : KSection) (m : Marks) : Marks :=
  match sec.secsymPos with
  | some q => setSymM m q
  | none => m

/-- The rela loop at the end of kpatch_include_symbol: recurse into
every relocation target not yet included.  rec is the recursive call at
the remaining fuel. -/
def includeRelasGo (rec : Marks → Nat → Option Marks) :
    Marks → List Rela → Option Marks
  | m, [] => some m
  | m, r :: rs =>
    if markGetD m.symInc r.symPos = true then includeRelasGo rec m rs
    else
      match rec m r.symPos with
      | none => none
      | some m2 => includeRelasGo rec m2 rs

/-- kpatch_include_symbol.  Marks the symbol; stops at non-local or
unchanged non-SECTION symbols; otherwise marks the owning section, its
section symbol (unless that is the symbol at hand, in which case it
stops), and its relocation section, recursing into every relocation
target.  The C recursion terminates because every recursive call is on a
not-yet-included symbol; the embedding runs on fuel, with none for fuel
exhaustion (and for the dangling pointers that cannot occur in loaded
graphs). -/
def kpatch_include_symbol (g : KpatchElf) : Nat → Marks → Nat → Option Marks
  | 0, _, _ => none
  | fuel + 1, m, p =>
    match g.symbols[p]? with
    | none => none
    | some sym =>
      if sym.secIdx = none ∨ (sym.type ≠ STT_SECTION ∧ sym.status = Status.SAME) then
        some (setSymM m p)
      else
        match sym.secIdx with
        | none => some (setSymM m p)
        | some sp =>
          match g.sections[sp]? with
          | none => none
          | some sec =>
            if sec.secsymPos = some p then some (setSecM (setSymM m p) sp)
            else
              match sec.relaPos with
              | none => some (markSecsym sec (setSecM (setSymM m p) sp))
              | some rp =>
                match g.sections[rp]? with
                | none => none
                | some rsec =>
                  includeRelasGo (fun m' q => kpatch_include_symbol g fuel m' q)
                    (setSecM (markSecsym sec (setSecM (setSymM m p) sp)) rp)
                    rsec.relas

/-- kpatch_include_changed_functions: walk the symbol table; start an
inclusion walk at every changed FUNC symbol not already included,
logging the changed function; unconditionally include FILE symbols. -/
def kpatch_include_changed_functions_go (g : KpatchElf) (fuel : Nat) :
    Marks → List String → List (Nat × KSymbol) → Option (Marks × List String)
  | m, log, [] => some (m, log)
  | m, log, (p, sym) :: rest =>
    match
      (if sym.status = Status.CHANGED ∧ sym.type = STT_FUNC ∧
          markGetD m.symInc p = false then
        match kpatch_include_symbol g fuel m p with
        | none => none
        | some m2 =>
          some (m2, log ++ ["changed function: " ++ sym.name.getD ""])
      else some (m, log)) with
    | none => none
    | some (m2, log2) =>
      kpatch_include_changed_functions_go g fuel
        (if sym.type = STT_FILE then setSymM m2 p else m2) log2 rest

def kpatch_include_changed_functions (g : KpatchElf) (fuel : Nat) (m : Marks) :
    Option (Marks × List String) :=
  kpatch_include_changed_functions_go g fuel m [] g.symbols.enum

/-- The unconditional inclusion of the three metadata sections at the
start of kpatch_generate_output. -/
def kpatch_mark_metadata (g : KpatchElf) (m : Marks) : Marks :=
  (g.sections.enum).foldl
    (fun m' pr =>
      if pr.2.name = ".shstrtab" ∨ pr.2.name = ".strtab" ∨ pr.2.name = ".symtab"
      then setSecM m' pr.1 else m') m

/-- Monotonicity of include flags: flags are only ever raised. -/
def monoM (m m' : Marks) : Prop :=
  (∀ i, markGetD m.symInc i = true → markGetD m'.symInc i = true) ∧
  (∀ i, markGetD m.secInc i = true → markGetD m'.secInc i = true)

/-- The mark lists are parallel to the graph's tables. -/
def MarksWF (g : KpatchElf) (m : Marks) : Prop :=
  m.symInc.length = g.symbols.length ∧ m.secInc.length = g.sections.length

/-- Every relocation section whose include flag was newly raised between
two mark states has all its relocation targets included in the later
state. -/
def NEWOK (g : KpatchElf) (m m' : Marks) : Prop :=
  ∀ sp sec, g.sections[sp]? = some sec → sec.sh.sh_type = SHT_RELA →
    markGetD m'.secInc sp = true → markGetD m.secInc sp = false →
    ∀ r ∈ sec.relas, markGetD m'.symInc r.symPos = true

/-- Well-formedness the loader guarantees for the pieces the inclusion
walk touches: no symbol is owned by a relocation section (the C union
would alias base/relas with rela/secsym/sym otherwise) and none of the
three metadata sections is a relocation section. -/
structure GraphWF (g : KpatchElf) : Prop where
  sym_sec_not_rela : ∀ (p sp : Nat) (sym : KSymbol) (sec : KSection),
    g.symbols[p]? = some sym → sym.secIdx = some sp →
    g.sections[sp]? = some sec → sec.sh.sh_type ≠ SHT_RELA
  meta_not_rela : ∀ (sp : Nat) (sec : KSection), g.sections[sp]? = some sec →
    (sec.name = ".shstrtab" ∨ sec.name = ".strtab" ∨ sec.name = ".symtab") →
    sec.sh.sh_type ≠ SHT_RELA

/-- Decidable check for GraphWF, for concrete witnesses. -/
def graphWFb (g : KpatchElf) : Bool :=
  (g.symbols.all (fun sym =>
    match sym.secIdx with
    | none => true
    | some sp =>
      match g.sections[sp]? with
      | none => true
      | some sec => sec.sh.sh_type ≠ SHT_RELA)) &&
  (g.sections.all (fun sec =>
    if sec.name = ".shstrtab" ∨ sec.name = ".strtab" ∨ sec.name = ".symtab"
    then sec.sh.sh_type ≠ SHT_RELA else true))

lemma markGetD_set_true_mono {l : List Bool} {i j : Nat}
    (h : markGetD l j = true) : markGetD (l.set i true) j = true := by
  by_cases hij : i = j
  · subst hij
    exact markGetD_set_self l true (markGetD_true_lt h)
  · rw [markGetD_set_ne l true hij]
    exact h

lemma markGetD_set_true_elim {l : List Bool} {i j : Nat}
    (h : markGetD (l.set i true) j = true) : j = i ∨ markGetD l j = true := by
  by_cases hij : j = i
  · exact Or.inl hij
  · right
    rw [markGetD_set_ne l true (fun hc => hij hc.symm)] at h
    exact h

lemma monoM_refl (m : Marks) : monoM m m :=
  ⟨fun _ h => h, fun _ h => h⟩

lemma monoM_trans {a b c : Marks} (h1 : monoM a b) (h2 : monoM b c) : monoM a c :=
  ⟨fun i h => h2.1 i (h1.1 i h), fun i h => h2.2 i (h1.2 i h)⟩

lemma monoM_setSym (m : Marks) (i : Nat) : monoM m (setSymM m i) :=
  ⟨fun _ h => markGetD_set_true_mono h, fun _ h => h⟩

lemma monoM_setSec (m : Marks) (i : Nat) : monoM m (setSecM m i) :=
  ⟨fun _ h => h, fun _ h => markGetD_set_true_mono h⟩

lemma monoM_markSecsym (sec : KSection) (m : Marks) : monoM m (markSecsym sec m) := by
  unfold markSecsym
  cases sec.secsymPos with
  | none => exact monoM_refl m
  | some q => exact monoM_setSym m q

lemma NEWOK_refl (g : KpatchElf) (m : Marks) : NEWOK g m m := by
  intro sp sec _ _ hc hn
  rw [hc] at hn
  cases hn

lemma NEWOK_trans {g : KpatchElf} {a b c : Marks}
    (hab : NEWOK g a b) (hbc : NEWOK g b c)
    (mbc : monoM b c) : NEWOK g a c := by
  intro sp sec hsec hrela hc hna r hr
  by_cases hb : markGetD b.secInc sp = true
  · exact mbc.1 _ (hab sp sec hsec hrela hb hna r hr)
  · have hnb : markGetD b.secInc sp = false := by
      cases hv : markGetD b.secInc sp
      · rfl
      · exact absurd hv hb
    exact hbc sp sec hsec hrela hc hnb r hr

lemma NEWOK_symOnly {g : KpatchElf} {m m' : Marks}
    (h : m'.secInc = m.secInc) : NEWOK g m m' := by
  intro sp sec _ _ hc hn
  rw [h, hn] at hc
  cases hc

lemma NEWOK_setSec_not_rela {g : KpatchElf} {m : Marks} {i : Nat}
    (h : ∀ sec, g.sections[i]? = some sec → sec.sh.sh_type ≠ SHT_RELA) :
    NEWOK g m (setSecM m i) := by
  intro sp sec hsec hrela hc hn
  have helim := markGetD_set_true_elim hc
  rcases helim with he | he
  · subst he
    exact absurd hrela (h sec hsec)
  · rw [hn] at he
    cases he

lemma MarksWF_setSym {g : KpatchElf} {m : Marks} (h : MarksWF g m) (i : Nat) :
    MarksWF g (setSymM m i) := by
  obtain ⟨h1, h2⟩ := h
  refine ⟨?_, h2⟩
  show (m.symInc.set i true).length = g.symbols.length
  rw [List.length_set]
  exact h1

lemma MarksWF_setSec {g : KpatchElf} {m : Marks} (h : MarksWF g m) (i : Nat) :
    MarksWF g (setSecM m i) := by
  obtain ⟨h1, h2⟩ := h
  refine ⟨h1, ?_⟩
  show (m.secInc.set i true).length = g.sections.length
  rw [List.length_set]
  exact h2

lemma MarksWF_markSecsym {g : KpatchElf} {m : Marks} (h : MarksWF g m)
    (sec : KSection) : MarksWF g (markSecsym sec m) := by
  unfold markSecsym
  cases sec.secsymPos with
  | none => exact h
  | some q => exact MarksWF_setSym h q

lemma includeRelasGo_spec (g : KpatchElf) (rec : Marks → Nat → Option Marks)
    (H : ∀ m p m', MarksWF g m → rec m p = some m' →
      MarksWF g m' ∧ monoM m m' ∧ markGetD m'.symInc p = true ∧ NEWOK g m m') :
    ∀ (rs : List Rela) (m m' : Marks), MarksWF g m →
      includeRelasGo rec m rs = some m' →
      MarksWF g m' ∧ monoM m m' ∧ NEWOK g m m' ∧
      ∀ r ∈ rs, markGetD m'.symInc r.symPos = true := by
  intro rs
  induction rs with
  | nil =>
    intro m m' hwf h
    cases h
    exact ⟨hwf, monoM_refl m, NEWOK_refl g m, fun r hr => absurd hr (List.not_mem_nil r)⟩
  | cons r rs ih =>
    intro m m' hwf h
    simp only [includeRelasGo] at h
    by_cases hmk : markGetD m.symInc r.symPos = true
    · rw [if_pos hmk] at h
      obtain ⟨hwf', hmono, hnew, htargets⟩ := ih m m' hwf h
      refine ⟨hwf', hmono, hnew, ?_⟩
      intro r' hr'
      rcases List.mem_cons.mp hr' with h0 | h0
      · subst h0
        exact hmono.1 _ hmk
      · exact htargets r' h0
    · rw [if_neg hmk] at h
      cases hrec : rec m r.symPos with
      | none => rw [hrec] at h; cases h
      | some m2 =>
        rw [hrec] at h
        obtain ⟨hwf2, hmono2, hmk2, hnew2⟩ := H m r.symPos m2 hwf hrec
        obtain ⟨hwf', hmono', hnew', htargets⟩ := ih m2 m' hwf2 h
        refine ⟨hwf', monoM_trans hmono2 hmono', NEWOK_trans hnew2 hnew' hmono', ?_⟩
        intro r' hr'
        rcases List.mem_cons.mp hr' with h0 | h0
        · subst h0
          exact hmono'.1 _ hmk2
        · exact htargets r' h0

lemma include_symbol_spec (g : KpatchElf) (wf : GraphWF g) :
    ∀ (fuel : Nat) (m : Marks) (p : Nat) (m' : Marks), MarksWF g m →
      kpatch_include_symbol g fuel m p = some m' →
      MarksWF g m' ∧ monoM m m' ∧ markGetD m'.symInc p = true ∧ NEWOK g m m' := by
  intro fuel
  induction fuel with
  | zero => intro m p m' _ h; cases h
  | succ fuel ih =>
    intro m p m' hwf h
    simp only [kpatch_include_symbol] at h
    cases hsym : g.symbols[p]? with
    | none => rw [hsym] at h; cases h
    | some sym =>
      simp only [hsym] at h
      have hplt : p < g.symbols.length := by
        have := List.getElem?_eq_some_iff.mp hsym
        exact this.choose
      have hm1p : markGetD (setSymM m p).symInc p = true := by
        show markGetD (m.symInc.set p true) p = true
        exact markGetD_set_self m.symInc true (by rw [hwf.1]; exact hplt)
      by_cases hbase : sym.secIdx = none ∨ (sym.type ≠ STT_SECTION ∧ sym.status = Status.SAME)
      · rw [if_pos hbase] at h
        cases h
        exact ⟨MarksWF_setSym hwf p, monoM_setSym m p, hm1p,
          NEWOK_symOnly rfl⟩
      · rw [if_neg hbase] at h
        cases hsec0 : sym.secIdx with
        | none =>
          rw [hsec0] at h
          cases h
          exact ⟨MarksWF_setSym hwf p, monoM_setSym m p, hm1p,
            NEWOK_symOnly rfl⟩
        | some sp =>
          simp only [hsec0] at h
          cases hsecget : g.sections[sp]? with
          | none => rw [hsecget] at h; cases h
          | some sec =>
            simp only [hsecget] at h
            have hnotrela : ∀ sec', g.sections[sp]? = some sec' →
                sec'.sh.sh_type ≠ SHT_RELA := by
              intro sec' hsec'
              exact wf.sym_sec_not_rela p sp sym sec' hsym hsec0 hsec'
            have hwf2 : MarksWF g (setSecM (setSymM m p) sp) :=
              MarksWF_setSec (MarksWF_setSym hwf p) sp
            have hmono2 : monoM m (setSecM (setSymM m p) sp) :=
              monoM_trans (monoM_setSym m p) (monoM_setSec _ sp)
            have hnew2 : NEWOK g m (setSecM (setSymM m p) sp) :=
              NEWOK_trans
                (NEWOK_symOnly (show (setSymM m p).secInc = m.secInc from rfl))
                (NEWOK_setSec_not_rela hnotrela)
                (monoM_setSec (setSymM m p) sp)
            have hm2p : markGetD (setSecM (setSymM m p) sp).symInc p = true := hm1p
            by_cases hss : sec.secsymPos = some p
            · rw [if_pos hss] at h
              cases h
              exact ⟨hwf2, hmono2, hm2p, hnew2⟩
            · rw [if_neg hss] at h
              have hwf3 : MarksWF g (markSecsym sec (setSecM (setSymM m p) sp)) :=
                MarksWF_markSecsym hwf2 sec
              have hmono3 : monoM m (markSecsym sec (setSecM (setSymM m p) sp)) :=
                monoM_trans hmono2 (monoM_markSecsym sec _)
              have hsecIncEq : (markSecsym sec (setSecM (setSymM m p) sp)).secInc =
                  (setSecM (setSymM m p) sp).secInc := by
                unfold markSecsym
                cases sec.secsymPos <;> rfl
              have hnew3 : NEWOK g m (markSecsym sec (setSecM (setSymM m p) sp)) :=
                NEWOK_trans hnew2 (NEWOK_symOnly hsecIncEq) (monoM_markSecsym sec _)
              have hm3p : markGetD (markSecsym sec (setSecM (setSymM m p) sp)).symInc
                  p = true := by
                exact (monoM_markSecsym sec _).1 _ hm2p
              cases hrp : sec.relaPos with
              | none =>
                rw [hrp] at h
                cases h
                exact ⟨hwf3, hmono3, hm3p, hnew3⟩
              | some rp =>
                simp only [hrp] at h
                cases hrsec : g.sections[rp]? with
                | none => rw [hrsec] at h; cases h
                | some rsec =>
                  simp only [hrsec] at h
                  have hwf4 : MarksWF g
                      (setSecM (markSecsym sec (setSecM (setSymM m p) sp)) rp) :=
                    MarksWF_setSec hwf3 rp
                  have hmono4 : monoM m
                      (setSecM (markSecsym sec (setSecM (setSymM m p) sp)) rp) :=
                    monoM_trans hmono3 (monoM_setSec _ rp)
                  obtain ⟨hwf', hmono', hnew', htargets⟩ :=
                    includeRelasGo_spec g
                      (fun m' q => kpatch_include_symbol g fuel m' q)
                      (fun m0 p0 m0' hwf0 h0 => ih m0 p0 m0' hwf0 h0)
                      rsec.relas _ m' hwf4 h
                  refine ⟨hwf', monoM_trans hmono4 hmono', ?_, ?_⟩
                  · exact hmono'.1 _ ((monoM_setSec _ rp).1 _ hm3p)
                  · -- compose NEWOK through the relaPos marking
                    have hnew34 : NEWOK g
                        (markSecsym sec (setSecM (setSymM m p) sp)) m' := by
                      intro sp' sec' hsec' hrela' hc' hn' r hr
                      by_cases h4 : markGetD (setSecM (markSecsym sec
                          (setSecM (setSymM m p) sp)) rp).secInc sp' = true
                      · have helim : sp' = rp ∨ markGetD (markSecsym sec
                            (setSecM (setSymM m p) sp)).secInc sp' = true :=
                          markGetD_set_true_elim h4
                        rcases helim with he | he
                        · subst he
                          have : sec' = rsec := by
                            rw [hsec'] at hrsec
                            exact Option.some.inj hrsec
                          subst this
                          exact htargets r hr
                        · rw [hn'] at he
                          cases he
                      · have h4' : markGetD (setSecM (markSecsym sec
                            (setSecM (setSymM m p) sp)) rp).secInc sp' = false := by
                          cases hv : markGetD (setSecM (markSecsym sec
                              (setSecM (setSymM m p) sp)) rp).secInc sp'
                          · rfl
                          · exact absurd hv h4
                        exact hnew' sp' sec' hsec' hrela' hc' h4' r hr
                    exact NEWOK_trans hnew3 hnew34
                      (monoM_trans (monoM_setSec _ rp) hmono')

lemma include_changed_go_spec (g : KpatchElf) (wf : GraphWF g) (fuel : Nat) :
    ∀ (prs : List (Nat × KSymbol)) (m : Marks) (log : List String)
      (m' : Marks) (log' : List String),
      MarksWF g m →
      kpatch_include_changed_functions_go g fuel m log prs = some (m', log') →
      MarksWF g m' ∧ monoM m m' ∧ NEWOK g m m' := by
  intro prs
  induction prs with
  | nil =>
    intro m log m' log' hwf h
    cases h
    exact ⟨hwf, monoM_refl m, NEWOK_refl g m⟩
  | cons hd rest ih =>
    obtain ⟨p, sym⟩ := hd
    intro m log m' log' hwf h
    simp only [kpatch_include_changed_functions_go] at h
    by_cases hcond : sym.status = Status.CHANGED ∧ sym.type = STT_FUNC ∧
        markGetD m.symInc p = false
    · rw [if_pos hcond] at h
      cases hinc : kpatch_include_symbol g fuel m p with
      | none => rw [hinc] at h; cases h
      | some m2 =>
        rw [hinc] at h
        replace h : kpatch_include_changed_functions_go g fuel
            (if sym.type = STT_FILE then setSymM m2 p else m2)
            (log ++ ["changed function: " ++ sym.name.getD ""]) rest =
            some (m', log') := h
        obtain ⟨hwf2, hmono2, _, hnew2⟩ := include_symbol_spec g wf fuel m p m2 hwf hinc
        by_cases hfile : sym.type = STT_FILE
        · rw [if_pos hfile] at h
          obtain ⟨hwf', hmono', hnew'⟩ := ih (setSymM m2 p) _ m' log'
            (MarksWF_setSym hwf2 p) h
          refine ⟨hwf', monoM_trans hmono2 (monoM_trans (monoM_setSym m2 p) hmono'),
            ?_⟩
          have hn23 : NEWOK g m2 (setSymM m2 p) :=
            NEWOK_symOnly (show (setSymM m2 p).secInc = m2.secInc from rfl)
          exact NEWOK_trans hnew2
            (NEWOK_trans hn23 hnew' hmono')
            (monoM_trans (monoM_setSym m2 p) hmono')
        · rw [if_neg hfile] at h
          obtain ⟨hwf', hmono', hnew'⟩ := ih m2 _ m' log' hwf2 h
          exact ⟨hwf', monoM_trans hmono2 hmono', NEWOK_trans hnew2 hnew' hmono'⟩
    · rw [if_neg hcond] at h
      replace h : kpatch_include_changed_functions_go g fuel
          (if sym.type = STT_FILE then setSymM m p else m) log rest =
          some (m', log') := h
      by_cases hfile : sym.type = STT_FILE
      · rw [if_pos hfile] at h
        obtain ⟨hwf', hmono', hnew'⟩ := ih (setSymM m p) _ m' log'
          (MarksWF_setSym hwf p) h
        have hn : NEWOK g m (setSymM m p) :=
          NEWOK_symOnly (show (setSymM m p).secInc = m.secInc from rfl)
        exact ⟨hwf', monoM_trans (monoM_setSym m p) hmono',
          NEWOK_trans hn hnew' hmono'⟩
      · rw [if_neg hfile] at h
        exact ih m _ m' log' hwf h

lemma markGetD_replicate_false (n i : Nat) :
    markGetD (List.replicate n false) i = false := by
  unfold markGetD
  rw [List.getD_eq_getElem?_getD]
  cases h : (List.replicate n false)[i]? with
  | none => rfl
  | some b =>
    have := List.getElem?_mem h
    rw [List.eq_of_mem_replicate this]
    rfl

lemma metaFold_symInc (step : Marks → Nat × KSection → Marks)
    (hstep : ∀ m pr, (step m pr).symInc = m.symInc) :
    ∀ (l : List (Nat × KSection)) (m : Marks), (l.foldl step m).symInc = m.symInc := by
  intro l
  induction l with
  | nil => intro m; rfl
  | cons hd tl ih =>
    intro m
    rw [List.foldl_cons, ih, hstep]

lemma mark_metadata_symInc (g : KpatchElf) (m : Marks) :
    (kpatch_mark_metadata g m).symInc = m.symInc := by
  unfold kpatch_mark_metadata
  apply metaFold_symInc
  intro m' pr
  split <;> rfl

lemma mark_metadata_new :
    ∀ (l : List (Nat × KSection)) (m : Marks) (sp : Nat),
      markGetD ((l.foldl (fun m' pr =>
        if pr.2.name = ".shstrtab" ∨ pr.2.name = ".strtab" ∨ pr.2.name = ".symtab"
        then setSecM m' pr.1 else m') m)).secInc sp = true →
      markGetD m.secInc sp = true ∨
      ∃ pr ∈ l, pr.1 = sp ∧
        (pr.2.name = ".shstrtab" ∨ pr.2.name = ".strtab" ∨ pr.2.name = ".symtab") := by
  intro l
  induction l with
  | nil => intro m sp h; exact Or.inl h
  | cons hd tl ih =>
    intro m sp h
    rw [List.foldl_cons] at h
    by_cases hc : hd.2.name = ".shstrtab" ∨ hd.2.name = ".strtab" ∨ hd.2.name = ".symtab"
    · rw [if_pos hc] at h
      rcases ih (setSecM m hd.1) sp h with h0 | h0
      · rcases markGetD_set_true_elim h0 with he | he
        · exact Or.inr ⟨hd, List.mem_cons_self _ _, he.symm ▸ rfl, hc⟩
        · exact Or.inl he
      · obtain ⟨pr, hpr, he, hn⟩ := h0
        exact Or.inr ⟨pr, List.mem_cons_of_mem _ hpr, he, hn⟩
    · rw [if_neg hc] at h
      rcases ih m sp h with h0 | h0
      · exact Or.inl h0
      · obtain ⟨pr, hpr, he, hn⟩ := h0
        exact Or.inr ⟨pr, List.mem_cons_of_mem _ hpr, he, hn⟩

lemma graphWFb_implies {g : KpatchElf} (h : graphWFb g = true) : GraphWF g := by
  unfold graphWFb at h
  rw [Bool.and_eq_true] at h
  obtain ⟨h1, h2⟩ := h
  rw [List.all_eq_true] at h1
  rw [List.all_eq_true] at h2
  constructor
  · intro p sp sym sec hsym hsec hget
    have hm := h1 sym (List.getElem?_mem hsym)
    simp only [hsec, hget] at hm
    exact of_decide_eq_true hm
  · intro sp sec hget hname
    have hm := h2 sec (List.getElem?_mem hget)
    rw [if_pos hname] at hm
    exact of_decide_eq_true hm

lemma initMarks_wf (g : KpatchElf) : MarksWF g (initMarks g) := by
  constructor
  · show (List.replicate g.symbols.length false).length = g.symbols.length
    exact List.length_replicate _ _
  · show (List.replicate g.sections.length false).length = g.sections.length
    exact List.length_replicate _ _

/-- C1 (amended).  After the inclusion walk, the metadata marking and
the symbol mutation pass, every relocation of an included relocation
section whose target is not the null symbol (position 0) has been copied
by the four copy passes, so its output crosslink exists and the fatal
branch of the relocation re-targeting is not reached for it.  (A
relocation targeting symbol 0 is included by the walk but skipped by
every copy pass, so the original unconditional claim fails; see the
counterexample.) -/
theorem c1_closure_completeness_amended
    (g : KpatchElf) (fuel : Nat) (m1 : Marks) (log : List String)
    (syms2 : List KSymbol) (f : Nat → Option Nat)
    (hwfb : graphWFb g = true)
    (hrun : kpatch_include_changed_functions g fuel (initMarks g) = some (m1, log))
    (hmut : kpatch_mutate_symbols (kpatch_mark_metadata g m1).secInc g.symbols =
      some syms2) :
    ∀ sp sec, g.sections[sp]? = some sec → sec.sh.sh_type = SHT_RELA →
      markGetD (kpatch_mark_metadata g m1).secInc sp = true →
      ∀ r ∈ sec.relas, r.symPos ≠ 0 →
        ∃ (j : Nat) (d : KSymbol),
          (copy_all syms2 (kpatch_mark_metadata g m1).symInc f).2[j]? =
            some (r.symPos, d) := by
  have wf := graphWFb_implies hwfb
  obtain ⟨hwf1, hmono1, hnew1⟩ :=
    include_changed_go_spec g wf fuel g.symbols.enum (initMarks g) [] m1 log
      (initMarks_wf g) hrun
  intro sp sec hget hrela hmark r hr hp0
  -- the relocation target is marked in m1
  have htarget : markGetD m1.symInc r.symPos = true := by
    rcases mark_metadata_new g.sections.enum m1 sp hmark with hold | hnewm
    · exact hnew1 sp sec hget hrela hold
        (by rw [show (initMarks g).secInc = List.replicate g.sections.length false
            from rfl]; exact markGetD_replicate_false _ _) r hr
    · obtain ⟨pr, hpr, hfst, hname⟩ := hnewm
      have hget' : g.sections[pr.1]? = some pr.2 :=
        List.mem_enum_iff_getElem?.mp hpr
      rw [hfst, hget] at hget'
      have : pr.2 = sec := Option.some.inj hget'.symm
      rw [this] at hname
      exact absurd hrela (wf.meta_not_rela sp sec hget hname)
  have htarget2 : markGetD (kpatch_mark_metadata g m1).symInc r.symPos = true := by
    rw [mark_metadata_symInc]
    exact htarget
  -- the marked target position is inside the mutated table
  have hplt : r.symPos < g.symbols.length := by
    have h1 := markGetD_true_lt htarget
    have := hwf1.1
    omega
  obtain ⟨hmlen, _⟩ := mutate_preserves _ g.symbols syms2 hmut
  obtain ⟨s2, hs2⟩ : ∃ s2, syms2[r.symPos]? = some s2 := by
    cases hs : syms2[r.symPos]? with
    | none =>
      rw [List.getElem?_eq_none_iff] at hs
      omega
    | some v => exact ⟨v, rfl⟩
  obtain ⟨j, hj⟩ := copy_all_mem_of_marked syms2
    (kpatch_mark_metadata g m1).symInc f hp0 htarget2 hs2
  exact ⟨j, mkDst s2 (1 + j) f, hj⟩

/-- The crosslink map the relocation re-targeting consults: a symbol
position has an output index exactly when some copy pass copied it. -/
def crosslinkOf (copied : List (Nat × KSymbol)) (p : Nat) : Option Nat :=
  (copied.find? (fun pr => pr.1 == p)).map (fun pr => pr.2.index)

def c1rela0 : Rela :=
  { rela := { r_offset := 0, r_info := 0 * 2 ^ 32 + 1, r_addend := 0 }
    symPos := 0, type := 1, addend := 0, offset := 0, string := none
    twin := none, status := Status.NEW }

def c1secText : KSection :=
  { twin := none, sh := ⟨0, SHT_PROGBITS, 6, 0, 0, 4, 0, 0, 16, 0⟩
    dataBuf := [1, 2, 3, 4], dataSize := 4, name := ".text.foo", index := 1
    status := Status.CHANGED, basePos := none, relas := []
    relaPos := some 1, symPos := some 1, secsymPos := none }

def c1secRela : KSection :=
  { twin := none, sh := ⟨0, SHT_RELA, 0, 0, 0, 24, 0, 0, 8, 24⟩
    dataBuf := [], dataSize := 24, name := ".rela.text.foo", index := 2
    status := Status.CHANGED, basePos := some 0, relas := [c1rela0]
    relaPos := none, symPos := none, secsymPos := none }

def c1fooSym : KSymbol :=
  { twin := none, secIdx := some 0, sym := ⟨1, 0x02, 0, 1, 0, 4⟩
    name := some "foo", index := 1, bind := STB_LOCAL, type := STT_FUNC
    status := Status.CHANGED }

def c1g : KpatchElf :=
  { elfClass := some ELFCLASS64
    sections := [c1secText, c1secRela]
    symbols := [nullSym, c1fooSym] }

def c1m1 : Marks := { secInc := [true, true], symInc := [true, true] }

/-- C1 counterexample.  A changed function whose relocation section
carries an entry targeting symbol 0: the inclusion walk includes the
relocation section (and marks symbol 0 as included), but every copy
pass skips symbol 0, so the entry's target has no output crosslink and
the relocation re-targeting hits its fatal branch; the claim that every
relocation of an included relocation section targets a copied symbol is
false at this input. -/
theorem c1_counterexample :
    kpatch_include_changed_functions c1g 4 (initMarks c1g) =
      some (c1m1, ["changed function: foo"]) ∧
    (c1g.sections[1]?).map (fun s => s.sh.sh_type) = some SHT_RELA ∧
    markGetD (kpatch_mark_metadata c1g c1m1).secInc 1 = true ∧
    (c1g.sections[1]?).map (fun s => s.relas) = some [c1rela0] ∧
    c1rela0.symPos = 0 ∧
    kpatch_mutate_symbols (kpatch_mark_metadata c1g c1m1).secInc c1g.symbols =
      some c1g.symbols ∧
    (copy_all c1g.symbols (kpatch_mark_metadata c1g c1m1).symInc
      (fun _ => none)).2.map Prod.fst = [1] ∧
    crosslinkOf (copy_all c1g.symbols (kpatch_mark_metadata c1g c1m1).symInc
      (fun _ => none)).2 c1rela0.symPos = none ∧
    kpatch_create_rela_data
      (crosslinkOf (copy_all c1g.symbols (kpatch_mark_metadata c1g c1m1).symInc
        (fun _ => none)).2)
      [c1rela0] = none := by
  decide

def c1wrela : Rela :=
  { rela := { r_offset := 0, r_info := 1 * 2 ^ 32 + 1, r_addend := 0 }
    symPos := 1, type := 1, addend := 0, offset := 0, string := none
    twin := none, status := Status.NEW }

def c1wsecRela : KSection :=
  { c1secRela with relas := [c1wrela] }

def c1wg : KpatchElf :=
  { elfClass := some ELFCLASS64
    sections := [c1secText, c1wsecRela]
    symbols := [nullSym, c1fooSym] }

def c1wm1 : Marks := { secInc := [true, true], symInc := [false, true] }

/-- Witness for C1 (amended): with the relocation targeting the changed
function itself (a nonzero symbol), the target is copied. -/
theorem c1_witness :
    ∃ (j : Nat) (d : KSymbol),
      (copy_all c1wg.symbols (kpatch_mark_metadata c1wg c1wm1).symInc
        (fun _ => none)).2[j]? = some (c1wrela.symPos, d) :=
  c1_closure_completeness_amended c1wg 4 c1wm1 ["changed function: foo"]
    c1wg.symbols (fun _ => none) (by decide) (by decide) (by decide)
    1 c1wsecRela (by decide) (by decide) (by decide) c1wrela (by decide) (by decide)

/-! ## Claims C2 and C3: the comparator and status propagation -/

/-- Write one section's status through its element pointer. -/
def statusUpdSec (g : KpatchElf) (p : Nat) (st : Status) : KpatchElf :=
  { g with sections := updAt g.sections p (fun s => { s with status := st }) }

/-- Write one symbol's status through its element pointer. -/
def statusUpdSym (g : KpatchElf) (p : Nat) (st : Status) : KpatchElf :=
  { g with symbols := updAt g.symbols p (fun s => { s with status := st }) }

def readSecStatus (g : KpatchElf) (p : Nat) : Option Status :=
  (g.sections[p]?).map (fun s => s.status)

def readSymStatus (g : KpatchElf) (p : Nat) : Option Status :=
  (g.symbols[p]?).map (fun s => s.status)

/-- A section with its status field normalised; two sections with equal
images agree on every other field. -/
def secNoStatus (s : KSection) : KSection := { s with status := Status.NEW }

def symNoStatus (s : KSymbol) : KSymbol := { s with status := Status.NEW }

/-- The comparator only writes status fields; everything else of both
tables stays as loaded. -/
def shapeEq (g0 g : KpatchElf) : Prop :=
  (∀ x : Nat, (g.sections[x]?).map secNoStatus = (g0.sections[x]?).map secNoStatus) ∧
  (∀ y : Nat, (g.symbols[y]?).map symNoStatus = (g0.symbols[y]?).map symNoStatus)

lemma updAt_get_eq (l : List α) (i : Nat) (f : α → α) :
    (updAt l i f)[i]? = (l[i]?).map f := by
  induction l generalizing i with
  | nil => cases i <;> rfl
  | cons hd tl ih =>
    cases i with
    | zero => simp only [updAt, List.getElem?_cons_zero, Option.map_some']
    | succ n =>
      simp only [updAt, List.getElem?_cons_succ]
      exact ih n

lemma updAt_get_ne (l : List α) {i j : Nat} (f : α → α) (h : i ≠ j) :
    (updAt l i f)[j]? = l[j]? := by
  induction l generalizing i j with
  | nil => cases i <;> rfl
  | cons hd tl ih =>
    cases i with
    | zero =>
      cases j with
      | zero => exact absurd rfl h
      | succ m => simp only [updAt, List.getElem?_cons_succ]
    | succ n =>
      cases j with
      | zero => simp only [updAt, List.getElem?_cons_zero]
      | succ m =>
        simp only [updAt, List.getElem?_cons_succ]
        exact ih (fun hc => h (by rw [hc]))

lemma shapeEq_refl (g : KpatchElf) : shapeEq g g := ⟨fun _ => rfl, fun _ => rfl⟩

lemma shapeEq_updSec {g0 g : KpatchElf} (h : shapeEq g0 g) (p : Nat) (st : Status) :
    shapeEq g0 (statusUpdSec g p st) := by
  refine ⟨fun x => ?_, h.2⟩
  show ((updAt g.sections p (fun s => { s with status := st }))[x]?).map secNoStatus =
    (g0.sections[x]?).map secNoStatus
  by_cases hx : p = x
  · subst hx
    rw [updAt_get_eq, ← h.1 p]
    cases g.sections[p]? <;> rfl
  · rw [updAt_get_ne _ _ hx]
    exact h.1 x

lemma shapeEq_updSym {g0 g : KpatchElf} (h : shapeEq g0 g) (p : Nat) (st : Status) :
    shapeEq g0 (statusUpdSym g p st) := by
  refine ⟨h.1, fun y => ?_⟩
  show ((updAt g.symbols p (fun s => { s with status := st }))[y]?).map symNoStatus =
    (g0.symbols[y]?).map symNoStatus
  by_cases hy : p = y
  · subst hy
    rw [updAt_get_eq, ← h.2 p]
    cases g.symbols[p]? <;> rfl
  · rw [updAt_get_ne _ _ hy]
    exact h.2 y

lemma readSecStatus_updSec_eq {g : KpatchElf} {p : Nat} {sec : KSection}
    (h : g.sections[p]? = some sec) (st : Status) :
    readSecStatus (statusUpdSec g p st) p = some st := by
  unfold readSecStatus statusUpdSec
  show ((updAt g.sections p _)[p]?).map _ = _
  rw [updAt_get_eq, h]
  rfl

lemma readSecStatus_updSec_ne (g : KpatchElf) {p x : Nat} (h : p ≠ x) (st : Status) :
    readSecStatus (statusUpdSec g p st) x = readSecStatus g x := by
  unfold readSecStatus statusUpdSec
  show ((updAt g.sections p _)[x]?).map _ = _
  rw [updAt_get_ne _ _ h]

lemma readSecStatus_updSym (g : KpatchElf) (p x : Nat) (st : Status) :
    readSecStatus (statusUpdSym g p st) x = readSecStatus g x := rfl

lemma readSymStatus_updSec (g : KpatchElf) (p y : Nat) (st : Status) :
    readSymStatus (statusUpdSec g p st) y = readSymStatus g y := rfl

lemma readSymStatus_updSym_eq {g : KpatchElf} {p : Nat} {sym : KSymbol}
    (h : g.symbols[p]? = some sym) (st : Status) :
    readSymStatus (statusUpdSym g p st) p = some st := by
  unfold readSymStatus statusUpdSym
  show ((updAt g.symbols p _)[p]?).map _ = _
  rw [updAt_get_eq, h]
  rfl

lemma readSymStatus_updSym_ne (g : KpatchElf) {p y : Nat} (h : p ≠ y) (st : Status) :
    readSymStatus (statusUpdSym g p st) y = readSymStatus g y := by
  unfold readSymStatus statusUpdSym
  show ((updAt g.symbols p _)[y]?).map _ = _
  rw [updAt_get_ne _ _ h]

lemma secNoStatus_fields {a b : KSection} (h : secNoStatus a = secNoStatus b) :
    a.sh = b.sh ∧ a.relas = b.relas ∧ a.basePos = b.basePos ∧
      a.symPos = b.symPos ∧ a.secsymPos = b.secsymPos ∧ a.relaPos = b.relaPos ∧
      a.twin = b.twin ∧ a.dataBuf = b.dataBuf ∧ a.dataSize = b.dataSize ∧
      a.name = b.name := by
  cases a
  cases b
  simp only [secNoStatus] at h
  injection h with h1 h2 h3 h4 h5 h6 h7 h8 h9 h10 h11 h12
  exact ⟨h2, h9, h8, h11, h12, h10, h1, h3, h4, h5⟩

lemma shapeEq_section_fields {g0 g : KpatchElf} (h : shapeEq g0 g) {p : Nat}
    {sec : KSection} (hget : g0.sections[p]? = some sec) :
    ∃ sec1, g.sections[p]? = some sec1 ∧ sec1.sh = sec.sh ∧
      sec1.relas = sec.relas ∧ sec1.basePos = sec.basePos ∧
      sec1.symPos = sec.symPos ∧ sec1.secsymPos = sec.secsymPos ∧
      sec1.relaPos = sec.relaPos ∧ sec1.twin = sec.twin ∧
      sec1.dataBuf = sec.dataBuf ∧ sec1.dataSize = sec.dataSize ∧
      sec1.name = sec.name := by
  have h1 := h.1 p
  rw [hget] at h1
  cases hg : g.sections[p]? with
  | none => rw [hg] at h1; cases h1
  | some sec1 =>
    rw [hg] at h1
    simp only [Option.map_some'] at h1
    exact ⟨sec1, rfl, secNoStatus_fields (Option.some.inj h1)⟩

lemma shapeEq_sections_none {g0 g : KpatchElf} (h : shapeEq g0 g) {p : Nat}
    (hget : g0.sections[p]? = none) : g.sections[p]? = none := by
  have h1 := h.1 p
  rw [hget] at h1
  cases hg : g.sections[p]? with
  | none => rfl
  | some s => rw [hg] at h1; cases h1

lemma foldl_inv {G α : Type _} (step : G → α → G) (Inv : G → Prop)
    (h : ∀ g a, Inv g → Inv (step g a)) :
    ∀ (l : List α) (g : G), Inv g → Inv (l.foldl step g) := by
  intro l
  induction l with
  | nil => intro g hg; exact hg
  | cons hd tl ih =>
    intro g hg
    rw [List.foldl_cons]
    exact ih (step g hd) (h g hd hg)

lemma foldl_cell {G α : Type _} (step : G → α → G) (Inv : G → Prop)
    (read : G → Option Status)
    (hInv : ∀ g a, Inv g → Inv (step g a)) :
    ∀ (l : List α) (g : G), Inv g →
      (∀ a ∈ l, ∀ g', Inv g' → read (step g' a) = read g') →
      read (l.foldl step g) = read g := by
  intro l
  induction l with
  | nil => intro g _ _; rfl
  | cons hd tl ih =>
    intro g hg hcell
    rw [List.foldl_cons]
    rw [ih (step g hd) (hInv g hd hg)
      (fun a ha g' hg' => hcell a (List.mem_cons_of_mem _ ha) g' hg')]
    exact hcell hd (List.mem_cons_self _ _) g hg

/-- Conditional symbol-status write behind an optional pointer
(`if (x) x->status = st`). -/
def optUpdSym (g : KpatchElf) (o : Option Nat) (st : Status) : KpatchElf :=
  match o with
  | some y => statusUpdSym g y st
  | none => g

/-- Conditional section-status write behind an optional pointer. -/
def optUpdSec (g : KpatchElf) (o : Option Nat) (st : Status) : KpatchElf :=
  match o with
  | some x => statusUpdSec g x st
  | none => g

/-- The four CHANGED writes of kpatch_set_rela_section_status: the
relocation section itself, its base section, and the base's entity and
section symbols when present. -/
def c2writes (g : KpatchElf) (p b : Nat) (bs : KSection) : KpatchElf :=
  optUpdSym
    (optUpdSym (statusUpdSec (statusUpdSec g p Status.CHANGED) b Status.CHANGED)
      bs.symPos Status.CHANGED)
    bs.secsymPos Status.CHANGED

/-- kpatch_set_rela_section_status: if any entry of the relocation
section is NEW, set the section, its base section and the base's
entity/section symbols to CHANGED; otherwise set the section to SAME.
none models the NULL-pointer dereference of a missing base (never
reached for loaded graphs). -/
def kpatch_set_rela_section_status (g : KpatchElf) (p : Nat) : Option KpatchElf :=
  match g.sections[p]? with
  | none => some g
  | some sec =>
    if sec.relas.any (fun r => r.status == Status.NEW) then
      match sec.basePos with
      | none => none
      | some b =>
        match g.sections[b]? with
        | none => none
        | some bs => some (c2writes g p b bs)
    else some (statusUpdSec g p Status.SAME)

/-- One iteration of the third loop of kpatch_compare_correlated_elements:
relocation sections still classified SAME get their status recomputed
from the pairing of their entries. -/
def c2step (g : KpatchElf) (p : Nat) : Option KpatchElf :=
  match g.sections[p]? with
  | none => some g
  | some sec =>
    if sec.sh.sh_type = SHT_RELA ∧ sec.status = Status.SAME then
      kpatch_set_rela_section_status g p
    else some g

def c2go : List Nat → KpatchElf → Option KpatchElf
  | [], g => some g
  | p :: ps, g =>
    match c2step g p with
    | none => none
    | some g2 => c2go ps g2

/-- The third phase of kpatch_compare_correlated_elements: the loop over
all sections applying kpatch_set_rela_section_status to SAME relocation
sections. -/
def compareRelaPhase (g : KpatchElf) : Option KpatchElf :=
  c2go (List.range g.sections.length) g

/-- kpatch_compare_correlated_nonrela_section.  none is the fatal header
mismatch; note the faithful self-comparison of sh_link (the C compares
sec1 against sec1), so a link difference never trips the fatal branch.
The byte compare is over the first d_size bytes of each buffer. -/
def kpatch_compare_correlated_nonrela_section (sec1 sec2 : KSection) : Option Status :=
  if sec1.sh.sh_type ≠ sec2.sh.sh_type ∨ sec1.sh.sh_flags ≠ sec2.sh.sh_flags ∨
     sec1.sh.sh_addr ≠ sec2.sh.sh_addr ∨ sec1.sh.sh_addralign ≠ sec2.sh.sh_addralign ∨
     sec1.sh.sh_entsize ≠ sec2.sh.sh_entsize ∨ sec1.sh.sh_link ≠ sec1.sh.sh_link
  then none
  else some (if sec1.sh.sh_size ≠ sec2.sh.sh_size ∨ sec1.dataSize ≠ sec2.dataSize ∨
      (sec1.sh.sh_type ≠ SHT_NOBITS ∧
       sec1.dataBuf.take sec1.dataSize ≠ sec2.dataBuf.take sec1.dataSize)
    then Status.CHANGED else Status.SAME)

/-- The status a non-relocation section receives: NEW without a twin,
otherwise the comparison against the twin in the base graph (none for a
fatal header mismatch or a dangling twin). -/
def classifyNonrela (base : KpatchElf) (sec : KSection) : Option Status :=
  match sec.twin with
  | none => some Status.NEW
  | some t =>
    match base.sections[t]? with
    | none => none
    | some tw => kpatch_compare_correlated_nonrela_section sec tw

/-- The status writes of one kpatch_compare_correlated_nonrela_sections
iteration: the section itself, then its entity symbol, section symbol
and attached relocation section when each exists, in that order. -/
def c3writes (g : KpatchElf) (p : Nat) (sec : KSection) (st : Status) : KpatchElf :=
  optUpdSec
    (optUpdSym (optUpdSym (statusUpdSec g p st) sec.symPos st) sec.secsymPos st)
    sec.relaPos st

/-- One iteration of kpatch_compare_correlated_nonrela_sections: classify
a non-relocation section and copy the status to its entity symbol,
section symbol and attached relocation section, in that order. -/
def c3step (base : KpatchElf) (g : KpatchElf) (p : Nat) : Option KpatchElf :=
  match g.sections[p]? with
  | none => some g
  | some sec =>
    if sec.sh.sh_type = SHT_RELA then some g
    else
      match classifyNonrela base sec with
      | none => none
      | some st => some (c3writes g p sec st)

def c3go (base : KpatchElf) : List Nat → KpatchElf → Option KpatchElf
  | [], g => some g
  | p :: ps, g =>
    match c3step base g p with
    | none => none
    | some g2 => c3go base ps g2

/-- kpatch_compare_correlated_nonrela_sections: the loop over all
sections of the patched graph, skipping relocation sections. -/
def kpatch_compare_correlated_nonrela_sections (base g : KpatchElf) : Option KpatchElf :=
  c3go base (List.range g.sections.length) g

lemma shapeEq_symm {g0 g : KpatchElf} (h : shapeEq g0 g) : shapeEq g g0 :=
  ⟨fun x => (h.1 x).symm, fun y => (h.2 y).symm⟩

lemma shapeEq_optUpdSym {g0 g : KpatchElf} (h : shapeEq g0 g) (o : Option Nat)
    (st : Status) : shapeEq g0 (optUpdSym g o st) := by
  cases o with
  | none => exact h
  | some y => exact shapeEq_updSym h y st

lemma shapeEq_optUpdSec {g0 g : KpatchElf} (h : shapeEq g0 g) (o : Option Nat)
    (st : Status) : shapeEq g0 (optUpdSec g o st) := by
  cases o with
  | none => exact h
  | some x => exact shapeEq_updSec h x st

lemma readSecStatus_optUpdSym (g : KpatchElf) (o : Option Nat) (st : Status)
    (x : Nat) : readSecStatus (optUpdSym g o st) x = readSecStatus g x := by
  cases o <;> rfl

lemma readSymStatus_optUpdSec (g : KpatchElf) (o : Option Nat) (st : Status)
    (y : Nat) : readSymStatus (optUpdSec g o st) y = readSymStatus g y := by
  cases o <;> rfl

lemma readSymStatus_optUpdSym_ne (g : KpatchElf) {o : Option Nat} {y : Nat}
    (h : o ≠ some y) (st : Status) :
    readSymStatus (optUpdSym g o st) y = readSymStatus g y := by
  cases ho : o with
  | none => rfl
  | some y1 =>
    exact readSymStatus_updSym_ne g (fun hc => h (by rw [ho, hc])) st

lemma readSecStatus_optUpdSec_ne (g : KpatchElf) {o : Option Nat} {x : Nat}
    (h : o ≠ some x) (st : Status) :
    readSecStatus (optUpdSec g o st) x = readSecStatus g x := by
  cases ho : o with
  | none => rfl
  | some x1 =>
    exact readSecStatus_updSec_ne g (fun hc => h (by rw [ho, hc])) st

lemma readSymStatus_optUpdSym_eq {g : KpatchElf} {o : Option Nat} {y : Nat}
    (h : o = some y) (hv : (g.symbols[y]?).isSome) (st : Status) :
    readSymStatus (optUpdSym g o st) y = some st := by
  subst h
  obtain ⟨s, hs⟩ := Option.isSome_iff_exists.mp hv
  exact readSymStatus_updSym_eq hs st

lemma readSecStatus_optUpdSec_eq {g : KpatchElf} {o : Option Nat} {x : Nat}
    (h : o = some x) (hv : (g.sections[x]?).isSome) (st : Status) :
    readSecStatus (optUpdSec g o st) x = some st := by
  subst h
  obtain ⟨s, hs⟩ := Option.isSome_iff_exists.mp hv
  exact readSecStatus_updSec_eq hs st

lemma optUpdSym_sections (g : KpatchElf) (o : Option Nat) (st : Status) :
    (optUpdSym g o st).sections = g.sections := by
  cases o <;> rfl

lemma statusUpdSym_symbols_isSome (g : KpatchElf) (p y : Nat) (st : Status)
    (h : (g.symbols[y]?).isSome) :
    ((statusUpdSym g p st).symbols[y]?).isSome := by
  show ((updAt g.symbols p _)[y]?).isSome
  by_cases hp : p = y
  · subst hp
    rw [updAt_get_eq, Option.isSome_map']
    exact h
  · rw [updAt_get_ne _ _ hp]
    exact h

lemma optUpdSym_symbols_isSome (g : KpatchElf) (o : Option Nat) (st : Status)
    {y : Nat} (h : (g.symbols[y]?).isSome) :
    ((optUpdSym g o st).symbols[y]?).isSome := by
  cases o with
  | none => exact h
  | some p => exact statusUpdSym_symbols_isSome g p y st h

lemma statusUpdSec_sections_isSome (g : KpatchElf) (p x : Nat) (st : Status)
    (h : (g.sections[x]?).isSome) :
    ((statusUpdSec g p st).sections[x]?).isSome := by
  show ((updAt g.sections p _)[x]?).isSome
  by_cases hp : p = x
  · subst hp
    rw [updAt_get_eq, Option.isSome_map']
    exact h
  · rw [updAt_get_ne _ _ hp]
    exact h

lemma c2writes_shape {g0 g : KpatchElf} (h : shapeEq g0 g) (p b : Nat)
    (bs : KSection) : shapeEq g0 (c2writes g p b bs) :=
  shapeEq_optUpdSym
    (shapeEq_optUpdSym
      (shapeEq_updSec (shapeEq_updSec h p Status.CHANGED) b Status.CHANGED)
      bs.symPos Status.CHANGED)
    bs.secsymPos Status.CHANGED

lemma c2writes_sec_frame (g : KpatchElf) {p b x : Nat} (bs : KSection)
    (hxp : p ≠ x) (hxb : b ≠ x) :
    readSecStatus (c2writes g p b bs) x = readSecStatus g x := by
  unfold c2writes
  rw [readSecStatus_optUpdSym, readSecStatus_optUpdSym,
    readSecStatus_updSec_ne _ hxb, readSecStatus_updSec_ne _ hxp]

lemma c2writes_sym_frame (g : KpatchElf) (p b : Nat) {bs : KSection} {y : Nat}
    (hsy : bs.symPos ≠ some y) (hss : bs.secsymPos ≠ some y) :
    readSymStatus (c2writes g p b bs) y = readSymStatus g y := by
  unfold c2writes
  rw [readSymStatus_optUpdSym_ne _ hss, readSymStatus_optUpdSym_ne _ hsy]
  rfl

lemma c2writes_sec_val_p {g : KpatchElf} {p b : Nat} {sp' : KSection}
    (bs : KSection) (hpb : p ≠ b) (hgp : g.sections[p]? = some sp') :
    readSecStatus (c2writes g p b bs) p = some Status.CHANGED := by
  unfold c2writes
  rw [readSecStatus_optUpdSym, readSecStatus_optUpdSym,
    readSecStatus_updSec_ne _ (fun hc => hpb hc.symm),
    readSecStatus_updSec_eq hgp]

lemma c2writes_sec_val_b {g : KpatchElf} {p b : Nat} {sb' : KSection}
    (bs : KSection) (hpb : p ≠ b) (hgb : g.sections[b]? = some sb') :
    readSecStatus (c2writes g p b bs) b = some Status.CHANGED := by
  unfold c2writes
  rw [readSecStatus_optUpdSym, readSecStatus_optUpdSym]
  have hgb' : (statusUpdSec g p Status.CHANGED).sections[b]? = some sb' := by
    show (updAt g.sections p _)[b]? = some sb'
    rw [updAt_get_ne _ _ hpb]
    exact hgb
  exact readSecStatus_updSec_eq hgb' Status.CHANGED

lemma c2writes_sym_val {g : KpatchElf} (p b : Nat) {bs : KSection} {y : Nat}
    (hy : bs.symPos = some y ∨ bs.secsymPos = some y)
    (hv : (g.symbols[y]?).isSome) :
    readSymStatus (c2writes g p b bs) y = some Status.CHANGED := by
  unfold c2writes
  have hv2 : (((statusUpdSec (statusUpdSec g p Status.CHANGED) b
      Status.CHANGED)).symbols[y]?).isSome := hv
  by_cases hss : bs.secsymPos = some y
  · exact readSymStatus_optUpdSym_eq hss
      (optUpdSym_symbols_isSome _ bs.symPos Status.CHANGED hv2) Status.CHANGED
  · rcases hy with hsy | hsy
    · rw [readSymStatus_optUpdSym_ne _ hss]
      exact readSymStatus_optUpdSym_eq hsy hv2 Status.CHANGED
    · exact absurd hsy hss

/-- The section-status cells that iteration q of the rela-status loop
may write: its own cell and the base of a relocation section. -/
def c2SecWrites (g0 : KpatchElf) (q x : Nat) : Prop :=
  ∃ sq, g0.sections[q]? = some sq ∧ sq.sh.sh_type = SHT_RELA ∧
    (x = q ∨ sq.basePos = some x)

/-- The symbol-status cells that iteration q of the rela-status loop may
write: the entity and section symbols of a relocation section's base. -/
def c2SymWrites (g0 : KpatchElf) (q y : Nat) : Prop :=
  ∃ sq b bs, g0.sections[q]? = some sq ∧ sq.sh.sh_type = SHT_RELA ∧
    sq.basePos = some b ∧ g0.sections[b]? = some bs ∧
    (bs.symPos = some y ∨ bs.secsymPos = some y)

lemma shapeEq_symbols_isSome {g0 g : KpatchElf} (h : shapeEq g0 g) {y : Nat}
    (hv : (g0.symbols[y]?).isSome) : (g.symbols[y]?).isSome := by
  have h2 := h.2 y
  cases hg : g.symbols[y]? with
  | none =>
    rw [hg] at h2
    obtain ⟨s, hs⟩ := Option.isSome_iff_exists.mp hv
    rw [hs] at h2
    cases h2
  | some s => rfl

/-- One iteration of the rela-status loop succeeds, preserves all fields
but statuses, and changes only its own write cells. -/
lemma c2step_spec (g0 : KpatchElf)
    (Hbase : ∀ (q : Nat) (sq : KSection), g0.sections[q]? = some sq →
      sq.sh.sh_type = SHT_RELA →
      ∃ (b : Nat) (bs : KSection), sq.basePos = some b ∧
        g0.sections[b]? = some bs ∧ bs.sh.sh_type ≠ SHT_RELA)
    (g : KpatchElf) (q : Nat) (hshape : shapeEq g0 g) :
    ∃ g2, c2step g q = some g2 ∧ shapeEq g0 g2 ∧
      (∀ x, ¬ c2SecWrites g0 q x → readSecStatus g2 x = readSecStatus g x) ∧
      (∀ y, ¬ c2SymWrites g0 q y → readSymStatus g2 y = readSymStatus g y) := by
  cases hq : g.sections[q]? with
  | none =>
    refine ⟨g, ?_, hshape, fun x _ => rfl, fun y _ => rfl⟩
    simp only [c2step, hq]
  | some sq1 =>
    by_cases hcond : sq1.sh.sh_type = SHT_RELA ∧ sq1.status = Status.SAME
    · obtain ⟨sq0, hq0, hsh0, hrelas0, hbase0, _, _, _, _, _, _, _⟩ :=
        shapeEq_section_fields (shapeEq_symm hshape) hq
      have hreq : sq0.sh.sh_type = SHT_RELA := by rw [hsh0]; exact hcond.1
      obtain ⟨b, bs0, hb0, hbs0, hbsnr⟩ := Hbase q sq0 hq0 hreq
      obtain ⟨bs1, hbs1, _, _, _, hbsym1, hbssym1, _, _, _, _, _⟩ :=
        shapeEq_section_fields hshape hbs0
      by_cases hnew : sq1.relas.any (fun r => r.status == Status.NEW) = true
      · refine ⟨c2writes g q b bs1, ?_, c2writes_shape hshape q b bs1, ?_, ?_⟩
        · have hb1 : sq1.basePos = some b := by rw [← hbase0]; exact hb0
          simp only [c2step, hq]
          rw [if_pos hcond]
          simp only [kpatch_set_rela_section_status, hq]
          rw [if_pos hnew]
          simp only [hb1, hbs1]
        · intro x hx
          have hxq : x ≠ q := fun hc => hx ⟨sq0, hq0, hreq, Or.inl hc⟩
          have hbx : b ≠ x := fun hc => hx ⟨sq0, hq0, hreq, Or.inr (hc ▸ hb0)⟩
          exact c2writes_sec_frame g bs1 (fun hc => hxq hc.symm) hbx
        · intro y hy
          have hsy : bs1.symPos ≠ some y := by
            rw [hbsym1]
            exact fun hc => hy ⟨sq0, b, bs0, hq0, hreq, hb0, hbs0, Or.inl hc⟩
          have hss : bs1.secsymPos ≠ some y := by
            rw [hbssym1]
            exact fun hc => hy ⟨sq0, b, bs0, hq0, hreq, hb0, hbs0, Or.inr hc⟩
          exact c2writes_sym_frame g q b hsy hss
      · refine ⟨statusUpdSec g q Status.SAME, ?_,
          shapeEq_updSec hshape q Status.SAME, ?_, fun y _ => rfl⟩
        · simp only [c2step, hq]
          rw [if_pos hcond]
          simp only [kpatch_set_rela_section_status, hq]
          rw [if_neg hnew]
        · intro x hx
          have hxq : x ≠ q := fun hc => hx ⟨sq0, hq0, hreq, Or.inl hc⟩
          exact readSecStatus_updSec_ne g (fun hc => hxq hc.symm) _
    · refine ⟨g, ?_, hshape, fun x _ => rfl, fun y _ => rfl⟩
      simp only [c2step, hq]
      rw [if_neg hcond]

lemma c2go_frame (g0 : KpatchElf)
    (Hbase : ∀ (q : Nat) (sq : KSection), g0.sections[q]? = some sq →
      sq.sh.sh_type = SHT_RELA →
      ∃ (b : Nat) (bs : KSection), sq.basePos = some b ∧
        g0.sections[b]? = some bs ∧ bs.sh.sh_type ≠ SHT_RELA) :
    ∀ (ps : List Nat) (g : KpatchElf), shapeEq g0 g →
      ∃ g', c2go ps g = some g' ∧ shapeEq g0 g' ∧
        (∀ x, (∀ q ∈ ps, ¬ c2SecWrites g0 q x) →
          readSecStatus g' x = readSecStatus g x) ∧
        (∀ y, (∀ q ∈ ps, ¬ c2SymWrites g0 q y) →
          readSymStatus g' y = readSymStatus g y) := by
  intro ps
  induction ps with
  | nil =>
    intro g hg
    exact ⟨g, rfl, hg, fun x _ => rfl, fun y _ => rfl⟩
  | cons q ps ih =>
    intro g hg
    obtain ⟨g2, hstep, hg2, hsec2, hsym2⟩ := c2step_spec g0 Hbase g q hg
    obtain ⟨g', hgo, hg', hsec', hsym'⟩ := ih g2 hg2
    refine ⟨g', ?_, hg', ?_, ?_⟩
    · simp only [c2go, hstep]
      exact hgo
    · intro x hx
      rw [hsec' x (fun q' hq' => hx q' (List.mem_cons_of_mem _ hq')),
        hsec2 x (hx q (List.mem_cons_self _ _))]
    · intro y hy
      rw [hsym' y (fun q' hq' => hy q' (List.mem_cons_of_mem _ hq')),
        hsym2 y (hy q (List.mem_cons_self _ _))]

lemma c2go_append (l1 l2 : List Nat) (g : KpatchElf) :
    c2go (l1 ++ l2) g = match c2go l1 g with
      | none => none
      | some g2 => c2go l2 g2 := by
  induction l1 generalizing g with
  | nil => rfl
  | cons q l1 ih =>
    simp only [List.cons_append, c2go]
    cases c2step g q with
    | none => rfl
    | some g2 => exact ih g2

/-- Splitting the iteration range of a section loop at one position. -/
lemma range_pivot {p n : Nat} (h : p < n) :
    ∃ l2, List.range n = List.range p ++ p :: l2 ∧ ∀ q ∈ l2, p < q := by
  induction n with
  | zero => omega
  | succ n ih =>
    by_cases hp : p = n
    · subst hp
      refine ⟨[], ?_, by intro q hq; cases hq⟩
      rw [List.range_succ]
    · obtain ⟨l2, hsplit, hmem⟩ := ih (by omega)
      refine ⟨l2 ++ [n], ?_, ?_⟩
      · rw [List.range_succ, hsplit, List.append_assoc, List.cons_append]
      · intro q hq
        rcases List.mem_append.mp hq with hq | hq
        · exact hmem q hq
        · have : q = n := List.mem_singleton.mp hq
          omega

/-- The iteration of the rela-status loop at a SAME relocation section
itself: the CHANGED (any entry NEW) and SAME (all paired) outcomes. -/
lemma c2step_action {g0 g : KpatchElf} {p b : Nat} {sec bs : KSection}
    (hshape : shapeEq g0 g)
    (hget : g0.sections[p]? = some sec)
    (hrela : sec.sh.sh_type = SHT_RELA)
    (hstat : readSecStatus g p = some Status.SAME)
    (hbase : sec.basePos = some b)
    (hbget : g0.sections[b]? = some bs)
    (hbnr : bs.sh.sh_type ≠ SHT_RELA)
    (hv : ∀ y : Nat, (bs.symPos = some y ∨ bs.secsymPos = some y) →
      (g0.symbols[y]?).isSome) :
    ∃ g2, c2step g p = some g2 ∧ shapeEq g0 g2 ∧
      (sec.relas.any (fun r => r.status == Status.NEW) = true →
        readSecStatus g2 p = some Status.CHANGED ∧
        readSecStatus g2 b = some Status.CHANGED ∧
        (∀ y : Nat, (bs.symPos = some y ∨ bs.secsymPos = some y) →
          readSymStatus g2 y = some Status.CHANGED)) ∧
      (sec.relas.any (fun r => r.status == Status.NEW) = false →
        readSecStatus g2 p = some Status.SAME) := by
  obtain ⟨sec1, hget1, hsh1, hrelas1, hbase1, _, _, _, _, _, _, _⟩ :=
    shapeEq_section_fields hshape hget
  obtain ⟨bs1, hbget1, _, _, _, hbsym1, hbssym1, _, _, _, _, _⟩ :=
    shapeEq_section_fields hshape hbget
  have hpb : p ≠ b := by
    intro hc
    rw [hc, hbget] at hget
    exact hbnr (Option.some.inj hget ▸ hrela)
  have hstat1 : sec1.status = Status.SAME := by
    unfold readSecStatus at hstat
    rw [hget1] at hstat
    exact Option.some.inj hstat
  have hcond : sec1.sh.sh_type = SHT_RELA ∧ sec1.status = Status.SAME :=
    ⟨by rw [hsh1]; exact hrela, hstat1⟩
  have hb1 : sec1.basePos = some b := by rw [hbase1]; exact hbase
  by_cases hnew : sec.relas.any (fun r => r.status == Status.NEW) = true
  · have hnew1 : sec1.relas.any (fun r => r.status == Status.NEW) = true := by
      rw [hrelas1]; exact hnew
    refine ⟨c2writes g p b bs1, ?_, c2writes_shape hshape p b bs1,
      fun _ => ⟨?_, ?_, ?_⟩, fun hc => absurd hnew (by rw [hc]; exact Bool.false_ne_true)⟩
    · simp only [c2step, hget1]
      rw [if_pos hcond]
      simp only [kpatch_set_rela_section_status, hget1]
      rw [if_pos hnew1]
      simp only [hb1, hbget1]
    · exact c2writes_sec_val_p bs1 hpb hget1
    · exact c2writes_sec_val_b bs1 hpb hbget1
    · intro y hy
      have hy1 : bs1.symPos = some y ∨ bs1.secsymPos = some y := by
        rw [hbsym1, hbssym1]; exact hy
      exact c2writes_sym_val p b hy1 (shapeEq_symbols_isSome hshape (hv y hy))
  · have hnewf : sec.relas.any (fun r => r.status == Status.NEW) = false :=
      Bool.eq_false_iff.mpr hnew
    have hnew1 : ¬ sec1.relas.any (fun r => r.status == Status.NEW) = true := by
      rw [hrelas1]; exact hnew
    refine ⟨statusUpdSec g p Status.SAME, ?_,
      shapeEq_updSec hshape p Status.SAME,
      fun hc => absurd hc hnew, fun _ => ?_⟩
    · simp only [c2step, hget1]
      rw [if_pos hcond]
      simp only [kpatch_set_rela_section_status, hget1]
      rw [if_neg hnew1]
    · exact readSecStatus_updSec_eq hget1 Status.SAME

/-- Decidable well-formedness of the correlated graph around one SAME
relocation section at p with base b, for concrete witnesses: the base
exists and its symbol pointers are in range; every relocation section
has an existing non-relocation base; no other relocation section shares
the base b or the status cells of its symbols. -/
def c2wfb (g : KpatchElf) (p b : Nat) : Bool :=
  match g.sections[b]? with
  | none => false
  | some bs =>
    (match bs.symPos with
     | some y => decide (y < g.symbols.length)
     | none => true) &&
    ((match bs.secsymPos with
      | some y => decide (y < g.symbols.length)
      | none => true) &&
     g.sections.enum.all (fun qs =>
       !(qs.2.sh.sh_type == SHT_RELA) ||
       (match qs.2.basePos with
        | none => false
        | some b2 =>
          match g.sections[b2]? with
          | none => false
          | some bs2 =>
            !(bs2.sh.sh_type == SHT_RELA) &&
            (qs.1 == p ||
             (!(b2 == b) &&
              ((match bs.symPos with
                | some y => !(bs2.symPos == some y) && !(bs2.secsymPos == some y)
                | none => true) &&
               (match bs.secsymPos with
                | some y => !(bs2.symPos == some y) && !(bs2.secsymPos == some y)
                | none => true)))))))

lemma c2wfb_implies {g : KpatchElf} {p b : Nat} {bs : KSection}
    (hbget : g.sections[b]? = some bs) (h : c2wfb g p b = true) :
    (∀ y : Nat, (bs.symPos = some y ∨ bs.secsymPos = some y) →
      y < g.symbols.length) ∧
    (∀ (q : Nat) (sq : KSection), g.sections[q]? = some sq →
      sq.sh.sh_type = SHT_RELA →
      ∃ (b2 : Nat) (bs2 : KSection), sq.basePos = some b2 ∧
        g.sections[b2]? = some bs2 ∧ bs2.sh.sh_type ≠ SHT_RELA ∧
        (q ≠ p →
          b2 ≠ b ∧
          (∀ y : Nat, (bs.symPos = some y ∨ bs.secsymPos = some y) →
            bs2.symPos ≠ some y ∧ bs2.secsymPos ≠ some y))) := by
  unfold c2wfb at h
  rw [hbget] at h
  rw [Bool.and_eq_true, Bool.and_eq_true] at h
  obtain ⟨hv1, hv2, hall⟩ := h
  rw [List.all_eq_true] at hall
  constructor
  · intro y hy
    rcases hy with hy | hy
    · rw [hy] at hv1
      exact of_decide_eq_true hv1
    · rw [hy] at hv2
      exact of_decide_eq_true hv2
  · intro q sq hq hr
    have hmem : (q, sq) ∈ g.sections.enum :=
      List.mk_mem_enum_iff_getElem?.mpr hq
    have hqs := hall (q, sq) hmem
    rw [Bool.or_eq_true] at hqs
    rcases hqs with hqs | hqs
    · rw [Bool.not_eq_true'] at hqs
      exact absurd hr (by simpa using hqs)
    · cases hbp : sq.basePos with
      | none => exact absurd (by simp only [hbp] at hqs; exact hqs) Bool.false_ne_true
      | some b2 =>
        simp only [hbp] at hqs
        split at hqs
        · cases hqs
        next bs2 hbs2 =>
          rw [Bool.and_eq_true] at hqs
          obtain ⟨hnr2, hrest⟩ := hqs
          rw [Bool.not_eq_true'] at hnr2
          refine ⟨b2, bs2, rfl, hbs2, by simpa using hnr2, ?_⟩
          intro hqp
          rw [Bool.or_eq_true] at hrest
          rcases hrest with hrest | hrest
          · exact absurd (by simpa using hrest) hqp
          · rw [Bool.and_eq_true, Bool.and_eq_true] at hrest
            obtain ⟨hb2b, hsy, hss⟩ := hrest
            rw [Bool.not_eq_true'] at hb2b
            refine ⟨by simpa using hb2b, ?_⟩
            intro y hy
            rcases hy with hy | hy
            · rw [hy, Bool.and_eq_true] at hsy
              obtain ⟨hs1, hs2⟩ := hsy
              rw [Bool.not_eq_true'] at hs1 hs2
              exact ⟨by simpa using hs1, by simpa using hs2⟩
            · rw [hy, Bool.and_eq_true] at hss
              obtain ⟨hs1, hs2⟩ := hss
              rw [Bool.not_eq_true'] at hs1 hs2
              exact ⟨by simpa using hs1, by simpa using hs2⟩

/-- C2 (renumber-only refinement).  After the third phase of
kpatch_compare_correlated_elements, a relocation section that entered
the phase with status SAME is CHANGED together with its base section and
the base's entity and section symbols exactly when one of its entries is
unpaired (NEW); with every entry paired it stays SAME, independently of
any byte-level difference of the relocation data. -/
theorem c2_renumber_only_refinement
    (g : KpatchElf) (p b : Nat) (sec bs : KSection)
    (hget : g.sections[p]? = some sec)
    (hrela : sec.sh.sh_type = SHT_RELA)
    (hsame : sec.status = Status.SAME)
    (hbase : sec.basePos = some b)
    (hbget : g.sections[b]? = some bs)
    (hwf : c2wfb g p b = true) :
    ∃ g', compareRelaPhase g = some g' ∧
      (sec.relas.any (fun r => r.status == Status.NEW) = true →
        readSecStatus g' p = some Status.CHANGED ∧
        readSecStatus g' b = some Status.CHANGED ∧
        (∀ y : Nat, bs.symPos = some y →
          readSymStatus g' y = some Status.CHANGED) ∧
        (∀ y : Nat, bs.secsymPos = some y →
          readSymStatus g' y = some Status.CHANGED)) ∧
      (sec.relas.any (fun r => r.status == Status.NEW) = false →
        readSecStatus g' p = some Status.SAME) := by
  obtain ⟨hval, hstruct⟩ := c2wfb_implies hbget hwf
  have Hbase : ∀ (q : Nat) (sq : KSection), g.sections[q]? = some sq →
      sq.sh.sh_type = SHT_RELA →
      ∃ (b2 : Nat) (bs2 : KSection), sq.basePos = some b2 ∧
        g.sections[b2]? = some bs2 ∧ bs2.sh.sh_type ≠ SHT_RELA := by
    intro q sq hq hr
    obtain ⟨b2, bs2, h1, h2, h3, _⟩ := hstruct q sq hq hr
    exact ⟨b2, bs2, h1, h2, h3⟩
  have hbnr : bs.sh.sh_type ≠ SHT_RELA := by
    obtain ⟨b2, bs2, h1, h2, h3, _⟩ := hstruct p sec hget hrela
    have hb2 : b = b2 := Option.some.inj (hbase.symm.trans h1)
    subst hb2
    rw [hbget] at h2
    exact (Option.some.inj h2) ▸ h3
  have hnoWp : ∀ q : Nat, q ≠ p → ¬ c2SecWrites g q p := by
    rintro q hqp ⟨sq, hq, hrq, hx⟩
    rcases hx with hx | hx
    · exact hqp hx.symm
    · obtain ⟨b2, bs2, h1, h2, h3⟩ := Hbase q sq hq hrq
      have hb2 : b2 = p := Option.some.inj (h1.symm.trans hx)
      subst hb2
      rw [hget] at h2
      exact h3 (Option.some.inj h2 ▸ hrela)
  have hnoWb : ∀ q : Nat, q ≠ p → ¬ c2SecWrites g q b := by
    rintro q hqp ⟨sq, hq, hrq, hx⟩
    rcases hx with hx | hx
    · subst hx
      rw [hq] at hbget
      exact hbnr (Option.some.inj hbget ▸ hrq)
    · obtain ⟨b2, bs2, h1, h2, h3, huniq⟩ := hstruct q sq hq hrq
      have hb2 : b2 = b := Option.some.inj (h1.symm.trans hx)
      exact (huniq hqp).1 hb2
  have hnoWy : ∀ (q y : Nat), q ≠ p →
      (bs.symPos = some y ∨ bs.secsymPos = some y) → ¬ c2SymWrites g q y := by
    rintro q y hqp hy ⟨sq, b2, bs2, hq, hrq, h1, h2, hcell⟩
    obtain ⟨b2', bs2', h1', h2', _, huniq⟩ := hstruct q sq hq hrq
    have hb2 : b2' = b2 := Option.some.inj (h1'.symm.trans h1)
    subst hb2
    rw [h2] at h2'
    have hbs2 : bs2 = bs2' := Option.some.inj h2'
    subst hbs2
    obtain ⟨hs1, hs2⟩ := (huniq hqp).2 y hy
    rcases hcell with hc | hc
    · exact hs1 hc
    · exact hs2 hc
  have hv : ∀ y : Nat, (bs.symPos = some y ∨ bs.secsymPos = some y) →
      (g.symbols[y]?).isSome := by
    intro y hy
    rw [List.getElem?_eq_getElem (hval y hy)]
    rfl
  obtain ⟨hp, _⟩ := List.getElem?_eq_some_iff.mp hget
  obtain ⟨l2, hsplit, hl2⟩ := range_pivot hp
  obtain ⟨g1, hgo1, hsh1, hsec1, hsym1⟩ :=
    c2go_frame g Hbase (List.range p) g (shapeEq_refl g)
  have hstat1 : readSecStatus g1 p = some Status.SAME := by
    rw [hsec1 p (fun q hq => hnoWp q (by have := List.mem_range.mp hq; omega))]
    show (g.sections[p]?).map _ = _
    rw [hget]
    simp only [Option.map_some']
    rw [hsame]
  obtain ⟨g2, hstep, hsh2, htrue, hfalse⟩ :=
    c2step_action hsh1 hget hrela hstat1 hbase hbget hbnr hv
  obtain ⟨g', hgo2, hsh', hsec', hsym'⟩ := c2go_frame g Hbase l2 g2 hsh2
  refine ⟨g', ?_, ?_, ?_⟩
  · unfold compareRelaPhase
    rw [hsplit, c2go_append, hgo1]
    simp only [c2go, hstep]
    exact hgo2
  · intro hn
    obtain ⟨hcp, hcb, hcy⟩ := htrue hn
    refine ⟨?_, ?_, ?_, ?_⟩
    · rw [hsec' p (fun q hq => hnoWp q (by have := hl2 q hq; omega))]
      exact hcp
    · rw [hsec' b (fun q hq => hnoWb q (by have := hl2 q hq; omega))]
      exact hcb
    · intro y hy
      rw [hsym' y (fun q hq =>
        hnoWy q y (by have := hl2 q hq; omega) (Or.inl hy))]
      exact hcy y (Or.inl hy)
    · intro y hy
      rw [hsym' y (fun q hq =>
        hnoWy q y (by have := hl2 q hq; omega) (Or.inr hy))]
      exact hcy y (Or.inr hy)
  · intro hn
    rw [hsec' p (fun q hq => hnoWp q (by have := hl2 q hq; omega))]
    exact hfalse hn

def c2shdr0 : GElfShdr :=
  { sh_name := 1, sh_type := 1, sh_flags := 6, sh_addr := 0, sh_offset := 64
    sh_size := 16, sh_link := 0, sh_info := 0, sh_addralign := 16
    sh_entsize := 0 }

def c2shdrR : GElfShdr :=
  { sh_name := 7, sh_type := SHT_RELA, sh_flags := 0, sh_addr := 0
    sh_offset := 128, sh_size := 24, sh_link := 3, sh_info := 1
    sh_addralign := 8, sh_entsize := 24 }

def c2relaNew : Rela :=
  { rela := { r_offset := 4, r_info := GELF_R_INFO 1 2, r_addend := 0 }
    symPos := 1, type := 2, addend := 0, offset := 4, string := none
    twin := none, status := Status.NEW }

def c2secText : KSection :=
  { twin := some 0, sh := c2shdr0, dataBuf := [0, 1, 2, 3], dataSize := 4
    name := ".text", index := 1, status := Status.SAME, basePos := none
    relas := [], relaPos := some 1, symPos := some 1, secsymPos := some 2 }

def c2secRela : KSection :=
  { twin := some 1, sh := c2shdrR, dataBuf := [], dataSize := 0
    name := ".rela.text", index := 2, status := Status.SAME, basePos := some 0
    relas := [c2relaNew], relaPos := none, symPos := none, secsymPos := none }

def c2symNull : KSymbol :=
  { twin := none, secIdx := none
    sym := { st_name := 0, st_info := 0, st_other := 0, st_shndx := 0
             st_value := 0, st_size := 0 }
    name := none, index := 0, bind := STB_LOCAL, type := STT_NOTYPE
    status := Status.SAME }

def c2symFunc : KSymbol :=
  { twin := some 1, secIdx := some 0
    sym := { st_name := 1, st_info := GELF_ST_INFO STB_LOCAL STT_FUNC
             st_other := 0, st_shndx := 1, st_value := 0, st_size := 16 }
    name := some "foo", index := 1, bind := STB_LOCAL, type := STT_FUNC
    status := Status.SAME }

def c2symSec : KSymbol :=
  { twin := some 2, secIdx := some 0
    sym := { st_name := 0, st_info := GELF_ST_INFO STB_LOCAL STT_SECTION
             st_other := 0, st_shndx := 1, st_value := 0, st_size := 0 }
    name := some ".text", index := 2, bind := STB_LOCAL, type := STT_SECTION
    status := Status.SAME }

def c2g : KpatchElf :=
  { elfClass := some ELFCLASS64
    sections := [c2secText, c2secRela]
    symbols := [c2symNull, c2symFunc, c2symSec] }

theorem c2_witness :
    ∃ g', compareRelaPhase c2g = some g' ∧
      readSecStatus g' 1 = some Status.CHANGED ∧
      readSecStatus g' 0 = some Status.CHANGED ∧
      readSymStatus g' 1 = some Status.CHANGED ∧
      readSymStatus g' 2 = some Status.CHANGED := by
  obtain ⟨g', hrun, htrue, _⟩ :=
    c2_renumber_only_refinement c2g 1 0 c2secRela c2secText (by decide)
      (by decide) (by decide) (by decide) (by decide) (by decide)
  obtain ⟨h1, h2, h3, h4⟩ := htrue (by decide)
  exact ⟨g', hrun, h1, h2, h3 1 (by decide), h4 2 (by decide)⟩

lemma classifyNonrela_congr {base : KpatchElf} {a b : KSection}
    (ht : a.twin = b.twin) (hsh : a.sh = b.sh) (hdb : a.dataBuf = b.dataBuf)
    (hds : a.dataSize = b.dataSize) :
    classifyNonrela base a = classifyNonrela base b := by
  unfold classifyNonrela kpatch_compare_correlated_nonrela_section
  rw [ht, hsh, hdb, hds]

lemma c3writes_shape {g0 g : KpatchElf} (h : shapeEq g0 g) (p : Nat)
    (sec : KSection) (st : Status) : shapeEq g0 (c3writes g p sec st) :=
  shapeEq_optUpdSec
    (shapeEq_optUpdSym
      (shapeEq_optUpdSym (shapeEq_updSec h p st) sec.symPos st)
      sec.secsymPos st)
    sec.relaPos st

lemma c3writes_sec_frame (g : KpatchElf) {p x : Nat} (sec : KSection)
    (st : Status) (hxp : p ≠ x) (hrr : sec.relaPos ≠ some x) :
    readSecStatus (c3writes g p sec st) x = readSecStatus g x := by
  unfold c3writes
  rw [readSecStatus_optUpdSec_ne _ hrr, readSecStatus_optUpdSym,
    readSecStatus_optUpdSym, readSecStatus_updSec_ne _ hxp]

lemma c3writes_sym_frame (g : KpatchElf) (p : Nat) {sec : KSection} {y : Nat}
    (st : Status) (hsy : sec.symPos ≠ some y) (hss : sec.secsymPos ≠ some y) :
    readSymStatus (c3writes g p sec st) y = readSymStatus g y := by
  unfold c3writes
  rw [readSymStatus_optUpdSec, readSymStatus_optUpdSym_ne _ hss,
    readSymStatus_optUpdSym_ne _ hsy]
  rfl

lemma c3writes_sec_val_p {g : KpatchElf} {p : Nat} {sp' : KSection}
    (sec : KSection) (st : Status) (hrp : sec.relaPos ≠ some p)
    (hgp : g.sections[p]? = some sp') :
    readSecStatus (c3writes g p sec st) p = some st := by
  unfold c3writes
  rw [readSecStatus_optUpdSec_ne _ hrp, readSecStatus_optUpdSym,
    readSecStatus_optUpdSym, readSecStatus_updSec_eq hgp]

lemma c3writes_sec_val_r {g : KpatchElf} {p rr : Nat} {sec : KSection}
    (st : Status) (hrr : sec.relaPos = some rr)
    (hv : (g.sections[rr]?).isSome) :
    readSecStatus (c3writes g p sec st) rr = some st := by
  unfold c3writes
  refine readSecStatus_optUpdSec_eq hrr ?_ st
  rw [optUpdSym_sections, optUpdSym_sections]
  exact statusUpdSec_sections_isSome g p rr st hv

lemma c3writes_sym_val {g : KpatchElf} (p : Nat) {sec : KSection} {y : Nat}
    (st : Status) (hy : sec.symPos = some y ∨ sec.secsymPos = some y)
    (hv : (g.symbols[y]?).isSome) :
    readSymStatus (c3writes g p sec st) y = some st := by
  unfold c3writes
  rw [readSymStatus_optUpdSec]
  have hv2 : ((statusUpdSec g p st).symbols[y]?).isSome := hv
  by_cases hss : sec.secsymPos = some y
  · exact readSymStatus_optUpdSym_eq hss
      (optUpdSym_symbols_isSome _ sec.symPos st hv2) st
  · rcases hy with hsy | hsy
    · rw [readSymStatus_optUpdSym_ne _ hss]
      exact readSymStatus_optUpdSym_eq hsy hv2 st
    · exact absurd hsy hss

/-- The section-status cells iteration q of the non-rela comparison loop
may write: its own cell and its attached relocation section. -/
def c3SecWrites (g0 : KpatchElf) (q x : Nat) : Prop :=
  ∃ sq, g0.sections[q]? = some sq ∧ sq.sh.sh_type ≠ SHT_RELA ∧
    (x = q ∨ sq.relaPos = some x)

/-- The symbol-status cells iteration q of the non-rela comparison loop
may write: its entity and section symbols. -/
def c3SymWrites (g0 : KpatchElf) (q y : Nat) : Prop :=
  ∃ sq, g0.sections[q]? = some sq ∧ sq.sh.sh_type ≠ SHT_RELA ∧
    (sq.symPos = some y ∨ sq.secsymPos = some y)

/-- One iteration of the non-rela comparison loop succeeds on a graph
whose non-relocation sections all classify, preserves all fields but
statuses, and changes only its own write cells. -/
lemma c3step_spec (base g0 : KpatchElf) (q : Nat)
    (Hq : ∀ sq : KSection, g0.sections[q]? = some sq →
      sq.sh.sh_type ≠ SHT_RELA → (classifyNonrela base sq).isSome) :
    ∀ (g : KpatchElf), shapeEq g0 g →
    ∃ g2, c3step base g q = some g2 ∧ shapeEq g0 g2 ∧
      (∀ x, ¬ c3SecWrites g0 q x → readSecStatus g2 x = readSecStatus g x) ∧
      (∀ y, ¬ c3SymWrites g0 q y → readSymStatus g2 y = readSymStatus g y) := by
  intro g hshape
  cases hq : g.sections[q]? with
  | none =>
    refine ⟨g, ?_, hshape, fun x _ => rfl, fun y _ => rfl⟩
    simp only [c3step, hq]
  | some sq1 =>
    by_cases hr : sq1.sh.sh_type = SHT_RELA
    · refine ⟨g, ?_, hshape, fun x _ => rfl, fun y _ => rfl⟩
      simp only [c3step, hq]
      rw [if_pos hr]
    · obtain ⟨sq0, hq0, hsh0, _, _, hsym0, hssym0, hrp0, ht0, hdb0, hds0, _⟩ :=
        shapeEq_section_fields (shapeEq_symm hshape) hq
      have hr0 : sq0.sh.sh_type ≠ SHT_RELA := by rw [hsh0]; exact hr
      have hcls : (classifyNonrela base sq1).isSome := by
        rw [classifyNonrela_congr ht0.symm hsh0.symm hdb0.symm hds0.symm]
        exact Hq sq0 hq0 hr0
      obtain ⟨st, hst⟩ := Option.isSome_iff_exists.mp hcls
      refine ⟨c3writes g q sq1 st, ?_, c3writes_shape hshape q sq1 st, ?_, ?_⟩
      · simp only [c3step, hq]
        rw [if_neg hr]
        simp only [hst]
      · intro x hx
        have hxq : x ≠ q := fun hc => hx ⟨sq0, hq0, hr0, Or.inl hc⟩
        have hrr : sq1.relaPos ≠ some x := by
          rw [← hrp0]
          exact fun hc => hx ⟨sq0, hq0, hr0, Or.inr hc⟩
        exact c3writes_sec_frame g sq1 st (fun hc => hxq hc.symm) hrr
      · intro y hy
        have hsy : sq1.symPos ≠ some y := by
          rw [← hsym0]
          exact fun hc => hy ⟨sq0, hq0, hr0, Or.inl hc⟩
        have hss : sq1.secsymPos ≠ some y := by
          rw [← hssym0]
          exact fun hc => hy ⟨sq0, hq0, hr0, Or.inr hc⟩
        exact c3writes_sym_frame g q st hsy hss

lemma c3go_frame (base g0 : KpatchElf) :
    ∀ (ps : List Nat),
      (∀ q ∈ ps, ∀ sq : KSection, g0.sections[q]? = some sq →
        sq.sh.sh_type ≠ SHT_RELA → (classifyNonrela base sq).isSome) →
      ∀ (g : KpatchElf), shapeEq g0 g →
      ∃ g', c3go base ps g = some g' ∧ shapeEq g0 g' ∧
        (∀ x, (∀ q ∈ ps, ¬ c3SecWrites g0 q x) →
          readSecStatus g' x = readSecStatus g x) ∧
        (∀ y, (∀ q ∈ ps, ¬ c3SymWrites g0 q y) →
          readSymStatus g' y = readSymStatus g y) := by
  intro ps
  induction ps with
  | nil =>
    intro _ g hg
    exact ⟨g, rfl, hg, fun x _ => rfl, fun y _ => rfl⟩
  | cons q ps ih =>
    intro Hok g hg
    obtain ⟨g2, hstep, hg2, hsec2, hsym2⟩ :=
      c3step_spec base g0 q (Hok q (List.mem_cons_self _ _)) g hg
    obtain ⟨g', hgo, hg', hsec', hsym'⟩ :=
      ih (fun q' hq' => Hok q' (List.mem_cons_of_mem _ hq')) g2 hg2
    refine ⟨g', ?_, hg', ?_, ?_⟩
    · simp only [c3go, hstep]
      exact hgo
    · intro x hx
      rw [hsec' x (fun q' hq' => hx q' (List.mem_cons_of_mem _ hq')),
        hsec2 x (hx q (List.mem_cons_self _ _))]
    · intro y hy
      rw [hsym' y (fun q' hq' => hy q' (List.mem_cons_of_mem _ hq')),
        hsym2 y (hy q (List.mem_cons_self _ _))]

lemma c3go_append (base : KpatchElf) (l1 l2 : List Nat) (g : KpatchElf) :
    c3go base (l1 ++ l2) g = match c3go base l1 g with
      | none => none
      | some g2 => c3go base l2 g2 := by
  induction l1 generalizing g with
  | nil => rfl
  | cons q l1 ih =>
    simp only [List.cons_append, c3go]
    cases c3step base g q with
    | none => rfl
    | some g2 => exact ih g2

/-- The iteration of the non-rela comparison loop at the section under
study: its classification is written to its own cell and propagated to
its entity symbol, section symbol and attached relocation section. -/
lemma c3step_action {base g0 g : KpatchElf} {p : Nat} {sec : KSection}
    {st : Status}
    (hshape : shapeEq g0 g)
    (hget : g0.sections[p]? = some sec)
    (hnr : sec.sh.sh_type ≠ SHT_RELA)
    (hcls : classifyNonrela base sec = some st)
    (hrp : sec.relaPos ≠ some p)
    (hvs : ∀ y : Nat, (sec.symPos = some y ∨ sec.secsymPos = some y) →
      (g0.symbols[y]?).isSome)
    (hvr : ∀ rr : Nat, sec.relaPos = some rr → (g0.sections[rr]?).isSome) :
    ∃ g2, c3step base g p = some g2 ∧ shapeEq g0 g2 ∧
      readSecStatus g2 p = some st ∧
      (∀ y : Nat, (sec.symPos = some y ∨ sec.secsymPos = some y) →
        readSymStatus g2 y = some st) ∧
      (∀ rr : Nat, sec.relaPos = some rr → readSecStatus g2 rr = some st) := by
  obtain ⟨sec1, hget1, hsh1, _, _, hsym1, hssym1, hrp1, ht1, hdb1, hds1, _⟩ :=
    shapeEq_section_fields hshape hget
  have hnr1 : ¬ sec1.sh.sh_type = SHT_RELA := by rw [hsh1]; exact hnr
  have hcls1 : classifyNonrela base sec1 = some st := by
    rw [classifyNonrela_congr ht1 hsh1 hdb1 hds1]
    exact hcls
  refine ⟨c3writes g p sec1 st, ?_, c3writes_shape hshape p sec1 st, ?_, ?_, ?_⟩
  · simp only [c3step, hget1]
    rw [if_neg hnr1]
    simp only [hcls1]
  · exact c3writes_sec_val_p sec1 st (by rw [hrp1]; exact hrp) hget1
  · intro y hy
    have hy1 : sec1.symPos = some y ∨ sec1.secsymPos = some y := by
      rw [hsym1, hssym1]
      exact hy
    exact c3writes_sym_val p st hy1 (shapeEq_symbols_isSome hshape (hvs y hy))
  · intro rr hr
    have hr1 : sec1.relaPos = some rr := by rw [hrp1]; exact hr
    have hv1 : (g.sections[rr]?).isSome := by
      have h0 := hvr rr hr
      obtain ⟨rs, hrs⟩ := Option.isSome_iff_exists.mp h0
      obtain ⟨rs1, hrs1, _⟩ := shapeEq_section_fields hshape hrs
      rw [hrs1]
      rfl
    exact c3writes_sec_val_r st hr1 hv1

/-- Decidable well-formedness of the correlated graph around one
non-relocation section at p, for concrete witnesses: every section's
attached relocation pointer names a relocation section, its symbol
pointers are in range, and every OTHER non-relocation section
classifies without a fatal mismatch and shares none of p's write
cells. -/
def c3wfb (base g : KpatchElf) (p : Nat) : Bool :=
  match g.sections[p]? with
  | none => false
  | some sec =>
    g.sections.enum.all (fun qs =>
      (qs.2.sh.sh_type == SHT_RELA) ||
      ((match qs.2.relaPos with
        | some rr =>
          match g.sections[rr]? with
          | some rs => rs.sh.sh_type == SHT_RELA
          | none => false
        | none => true) &&
       ((match qs.2.symPos with
         | some y => decide (y < g.symbols.length)
         | none => true) &&
        ((match qs.2.secsymPos with
          | some y => decide (y < g.symbols.length)
          | none => true) &&
         (qs.1 == p ||
          ((classifyNonrela base qs.2).isSome &&
           ((match sec.relaPos with
             | some rr => !(qs.2.relaPos == some rr)
             | none => true) &&
            ((match sec.symPos with
              | some y => !(qs.2.symPos == some y) && !(qs.2.secsymPos == some y)
              | none => true) &&
             (match sec.secsymPos with
              | some y => !(qs.2.symPos == some y) && !(qs.2.secsymPos == some y)
              | none => true)))))))))

lemma c3wfb_implies {base g : KpatchElf} {p : Nat} {sec : KSection}
    (hget : g.sections[p]? = some sec) (h : c3wfb base g p = true) :
    ∀ (q : Nat) (sq : KSection), g.sections[q]? = some sq →
      sq.sh.sh_type ≠ SHT_RELA →
      (∀ rr : Nat, sq.relaPos = some rr →
        ∃ rs, g.sections[rr]? = some rs ∧ rs.sh.sh_type = SHT_RELA) ∧
      (∀ y : Nat, (sq.symPos = some y ∨ sq.secsymPos = some y) →
        y < g.symbols.length) ∧
      (q ≠ p →
        (classifyNonrela base sq).isSome ∧
        (∀ rr : Nat, sec.relaPos = some rr → sq.relaPos ≠ some rr) ∧
        (∀ y : Nat, (sec.symPos = some y ∨ sec.secsymPos = some y) →
          sq.symPos ≠ some y ∧ sq.secsymPos ≠ some y)) := by
  unfold c3wfb at h
  rw [hget] at h
  rw [List.all_eq_true] at h
  intro q sq hq hr
  have hqs := h (q, sq) (List.mk_mem_enum_iff_getElem?.mpr hq)
  rw [Bool.or_eq_true] at hqs
  rcases hqs with hqs | hqs
  · exact absurd (by simpa using hqs) hr
  · rw [Bool.and_eq_true, Bool.and_eq_true, Bool.and_eq_true] at hqs
    obtain ⟨hrel, hsy, hss, hrest⟩ := hqs
    refine ⟨?_, ?_, ?_⟩
    · intro rr hrr
      simp only [hrr] at hrel
      revert hrel
      split
      next rs hrs => intro hrel; exact ⟨rs, hrs, by simpa using hrel⟩
      next hrs => intro hrel; exact absurd hrel Bool.false_ne_true
    · intro y hy
      rcases hy with hy | hy
      · rw [hy] at hsy
        exact of_decide_eq_true hsy
      · rw [hy] at hss
        exact of_decide_eq_true hss
    · intro hqp
      rw [Bool.or_eq_true] at hrest
      rcases hrest with hrest | hrest
      · exact absurd (by simpa using hrest) hqp
      · rw [Bool.and_eq_true, Bool.and_eq_true, Bool.and_eq_true] at hrest
        obtain ⟨hcls, hprr, hpsy, hpss⟩ := hrest
        refine ⟨hcls, ?_, ?_⟩
        · intro rr hrr
          simp only [hrr] at hprr
          rw [Bool.not_eq_true'] at hprr
          exact fun hc => by rw [hc] at hprr; simp at hprr
        · intro y hy
          rcases hy with hy | hy
          · rw [hy, Bool.and_eq_true] at hpsy
            obtain ⟨h1, h2⟩ := hpsy
            rw [Bool.not_eq_true'] at h1 h2
            exact ⟨by simpa using h1, by simpa using h2⟩
          · rw [hy, Bool.and_eq_true] at hpss
            obtain ⟨h1, h2⟩ := hpss
            rw [Bool.not_eq_true'] at h1 h2
            exact ⟨by simpa using h1, by simpa using h2⟩

/-- C3 (content-section classification).  A non-relocation section with
no twin is NEW; with a twin, a mismatch of the compared header fields is
fatal for the whole loop, otherwise the status is CHANGED exactly when
the sizes differ or (outside no-bits sections) the bytes differ, and
SAME otherwise; the status is then copied to the section's entity
symbol, section symbol and attached relocation section when present. -/
theorem c3_content_classification
    (base g : KpatchElf) (p : Nat) (sec : KSection)
    (hget : g.sections[p]? = some sec)
    (hnr : sec.sh.sh_type ≠ SHT_RELA)
    (hwf : c3wfb base g p = true) :
    (classifyNonrela base sec = none →
      kpatch_compare_correlated_nonrela_sections base g = none) ∧
    (∀ st : Status, classifyNonrela base sec = some st →
      ((sec.twin = none → st = Status.NEW) ∧
       (∀ (t : Nat) (tw : KSection), sec.twin = some t →
         base.sections[t]? = some tw →
         (st = Status.CHANGED ↔
           (sec.sh.sh_size ≠ tw.sh.sh_size ∨ sec.dataSize ≠ tw.dataSize ∨
            (sec.sh.sh_type ≠ SHT_NOBITS ∧
             sec.dataBuf.take sec.dataSize ≠ tw.dataBuf.take sec.dataSize))) ∧
         (st = Status.CHANGED ∨ st = Status.SAME))) ∧
      ∃ g', kpatch_compare_correlated_nonrela_sections base g = some g' ∧
        readSecStatus g' p = some st ∧
        (∀ y : Nat, sec.symPos = some y → readSymStatus g' y = some st) ∧
        (∀ y : Nat, sec.secsymPos = some y → readSymStatus g' y = some st) ∧
        (∀ rr : Nat, sec.relaPos = some rr → readSecStatus g' rr = some st)) := by
  have hS := c3wfb_implies hget hwf
  obtain ⟨hrelp, hvalp, _⟩ := hS p sec hget hnr
  have hrp : sec.relaPos ≠ some p := by
    intro hc
    obtain ⟨rs, hrs, hrsr⟩ := hrelp p hc
    rw [hget] at hrs
    exact hnr (Option.some.inj hrs ▸ hrsr)
  obtain ⟨hp, _⟩ := List.getElem?_eq_some_iff.mp hget
  obtain ⟨l2, hsplit, hl2⟩ := range_pivot hp
  have HokNe : ∀ q : Nat, q ≠ p → ∀ sq : KSection, g.sections[q]? = some sq →
      sq.sh.sh_type ≠ SHT_RELA → (classifyNonrela base sq).isSome := by
    intro q hqp sq hq hr
    exact ((hS q sq hq hr).2.2 hqp).1
  have hnoWp : ∀ q : Nat, q ≠ p → ¬ c3SecWrites g q p := by
    rintro q hqp ⟨sq, hq, hrq, hx⟩
    rcases hx with hx | hx
    · exact hqp hx.symm
    · obtain ⟨rs, hrs, hrsr⟩ := (hS q sq hq hrq).1 p hx
      rw [hget] at hrs
      exact hnr (Option.some.inj hrs ▸ hrsr)
  have hnoWr : ∀ (q rr : Nat), q ≠ p → sec.relaPos = some rr →
      ¬ c3SecWrites g q rr := by
    rintro q rr hqp hrr ⟨sq, hq, hrq, hx⟩
    rcases hx with hx | hx
    · obtain ⟨rs, hrs, hrsr⟩ := hrelp rr hrr
      rw [← hx] at hq
      rw [hrs] at hq
      exact hrq (Option.some.inj hq ▸ hrsr)
    · exact ((hS q sq hq hrq).2.2 hqp).2.1 rr hrr hx
  have hnoWy : ∀ (q y : Nat), q ≠ p →
      (sec.symPos = some y ∨ sec.secsymPos = some y) →
      ¬ c3SymWrites g q y := by
    rintro q y hqp hy ⟨sq, hq, hrq, hx⟩
    obtain ⟨h1, h2⟩ := ((hS q sq hq hrq).2.2 hqp).2.2 y hy
    rcases hx with hx | hx
    · exact h1 hx
    · exact h2 hx
  have hvs : ∀ y : Nat, (sec.symPos = some y ∨ sec.secsymPos = some y) →
      (g.symbols[y]?).isSome := by
    intro y hy
    rw [List.getElem?_eq_getElem (hvalp y hy)]
    rfl
  have hvr : ∀ rr : Nat, sec.relaPos = some rr →
      (g.sections[rr]?).isSome := by
    intro rr hrr
    obtain ⟨rs, hrs, _⟩ := hrelp rr hrr
    rw [hrs]
    rfl
  have hMemNe1 : ∀ q ∈ List.range p, q ≠ p := by
    intro q hq
    have := List.mem_range.mp hq
    omega
  have hMemNe2 : ∀ q ∈ l2, q ≠ p := by
    intro q hq
    have := hl2 q hq
    omega
  obtain ⟨g1, hgo1, hsh1, hsec1, hsym1⟩ :=
    c3go_frame base g (List.range p)
      (fun q hq => HokNe q (hMemNe1 q hq)) g (shapeEq_refl g)
  obtain ⟨sec1, hget1, hsh1f, _, _, _, _, _, ht1, hdb1, hds1, _⟩ :=
    shapeEq_section_fields hsh1 hget
  have hnr1 : ¬ sec1.sh.sh_type = SHT_RELA := by rw [hsh1f]; exact hnr
  constructor
  · intro hclsnone
    have hclsnone1 : classifyNonrela base sec1 = none := by
      rw [classifyNonrela_congr ht1 hsh1f hdb1 hds1]
      exact hclsnone
    have hstepnone : c3step base g1 p = none := by
      simp only [c3step, hget1]
      rw [if_neg hnr1]
      simp only [hclsnone1]
    unfold kpatch_compare_correlated_nonrela_sections
    rw [hsplit, c3go_append, hgo1]
    simp only [c3go, hstepnone]
  · intro st hst
    constructor
    · constructor
      · intro htw
        simp only [classifyNonrela, htw] at hst
        exact (Option.some.inj hst).symm
      · intro t tw htw htwget
        simp only [classifyNonrela, htw, htwget] at hst
        revert hst
        unfold kpatch_compare_correlated_nonrela_section
        split
        · intro hst
          cases hst
        · intro hst
          have hst' := Option.some.inj hst
          by_cases hcond : sec.sh.sh_size ≠ tw.sh.sh_size ∨
              sec.dataSize ≠ tw.dataSize ∨
              (sec.sh.sh_type ≠ SHT_NOBITS ∧
               sec.dataBuf.take sec.dataSize ≠ tw.dataBuf.take sec.dataSize)
          · rw [if_pos hcond] at hst'
            exact ⟨⟨fun _ => hcond, fun _ => hst'.symm⟩, Or.inl hst'.symm⟩
          · rw [if_neg hcond] at hst'
            refine ⟨⟨fun hc => ?_, fun hc => absurd hc hcond⟩, Or.inr hst'.symm⟩
            rw [← hst'] at hc
            cases hc
    · obtain ⟨g2, hstep, hsh2, hvp, hvy, hvr2⟩ :=
        c3step_action hsh1 hget hnr hst hrp hvs hvr
      obtain ⟨g', hgo2, hsh', hsec', hsym'⟩ :=
        c3go_frame base g l2 (fun q hq => HokNe q (hMemNe2 q hq)) g2 hsh2
      refine ⟨g', ?_, ?_, ?_, ?_, ?_⟩
      · unfold kpatch_compare_correlated_nonrela_sections
        rw [hsplit, c3go_append, hgo1]
        simp only [c3go, hstep]
        exact hgo2
      · rw [hsec' p (fun q hq => hnoWp q (hMemNe2 q hq))]
        exact hvp
      · intro y hy
        rw [hsym' y (fun q hq => hnoWy q y (hMemNe2 q hq) (Or.inl hy))]
        exact hvy y (Or.inl hy)
      · intro y hy
        rw [hsym' y (fun q hq => hnoWy q y (hMemNe2 q hq) (Or.inr hy))]
        exact hvy y (Or.inr hy)
      · intro rr hrr
        rw [hsec' rr (fun q hq => hnoWr q rr (hMemNe2 q hq) hrr)]
        exact hvr2 rr hrr

def c3shdrText : GElfShdr :=
  { sh_name := 1, sh_type := 1, sh_flags := 6, sh_addr := 0, sh_offset := 64
    sh_size := 4, sh_link := 0, sh_info := 0, sh_addralign := 16
    sh_entsize := 0 }

def c3shdrR : GElfShdr :=
  { sh_name := 7, sh_type := SHT_RELA, sh_flags := 0, sh_addr := 0
    sh_offset := 128, sh_size := 24, sh_link := 3, sh_info := 1
    sh_addralign := 8, sh_entsize := 24 }

def c3secTBase : KSection :=
  { twin := some 0, sh := c3shdrText, dataBuf := [1, 2, 3, 4], dataSize := 4
    name := ".text", index := 1, status := Status.SAME, basePos := none
    relas := [], relaPos := none, symPos := none, secsymPos := none }

def c3base : KpatchElf :=
  { elfClass := some ELFCLASS64, sections := [c3secTBase], symbols := [] }

def c3secT : KSection :=
  { twin := some 0, sh := c3shdrText, dataBuf := [1, 2, 9, 4], dataSize := 4
    name := ".text", index := 1, status := Status.SAME, basePos := none
    relas := [], relaPos := some 1, symPos := some 1, secsymPos := some 2 }

def c3secR : KSection :=
  { twin := none, sh := c3shdrR, dataBuf := [], dataSize := 0
    name := ".rela.text", index := 2, status := Status.NEW, basePos := some 0
    relas := [], relaPos := none, symPos := none, secsymPos := none }

def c3sym0 : KSymbol :=
  { twin := none, secIdx := none
    sym := { st_name := 0, st_info := 0, st_other := 0, st_shndx := 0
             st_value := 0, st_size := 0 }
    name := none, index := 0, bind := STB_LOCAL, type := STT_NOTYPE
    status := Status.SAME }

def c3sym1 : KSymbol :=
  { twin := some 1, secIdx := some 0
    sym := { st_name := 1, st_info := GELF_ST_INFO STB_LOCAL STT_FUNC
             st_other := 0, st_shndx := 1, st_value := 0, st_size := 4 }
    name := some "bar", index := 1, bind := STB_LOCAL, type := STT_FUNC
    status := Status.SAME }

def c3sym2 : KSymbol :=
  { twin := some 2, secIdx := some 0
    sym := { st_name := 0, st_info := GELF_ST_INFO STB_LOCAL STT_SECTION
             st_other := 0, st_shndx := 1, st_value := 0, st_size := 0 }
    name := some ".text", index := 2, bind := STB_LOCAL, type := STT_SECTION
    status := Status.SAME }

def c3g : KpatchElf :=
  { elfClass := some ELFCLASS64
    sections := [c3secT, c3secR]
    symbols := [c3sym0, c3sym1, c3sym2] }

theorem c3_witness :
    ∃ g', kpatch_compare_correlated_nonrela_sections c3base c3g = some g' ∧
      readSecStatus g' 0 = some Status.CHANGED ∧
      readSymStatus g' 1 = some Status.CHANGED ∧
      readSymStatus g' 2 = some Status.CHANGED ∧
      readSecStatus g' 1 = some Status.CHANGED := by
  obtain ⟨_, hsome⟩ :=
    c3_content_classification c3base c3g 0 c3secT (by decide) (by decide)
      (by decide)
  obtain ⟨_, g', hrun, hp, hsy, hss, hrr⟩ := hsome Status.CHANGED (by decide)
  exact ⟨g', hrun, hp, hsy 1 (by decide), hss 2 (by decide), hrr 1 (by decide)⟩

/-! ## Claim C5: the correlation pipeline, the report and the output -/

/-- kpatch_correlate_sections: every base section adopts the first
patched section of the same name; the patched twin points back at the
base position and both start as SAME (only the patched side is carried
forward, the base table is not read again after correlation except
through twin positions). -/
def kpatch_correlate_sections (base patched : KpatchElf) : KpatchElf :=
  let secs := base.sections.enum.foldl
    (fun secs2 pr =>
      match secs2.findIdx? (fun s2 => s2.name == pr.2.name) with
      | none => secs2
      | some j => updAt secs2 j
          (fun s2 => { s2 with twin := some pr.1, status := Status.SAME }))
    patched.sections
  { patched with sections := secs }

/-- kpatch_correlate_symbols: like the sections, skipping symbol 0 on
both sides and matching by name. -/
def kpatch_correlate_symbols (base patched : KpatchElf) : KpatchElf :=
  let syms := base.symbols.enum.foldl
    (fun syms2 pr =>
      if pr.1 = 0 then syms2
      else
        match syms2.enum.find?
            (fun qs => qs.1 != 0 && qs.2.name == pr.2.name) with
        | none => syms2
        | some qs => updAt syms2 qs.1
            (fun s2 => { s2 with twin := some pr.1, status := Status.SAME }))
    patched.symbols
  { patched with symbols := syms }

/-- The inner loops of kpatch_correlate_relas: each base entry pairs
with the first structurally equal patched entry, which records the base
position and becomes SAME. -/
def correlateRelasGo (symsB symsP : List KSymbol) :
    List Rela → List Rela → Nat → List Rela
  | [], prelas, _ => prelas
  | r1 :: rest, prelas, i =>
    match prelas.findIdx? (fun r2 => rela_equal symsB symsP r1 r2) with
    | none => correlateRelasGo symsB symsP rest prelas (i + 1)
    | some j =>
      correlateRelasGo symsB symsP rest
        (updAt prelas j
          (fun r2 => { r2 with twin := some i, status := Status.SAME }))
        (i + 1)

/-- The correlate-relas loop of kpatch_correlate_elfs: for every base
relocation section, dereference its twin (the first patched section of
the same name, NULL dereference modelled as none) and pair the entries. -/
def correlateRelasSecs (symsB symsP : List KSymbol) :
    List (Nat × KSection) → List KSection → Option (List KSection)
  | [], psecs => some psecs
  | (_, bsec) :: rest, psecs =>
    if bsec.sh.sh_type = SHT_RELA then
      match psecs.findIdx? (fun s2 => s2.name == bsec.name) with
      | none => none
      | some t =>
        correlateRelasSecs symsB symsP rest
          (updAt psecs t (fun s2 =>
            { s2 with relas :=
                correlateRelasGo symsB symsP bsec.relas s2.relas 0 }))
    else correlateRelasSecs symsB symsP rest psecs

/-- kpatch_correlate_elfs, carrying the patched graph. -/
def kpatch_correlate_elfs (base patched : KpatchElf) : Option KpatchElf :=
  let p1 := kpatch_correlate_sections base patched
  let p2 := kpatch_correlate_symbols base p1
  (correlateRelasSecs base.symbols p2.symbols base.sections.enum
      p2.sections).map
    (fun secs => { p2 with sections := secs })

/-- kpatch_compare_correlated_symbol: info, other and section-binding
mismatches are fatal (none), as is an OBJECT size change; undefined and
absolute symbols are set SAME; every other twinned symbol keeps the
status correlation gave it. -/
def kpatch_compare_correlated_symbol (base g : KpatchElf) (sym1 : KSymbol)
    (t : Nat) : Option KSymbol :=
  match base.symbols[t]? with
  | none => none
  | some sym2 =>
    let secMismatch : Bool :=
      match sym1.secIdx, sym2.secIdx with
      | some s1, some s2 =>
        ((g.sections[s1]?).bind (fun s => s.twin)) != some s2
      | some _, none => true
      | none, some _ => true
      | none, none => false
    if sym1.sym.st_info ≠ sym2.sym.st_info ∨
       sym1.sym.st_other ≠ sym2.sym.st_other ∨ secMismatch = true then none
    else if sym1.type = STT_OBJECT ∧ sym1.sym.st_size ≠ sym2.sym.st_size then
      none
    else if sym1.sym.st_shndx = SHN_UNDEF ∨ sym1.sym.st_shndx = SHN_ABS then
      some { sym1 with status := Status.SAME }
    else some sym1

/-- kpatch_compare_correlated_symbols: symbol 0 is skipped; untwinned
symbols become NEW. -/
def kpatch_compare_correlated_symbols (base g : KpatchElf) :
    Option KpatchElf :=
  (g.symbols.enum.mapM (fun (pr : Nat × KSymbol) =>
    match pr with
    | (0, sym) => some sym
    | (_ + 1, sym) =>
      match sym.twin with
      | some t => kpatch_compare_correlated_symbol base g sym t
      | none => some { sym with status := Status.NEW })).map
    (fun syms => { g with symbols := syms })

/-- kpatch_compare_correlated_elements: non-rela sections, then symbols,
then the rela-status recomputation. -/
def kpatch_compare_correlated_elements (base g : KpatchElf) :
    Option KpatchElf :=
  match kpatch_compare_correlated_nonrela_sections base g with
  | none => none
  | some g1 =>
    match kpatch_compare_correlated_symbols base g1 with
    | none => none
    | some g2 => compareRelaPhase g2

/-- kpatch_find_changed_functions: prints one line per CHANGED function
and the line "no changes found" when there is none, returning the
changed flag.  main() never calls this function. -/
def kpatch_find_changed_functions (g : KpatchElf) : Bool × List String :=
  let r := g.symbols.foldl
    (fun acc sym =>
      if sym.type = STT_FUNC ∧ sym.status = Status.CHANGED then
        (true, acc.2 ++ ["function " ++ sym.name.getD "" ++ " has changed"])
      else acc)
    (false, [])
  if r.1 then r else (false, r.2 ++ ["no changes found"])

/-- The steps of main() between loading and output generation, together
with everything main prints at the normal log level (only
kpatch_include_changed_functions prints outside the debug level), and
the include flags entering kpatch_generate_output after its metadata
marking. -/
def c5run (base patched : KpatchElf) :
    Option (KpatchElf × List String × Marks) :=
  match kpatch_correlate_elfs base patched with
  | none => none
  | some g1 =>
    match kpatch_compare_correlated_elements base g1 with
    | none => none
    | some g2 =>
      let g3 := kpatch_replace_sections_syms g2
      match kpatch_include_changed_functions g3 (g3.symbols.length + 1)
          (initMarks g3) with
      | none => none
      | some ml => some (g3, ml.2, kpatch_mark_metadata g3 ml.1)

/-- The graph that kpatch_elf_open produces for a small object with one
function; byte-for-byte identical base and patched inputs load to this
same graph. -/
def c5secText : KSection :=
  { twin := none
    sh := { sh_name := 1, sh_type := SHT_PROGBITS, sh_flags := 6, sh_addr := 0
            sh_offset := 64, sh_size := 8, sh_link := 0, sh_info := 0
            sh_addralign := 16, sh_entsize := 0 }
    dataBuf := [85, 72, 137, 229, 144, 93, 195, 0], dataSize := 8
    name := ".text", index := 1, status := Status.NEW, basePos := none
    relas := [], relaPos := none, symPos := some 2, secsymPos := some 3 }

def c5secSymtab : KSection :=
  { twin := none
    sh := { sh_name := 7, sh_type := SHT_SYMTAB, sh_flags := 0, sh_addr := 0
            sh_offset := 128, sh_size := 96, sh_link := 3, sh_info := 2
            sh_addralign := 8, sh_entsize := 24 }
    dataBuf := [], dataSize := 0
    name := ".symtab", index := 2, status := Status.NEW, basePos := none
    relas := [], relaPos := none, symPos := none, secsymPos := none }

def c5secStrtab : KSection :=
  { twin := none
    sh := { sh_name := 15, sh_type := SHT_STRTAB, sh_flags := 0, sh_addr := 0
            sh_offset := 224, sh_size := 16, sh_link := 0, sh_info := 0
            sh_addralign := 1, sh_entsize := 0 }
    dataBuf := [0, 116, 101, 115, 116, 46, 99, 0, 102, 111, 111, 0]
    dataSize := 12
    name := ".strtab", index := 3, status := Status.NEW, basePos := none
    relas := [], relaPos := none, symPos := none, secsymPos := none }

def c5secShstrtab : KSection :=
  { twin := none
    sh := { sh_name := 23, sh_type := SHT_STRTAB, sh_flags := 0, sh_addr := 0
            sh_offset := 240, sh_size := 33, sh_link := 0, sh_info := 0
            sh_addralign := 1, sh_entsize := 0 }
    dataBuf := [0, 46, 116, 101, 120, 116, 0], dataSize := 7
    name := ".shstrtab", index := 4, status := Status.NEW, basePos := none
    relas := [], relaPos := none, symPos := none, secsymPos := none }

def c5sym0 : KSymbol :=
  { twin := none, secIdx := none
    sym := { st_name := 0, st_info := 0, st_other := 0, st_shndx := 0
             st_value := 0, st_size := 0 }
    name := none, index := 0, bind := STB_LOCAL, type := STT_NOTYPE
    status := Status.NEW }

def c5symFile : KSymbol :=
  { twin := none, secIdx := none
    sym := { st_name := 1, st_info := GELF_ST_INFO STB_LOCAL STT_FILE
             st_other := 0, st_shndx := SHN_ABS, st_value := 0, st_size := 0 }
    name := some "test.c", index := 1, bind := STB_LOCAL, type := STT_FILE
    status := Status.NEW }

def c5symFoo : KSymbol :=
  { twin := none, secIdx := some 0
    sym := { st_name := 8, st_info := GELF_ST_INFO STB_LOCAL STT_FUNC
             st_other := 0, st_shndx := 1, st_value := 0, st_size := 8 }
    name := some "foo", index := 2, bind := STB_LOCAL, type := STT_FUNC
    status := Status.NEW }

def c5symSec : KSymbol :=
  { twin := none, secIdx := some 0
    sym := { st_name := 0, st_info := GELF_ST_INFO STB_LOCAL STT_SECTION
             st_other := 0, st_shndx := 1, st_value := 0, st_size := 0 }
    name := some ".text", index := 3, bind := STB_LOCAL, type := STT_SECTION
    status := Status.NEW }

def c5g : KpatchElf :=
  { elfClass := some ELFCLASS64
    sections := [c5secText, c5secSymtab, c5secStrtab, c5secShstrtab]
    symbols := [c5sym0, c5symFile, c5symFoo, c5symSec] }

def c5res : Option (KpatchElf × List String × Marks) := c5run c5g c5g

def c5log : Option (List String) := c5res.map (fun r => r.2.1)

def c5dead : Option (Bool × List String) :=
  c5res.map (fun r => kpatch_find_changed_functions r.1)

def c5secMarks : Option (List Bool) := c5res.map (fun r => r.2.2.secInc)

def c5symMarks : Option (List Bool) := c5res.map (fun r => r.2.2.symInc)

def c5copiedFst : Option (List Nat) :=
  c5res.bind (fun r =>
    (kpatch_mutate_symbols r.2.2.secInc r.1.symbols).map
      (fun syms2 =>
        ((copy_all syms2 r.2.2.symInc (fun _ => none)).2.map Prod.fst)))

/-- C5 (round-trip identity, as implemented).  On byte-for-byte
identical inputs (which load to the same graph) the pipeline of main()
succeeds and prints nothing at the normal log level: the
"no changes found" message lives only in kpatch_find_changed_functions,
which main() never calls; that function applied to the compared graph
would print it.  The output-content half of the claim holds: only the
three metadata sections are included, and only the null and FILE
symbols reach the output symbol table. -/
theorem c5_roundtrip_divergence :
    c5log = some [] ∧
    c5dead = some (false, ["no changes found"]) ∧
    c5secMarks = some [false, true, true, true] ∧
    c5symMarks = some [false, true, false, false] ∧
    c5copiedFst = some [1] := by
  refine ⟨?_, ?_, ?_, ?_, ?_⟩ <;> rfl
